import Mathlib

/-!
# Job scheduling simulator (`advanced_distributed_systems/scheduling.c`)

A shallow embedding of the simulator's `main` and of its helper `max`.

Modelling conventions.
* C `int` values are mathematical integers (`Int`). Signed overflow and the
  conversion of an out-of-range floating value to `int` are undefined in C; the
  definitions of `main` describe the runs in which every `int` stays in range,
  and the definitions with the suffix `By` take the conversion as a parameter,
  so that the conversion an x86-64 machine performs (`cvtInt`) can be put in.
* C `float` and `double` values are the rationals they denote. Every floating
  operation rounds its exact result to the nearest value with 24 (`toFloat`) or
  53 (`toDouble`) significant bits, ties to even, as IEEE 754 arithmetic does;
  exponents are unbounded (no overflow to infinity, no subnormal numbers),
  which the magnitudes of this program never reach.
* The arrays `server`, `util` and `freq` are functions from the index to the
  value; only the indices `0 .. servers - 1` belong to the C arrays.
* The random source is a stream `rnd : Nat → ℚ`: `rnd k` is the value of the
  `k`-th evaluation of `(double)rand() / ((double)RAND_MAX + 1.0)`.
* Locals that `main` reads before it has assigned them (`first_job`,
  `task_duration`) start with the values of an `Uninit` record.
-/

namespace Scheduling

/-! ## Definitions -/

/-- Utility function `max` of the source: the maximum of two integers. -/
def max (a b : Int) : Int :=
  if a > b then a else b

/-- Conversion of a floating value to `int`, as C does it on assignment to an
`int` variable or with an `(int)` cast: truncation toward zero. C defines the
conversion only when the truncated value is an `int`; `cvtInt` is what an
x86-64 machine computes in every case. -/
def toInt (x : ℚ) : Int :=
  if 0 ≤ x then ⌊x⌋ else ⌈x⌉

/-- The constant `servers = 100` of `main`. -/
def servers : Nat := 100

/-- The constant `duration = 10000` of `main` (before the final widening). -/
def duration : Nat := 10000

/-- The rational `2 ^ e`, for an integer exponent `e`. -/
def twoPow (e : Int) : ℚ :=
  if 0 ≤ e then ((2 ^ e.toNat : Nat) : ℚ) else 1 / ((2 ^ (-e).toNat : Nat) : ℚ)

/-- The number of halvings that bring `n` below 2, counted with at most `fuel`
steps. -/
def log2Fuel : Nat → Nat → Nat
  | 0, _ => 0
  | fuel + 1, n => if n < 2 then 0 else log2Fuel fuel (n / 2) + 1

/-- The position of the leading bit of `n`: `2 ^ bitLog n ≤ n < 2 ^ (bitLog n + 1)`
for `n > 0`. -/
def bitLog (n : Nat) : Nat := log2Fuel n n

/-- The binary exponent of a non-zero rational `x`: the integer `e` with
`2 ^ e ≤ |x| < 2 ^ (e + 1)`. -/
def binExp (x : ℚ) : Int :=
  if twoPow ((bitLog x.num.natAbs : Int) - (bitLog x.den : Int)) ≤ |x| then
    (bitLog x.num.natAbs : Int) - (bitLog x.den : Int)
  else
    (bitLog x.num.natAbs : Int) - (bitLog x.den : Int) - 1

/-- The integer nearest to `q`, the even one of the two when `q` lies halfway. -/
def roundHalfEven (q : ℚ) : Int :=
  if q - (⌊q⌋ : ℚ) < 1 / 2 then ⌊q⌋
  else if 1 / 2 < q - (⌊q⌋ : ℚ) then ⌊q⌋ + 1
  else if ⌊q⌋ % 2 = 0 then ⌊q⌋ else ⌊q⌋ + 1

/-- Rounding of `x` to the nearest binary floating value with `p` significant
bits, ties to even (the IEEE 754 default), with an unbounded exponent. -/
def roundTo (p : Nat) (x : ℚ) : ℚ :=
  if x = 0 then 0
  else (roundHalfEven (x / twoPow (binExp x - (p : Int) + 1)) : ℚ) * twoPow (binExp x - (p : Int) + 1)

/-- The value a C `float` holds after `x` is stored in it, and the result of an
operation carried out in `float`: 24 significant bits. -/
def toFloat (x : ℚ) : ℚ := roundTo 24 x

/-- The result of an operation carried out in `double`, and the value of a
`double` literal: 53 significant bits. -/
def toDouble (x : ℚ) : ℚ := roundTo 53 x

/-- The floating expression `(1.0 + job_factor * (1.0 / f - 1.0)) * job_duration`
that appears three times in `main`, `f` being the frequency read from `freq`.
The operands `job_factor`, `job_duration` and `f` are `float` variables, promoted
to `double` without change; the division, the subtraction, the inner product,
the sum and the outer product are each rounded to `double`. -/
def execTime (job_factor job_duration f : ℚ) : ℚ :=
  toDouble (toDouble (1 + toDouble (job_factor * toDouble (toDouble (1 / f) - 1))) * job_duration)

/-- The value stored in the `int` variable `task_duration` by
`task_duration = (1.0 + job_factor * (1.0 / f - 1.0)) * job_duration`. -/
def taskDuration (job_factor job_duration f : ℚ) : Int :=
  toInt (execTime job_factor job_duration f)

/-- The frequency given to server `i` by the initialisation loop:
`freq[i] = 0.6 + 0.1 * (int)(i / 20)`, with `i / 20` an integer division. The
literals `0.6` and `0.1` are doubles, the product and the sum are rounded to
`double`, and the store into the `float` array rounds to `float`. -/
def initFreq (i : Int) : ℚ :=
  toFloat (toDouble (toDouble (6 / 10) + toDouble (toDouble (1 / 10) * ((i / 20 : Int) : ℚ))))

/-- The variables the greedy branch works on: the selected server `s`, the
running earliest finish time `eft` and the `int` variable `task_duration`. -/
structure Sel where
  s : Int
  eft : Int
  task_duration : Int
deriving DecidableEq, Repr

/-- The value `task_duration + max(t, server[i])` that the greedy loop compares
with `eft` at index `i`: the finish time of the job on server `i`, from the
integer task duration on that server and its own next available time. -/
def candidateFinish (t : Int) (server : Int → Int) (freq : Int → ℚ)
    (job_factor job_duration : ℚ) (i : Int) : Int :=
  taskDuration job_factor job_duration (freq i) + max t (server i)

/-- One iteration of the greedy loop, for loop index `i`: recompute
`task_duration` for server `i`, and when `task_duration + max(t, server[i]) < eft`
set `s = i` and `eft = task_duration + max(t, server[0])`. -/
def greedyBody (t : Int) (server : Int → Int) (freq : Int → ℚ)
    (job_factor job_duration : ℚ) (i : Int) (acc : Sel) : Sel :=
  let task_duration := taskDuration job_factor job_duration (freq i)
  if task_duration + max t (server i) < acc.eft then
    { s := i, eft := task_duration + max t (server 0), task_duration := task_duration }
  else
    { acc with task_duration := task_duration }

/-- The greedy loop `for (i = 0; i < n; i++)`: the variables after the
iterations `i = 0, 1, ..., n - 1` have run in that order from `acc`. -/
def greedyLoop (t : Int) (server : Int → Int) (freq : Int → ℚ)
    (job_factor job_duration : ℚ) : Nat → Sel → Sel
  | 0, acc => acc
  | n + 1, acc =>
    greedyBody t server freq job_factor job_duration (n : Int)
      (greedyLoop t server freq job_factor job_duration n acc)

/-- The greedy (earliest finish time) branch of `main`: `s = 0`, `eft` set from
server 0 (the floating sum is truncated on assignment to the `int` `eft`), then
the loop over all servers. `td_in` is the value `task_duration` holds on entry.
The sum that initialises `eft` is taken exactly; the program rounds it to
`double` first, which changes nothing in what the branch computes
(`greedy_rounded_eft`). -/
def greedy (t : Int) (server : Int → Int) (freq : Int → ℚ)
    (job_factor job_duration : ℚ) (td_in : Int) : Sel :=
  greedyLoop t server freq job_factor job_duration servers
    { s := 0,
      eft := toInt (execTime job_factor job_duration (freq 0) + ((max t (server 0) : Int) : ℚ)),
      task_duration := td_in }

/-- The random branch of `main`: `s = (int)(100 * r)` for the draw `r`, and the
task duration computed with the frequency of server `s`. The warning printed for
`s > servers - 1` changes no variable. The branch neither reads nor writes
`eft`; the field is filled with 0 and nothing uses it. -/
def randomChoice (freq : Int → ℚ) (job_factor job_duration r : ℚ) : Sel :=
  let s := toInt (100 * r)
  { s := s, eft := 0, task_duration := taskDuration job_factor job_duration (freq s) }

/-- Values of the locals of `main` that are read, or carried from tick to tick,
before the program has assigned them. -/
structure Uninit where
  first_job : Int
  task_duration : Int

/-- The variables of `main` that the simulation loop reads and writes. `calls`
counts the evaluations of `rand()` made so far. -/
@[ext]
structure State where
  jobs : Int
  first_job : Int
  task_duration : Int
  server : Int → Int
  util : Int → Int
  freq : Int → ℚ
  calls : Nat

/-- The state on entry to the simulation loop: `jobs = 0` and, for every server,
`server[i] = 0`, `util[i] = 0` and `freq[i]` by tier. -/
def initState (u0 : Uninit) : State :=
  { jobs := 0, first_job := u0.first_job, task_duration := u0.task_duration,
    server := fun _ => 0, util := fun _ => 0, freq := initFreq, calls := 0 }

/-- The arrival test `my_rnd < (double)(1.0 / arrival_rate)`. The division is a
floating one: for `arrival_rate = 0` its value is `+inf`, above every draw. -/
def arrival (my_rnd : ℚ) (arrival_rate : Int) : Bool :=
  if arrival_rate = 0 then true else decide (my_rnd < 1 / (arrival_rate : ℚ))

/-- Part 3 of the loop body (bookkeeping) for server `s`, tick `t` and task
duration `d`: `util[s] += d; if (server[s] < t) server[s] = t; server[s] += d`. -/
def bookkeeping (s t d : Int) (st : State) : State :=
  let util1 := fun j => if j = s then st.util s + d else st.util j
  let server1 := fun j => if j = s then (if st.server s < t then t else st.server s) else st.server j
  let server2 := fun j => if j = s then server1 s + d else server1 j
  { st with util := util1, server := server2 }

/-- The divisor `(double)RAND_MAX + 1.0` of the draws, for the `RAND_MAX` of
glibc, `2147483647`. -/
def randScale : ℚ := 2147483648

/-- The base duration sampled at an arrival,
`job_duration = 10.0 + (max_execution - 10.0) * (double)rand() / ((double)RAND_MAX + 1.0)`,
for the draw `r1` that follows the arrival draw: `(double)rand()` is
`r1 * randScale`; the product, the quotient and the sum are rounded to `double`
and the store into the `float` variable rounds to `float`. -/
def jobDuration (max_execution : Int) (r1 : ℚ) : ℚ :=
  toFloat (toDouble (10
    + toDouble (toDouble (((max_execution : ℚ) - 10) * (r1 * randScale)) / randScale)))

/-- The factor sampled at an arrival, `job_factor = (double)rand() / (...)`: the
draw `r2`, rounded by the store into the `float` variable. -/
def jobFactor (r2 : ℚ) : ℚ :=
  toFloat r2

/-- The scheduling decision (part 2) for the job sampled in state `st` at tick
`t`: the random branch when `random_schedule` is set, else the greedy branch. -/
def schedule ( random_schedule : Bool) (rnd : Nat → ℚ) (max_execution : Int)
    (t : Int) (st : State) : Sel :=
  let job_duration := jobDuration max_execution (rnd (st.calls + 1))
  let job_factor := jobFactor (rnd (st.calls + 2))
  if random_schedule then
    randomChoice st.freq job_factor job_duration (rnd (st.calls + 3))
  else
    greedy t st.server st.freq job_factor job_duration st.task_duration

/-- One iteration of the simulation loop, for tick `t`. -/
def tick ( random_schedule : Bool) (rnd : Nat → ℚ) (arrival_rate max_execution : Int)
    (t : Int) (st : State) : State :=
  if arrival (rnd st.calls) arrival_rate then
    let sel := schedule random_schedule rnd max_execution t st
    let st1 : State :=
      { st with
        jobs := st.jobs + 1,
        first_job := if st.jobs + 1 = 1 then t else st.first_job,
        task_duration := sel.task_duration,
        calls := st.calls + (if random_schedule then 4 else 3) }
    bookkeeping sel.s t sel.task_duration st1
  else
    { st with calls := st.calls + 1 }

/-- The simulation loop `for (t = 1; t <= n; t++)`: the state after the ticks
`1, 2, ..., n` have run in that order from `st`. -/
def tickLoop ( random_schedule : Bool) (rnd : Nat → ℚ) (arrival_rate max_execution : Int) :
    Nat → State → State
  | 0, st => st
  | n + 1, st =>
    tick random_schedule rnd arrival_rate max_execution ((n : Int) + 1)
      (tickLoop random_schedule rnd arrival_rate max_execution n st)

/-- The variable `m` after `n` iterations of the statistics loop:
`if (server[i] > m) m = server[i]`, from `m = 0`. -/
def lastFinish (server : Int → Int) : Nat → Int
  | 0 => 0
  | n + 1 => if server (n : Int) > lastFinish server n then server (n : Int) else lastFinish server n

/-- The variable `u` after `n` iterations of the statistics loop:
`u += util[i]`, from `u = 0`. -/
def totalUtil (util : Int → Int) : Nat → Int
  | 0 => 0
  | n + 1 => totalUtil util n + util (n : Int)

/-- The value of `duration` after `if (m > duration) duration = m`. -/
def effectiveDuration (m : Int) : Int :=
  if m > (duration : Int) then m else (duration : Int)

/-- The amount the energy loop adds for server `i`,
`(float)util[i] * freq[i] + (float)(0.4 * (duration - util[i]))`: the product of
two floats and the sum of two floats are rounded to `float`; `0.4` is a double
literal and its product with the `int` difference is rounded to `double`, then
to `float` by the cast. -/
def energyTerm (util : Int → Int) (freq : Int → ℚ) (dur : Int) (i : Int) : ℚ :=
  toFloat (toFloat (toFloat (util i : ℚ) * freq i)
    + toFloat (toDouble (toDouble (4 / 10) * ((dur - util i : Int) : ℚ))))

/-- The `float` variable `energy` after `n` iterations of the energy loop
`energy += ...`, from `energy = 0`: each addition is rounded to `float`. -/
def energyLoop (util : Int → Int) (freq : Int → ℚ) (dur : Int) : Nat → ℚ
  | 0 => 0
  | n + 1 => toFloat (energyLoop util freq dur n + energyTerm util freq dur (n : Int))

/-- The five values `main` reports after the simulation. `utilization` is the
quotient `(u + 0.0) / (duration * servers)` itself; the value `printf` receives
is its rounding to `float`, `printedUtilization`. -/
structure Report where
  jobs : Int
  first_job : Int
  last_finish : Int
  utilization : ℚ
  energy : ℚ
deriving DecidableEq

/-- The final statistics computed from the state the simulation loop leaves. -/
def report (st : State) : Report :=
  let m := lastFinish st.server servers
  let u := totalUtil st.util servers
  let dur := effectiveDuration m
  { jobs := st.jobs, first_job := st.first_job, last_finish := m,
    utilization := ((u : ℚ) + 0) / ((dur * (servers : Int) : Int) : ℚ),
    energy := energyLoop st.util st.freq dur servers }

/-- How a run of `main` ends: by `exit(0)` after the validation message, or by
`return 0` after printing the report. -/
inductive Outcome where
  | exited (message : String) (status : Int)
  | finished (final : State) (printed : Report) (status : Int)

/-- The state the simulation loop of `main` leaves when the run is accepted. -/
def simulate ( random_schedule : Bool) (rnd : Nat → ℚ) (u0 : Uninit)
    (arrival_rate max_execution : Int) : State :=
  tickLoop random_schedule rnd arrival_rate max_execution duration (initState u0)

/-- The program `main`, for the parsed arguments `arrival_rate = atoi(argv[1])`
and `max_execution = atoi(argv[2])`. -/
def main ( random_schedule : Bool) (rnd : Nat → ℚ) (u0 : Uninit)
    (arrival_rate max_execution : Int) : Outcome :=
  if max_execution < 10 then
    Outcome.exited "max execution should be at least 10\n" 0
  else
    let st := simulate random_schedule rnd u0 arrival_rate max_execution
    Outcome.finished st (report st) 0

/-- The draws of a three-tick scenario: every tick has an arrival, the jobs have
factor 0 and base durations 510, 135 and 10 (with `max_execution = 1010`). -/
def drawsThreeJobs (k : Nat) : ℚ :=
  if k = 1 then 1 / 2 else if k = 4 then 1 / 8 else 0

/-- The draws of a scenario in which every draw is `1/2`: with `arrival_rate = 1`
and `max_execution = 1010` every tick has an arrival, of a job with factor `1/2`
and base duration 510. -/
def drawsHalf (_ : Nat) : ℚ := 1 / 2

/-- Closed form of the state that the run on `drawsHalf` is in after `k` ticks,
for `k ≤ 20`: the jobs of ticks `1 .. k` went to the servers `80 .. 80 + k - 1`,
each with task duration 510. -/
def halfRunState (u0 : Uninit) (k : Nat) : State :=
  { jobs := (k : Int),
    first_job := if k = 0 then u0.first_job else 1,
    task_duration := if k = 0 then u0.task_duration else 510,
    server := fun j => if 80 ≤ j ∧ j < 80 + (k : Int) then 431 + j else 0,
    util := fun j => if 80 ≤ j ∧ j < 80 + (k : Int) then 510 else 0,
    freq := initFreq,
    calls := 3 * k }

/-- The draws of a run in which every draw is `0`: with `arrival_rate = 1` every
tick has an arrival, of a job with factor 0 and base duration 10. -/
def drawsZero (_ : Nat) : ℚ := 0

/-- The draws of a one-tick scenario: an arrival, then `1/2` for the base
duration (`10.5` with `max_execution = 11`), then factor 0. -/
def drawsHalfUnit (k : Nat) : ℚ :=
  if k = 1 then 1 / 2 else 0

/-- Whether the arrival test succeeds at tick `n + 1` of the simulation loop
started in `st0`: the test applied to the draw that tick makes first. -/
def arrivesAt ( rs : Bool) (rnd : Nat → ℚ) (ar mx : Int) (st0 : State) (n : Nat) : Bool :=
  arrival (rnd (tickLoop rs rnd ar mx n st0).calls) ar

/-- The number of ticks among `1 .. n` at which the arrival test succeeds. -/
def arrivalCount ( rs : Bool) (rnd : Nat → ℚ) (ar mx : Int) (st0 : State) : Nat → Nat
  | 0 => 0
  | n + 1 => arrivalCount rs rnd ar mx st0 n + (if arrivesAt rs rnd ar mx st0 n then 1 else 0)

/-- The bookkeeping invariant of the simulation loop: the frequencies are the
initial ones and, at every index, `0 ≤ util[j] ≤ server[j]`. -/
def Inv (st : State) : Prop :=
  st.freq = initFreq ∧ ∀ j, 0 ≤ st.util j ∧ st.util j ≤ st.server j

/-- The condition `s > servers - 1` of the random branch, under which it prints
"warning, server out of bounds". -/
def outOfBounds (s : Int) : Bool :=
  decide (s > (servers : Int) - 1)

/-- The conversion of a floating value to `int` as an x86-64 machine performs it
(instruction `cvttsd2si`): truncation toward zero when the truncated value is an
`int`, and `INT_MIN = -2147483648` otherwise. -/
def cvtInt (x : ℚ) : Int :=
  if -2147483648 ≤ toInt x ∧ toInt x ≤ 2147483647 then toInt x else -2147483648

/-- The `int` variable `task_duration` after the assignment of the execution time,
with the conversion to `int` done by `cv`. -/
def taskDurationBy (cv : ℚ → Int) (job_factor job_duration f : ℚ) : Int :=
  cv (execTime job_factor job_duration f)

/-- One iteration of the greedy loop (see `greedyBody`), with the conversion to
`int` done by `cv`. -/
def greedyBodyBy (cv : ℚ → Int) (t : Int) (server : Int → Int) (freq : Int → ℚ)
    (job_factor job_duration : ℚ) (i : Int) (acc : Sel) : Sel :=
  let task_duration := taskDurationBy cv job_factor job_duration (freq i)
  if task_duration + max t (server i) < acc.eft then
    { s := i, eft := task_duration + max t (server 0), task_duration := task_duration }
  else
    { acc with task_duration := task_duration }

/-- The greedy loop (see `greedyLoop`), with the conversion to `int` done by `cv`. -/
def greedyLoopBy (cv : ℚ → Int) (t : Int) (server : Int → Int) (freq : Int → ℚ)
    (job_factor job_duration : ℚ) : Nat → Sel → Sel
  | 0, acc => acc
  | n + 1, acc =>
    greedyBodyBy cv t server freq job_factor job_duration (n : Int)
      (greedyLoopBy cv t server freq job_factor job_duration n acc)

/-- The greedy branch of `main` (see `greedy`), with the conversion to `int` done
by `cv`, for `task_duration` and for the initial `eft` alike. -/
def greedyBy (cv : ℚ → Int) (t : Int) (server : Int → Int) (freq : Int → ℚ)
    (job_factor job_duration : ℚ) (td_in : Int) : Sel :=
  greedyLoopBy cv t server freq job_factor job_duration servers
    { s := 0,
      eft := cv (execTime job_factor job_duration (freq 0) + ((max t (server 0) : Int) : ℚ)),
      task_duration := td_in }

/-- The random branch of `main` (see `randomChoice`), with the conversion to `int`
done by `cv`, for `s` and for `task_duration` alike. -/
def randomChoiceBy (cv : ℚ → Int) (freq : Int → ℚ) (job_factor job_duration r : ℚ) : Sel :=
  let s := cv (100 * r)
  { s := s, eft := 0, task_duration := taskDurationBy cv job_factor job_duration (freq s) }

/-- The scheduling decision (see `schedule`), with the conversion to `int` done
by `cv`. -/
def scheduleBy (cv : ℚ → Int) ( random_schedule : Bool) (rnd : Nat → ℚ) (max_execution : Int)
    (t : Int) (st : State) : Sel :=
  let job_duration := jobDuration max_execution (rnd (st.calls + 1))
  let job_factor := jobFactor (rnd (st.calls + 2))
  if random_schedule then
    randomChoiceBy cv st.freq job_factor job_duration (rnd (st.calls + 3))
  else
    greedyBy cv t st.server st.freq job_factor job_duration st.task_duration

/-- One iteration of the simulation loop (see `tick`), with the conversion to `int`
done by `cv`. -/
def tickBy (cv : ℚ → Int) ( random_schedule : Bool) (rnd : Nat → ℚ) (arrival_rate max_execution : Int)
    (t : Int) (st : State) : State :=
  if arrival (rnd st.calls) arrival_rate then
    let sel := scheduleBy cv random_schedule rnd max_execution t st
    let st1 : State :=
      { st with
        jobs := st.jobs + 1,
        first_job := if st.jobs + 1 = 1 then t else st.first_job,
        task_duration := sel.task_duration,
        calls := st.calls + (if random_schedule then 4 else 3) }
    bookkeeping sel.s t sel.task_duration st1
  else
    { st with calls := st.calls + 1 }

/-- The simulation loop (see `tickLoop`), with the conversion to `int` done by `cv`. -/
def tickLoopBy (cv : ℚ → Int) ( random_schedule : Bool) (rnd : Nat → ℚ) (arrival_rate max_execution : Int) :
    Nat → State → State
  | 0, st => st
  | n + 1, st =>
    tickBy cv random_schedule rnd arrival_rate max_execution ((n : Int) + 1)
      (tickLoopBy cv random_schedule rnd arrival_rate max_execution n st)

/-- The state the simulation loop of `main` leaves (see `simulate`), with the
conversion to `int` done by `cv`. -/
def simulateBy (cv : ℚ → Int) ( random_schedule : Bool) (rnd : Nat → ℚ) (u0 : Uninit)
    (arrival_rate max_execution : Int) : State :=
  tickLoopBy cv random_schedule rnd arrival_rate max_execution duration (initState u0)

/-- The sum the energy formula describes, in exact arithmetic: the sum over the
servers `0 .. n - 1` of `util[i] * freq[i] + 0.4 * (dur - util[i])`. -/
def exactEnergy (util : Int → Int) (freq : Int → ℚ) (dur : Int) : Nat → ℚ
  | 0 => 0
  | n + 1 => exactEnergy util freq dur n
      + ((util (n : Int) : ℚ) * freq (n : Int) + 4 / 10 * ((dur : ℚ) - (util (n : Int) : ℚ)))

/-- The value printed as overall utilization,
`(float)((u + 0.0) / (duration * servers))`, for the `int` values `u` and `dur`
of `u` and `duration`: the quotient of two doubles is rounded to `double`, and
the cast rounds it to `float`. -/
def printedUtilization (u dur : Int) : ℚ :=
  toFloat (toDouble (((u : ℚ) + 0) / ((dur * (servers : Int) : Int) : ℚ)))

/-- The draws of a one-job scenario with the largest base duration: the first
tick has an arrival (draw 0), the draw for the base duration is
`RAND_MAX / (RAND_MAX + 1)`, the factor is 0, and every later draw is `1/2`, so
that with `arrival_rate = 2` no later tick has an arrival. -/
def drawsLargest (k : Nat) : ℚ :=
  if k = 1 then 2147483647 / 2147483648 else if k ≤ 2 then 0 else 1 / 2

/-- The draws of a one-job scenario: the first tick has an arrival (draw 0), the
draw for the base duration is `1/2`, the factor is 0, and every later draw is
`1/2`, so that with `arrival_rate = 2` no later tick has an arrival. -/
def drawsOneJob (k : Nat) : ℚ :=
  if k = 0 ∨ k = 2 then 0 else 1 / 2

/-- The state after a run whose only job arrived at tick 1 and was booked on
server 0 with task duration `d`, when `calls` draws have been made. -/
def oneJobState (d : Int) (calls : Nat) : State :=
  { jobs := 1, first_job := 1, task_duration := d,
    server := fun j => if j = 0 then 1 + d else 0,
    util := fun j => if j = 0 then d else 0,
    freq := initFreq, calls := calls }

/-- A table of integers by frequency tier: `d0` for the servers `0 .. 19`, `d1`
for `20 .. 39`, `d2` for `40 .. 59`, `d3` for `60 .. 79` and `d4` from 80 on. -/
def tierTab (d0 d1 d2 d3 d4 : Int) (i : Int) : Int :=
  if i < 20 then d0 else if i < 40 then d1 else if i < 60 then d2 else if i < 80 then d3 else d4

/-- One iteration of the greedy loop when the task duration on server `i` is
read from a table `td` instead of being computed: the loop body with `td i` for
`task_duration`. -/
def greedyBodyTab (t : Int) (server : Int → Int) (td : Int → Int) (i : Int) (acc : Sel) : Sel :=
  if td i + max t (server i) < acc.eft then
    { s := i, eft := td i + max t (server 0), task_duration := td i }
  else
    { acc with task_duration := td i }

/-- The greedy loop on a table of task durations: the variables after the
iterations `i = 0, 1, ..., n - 1` of `greedyBodyTab` from `acc`. -/
def greedyLoopTab (t : Int) (server : Int → Int) (td : Int → Int) : Nat → Sel → Sel
  | 0, acc => acc
  | n + 1, acc => greedyBodyTab t server td (n : Int) (greedyLoopTab t server td n acc)

/-- The state a tick with an arrival leaves when the job is booked on server `s`
with task duration `d`: the counters of the tick, then the bookkeeping. -/
def booked (s t d : Int) ( random_schedule : Bool) (st : State) : State :=
  bookkeeping s t d
    { st with
      jobs := st.jobs + 1,
      first_job := if st.jobs + 1 = 1 then t else st.first_job,
      task_duration := d,
      calls := st.calls + (if random_schedule then 4 else 3) }

/-- The `float` accumulator after `n` more additions of the same amount `c`:
`e` after none, and each addition rounded to `float`. -/
def addRepeated (c : ℚ) : Nat → ℚ → ℚ
  | 0, e => e
  | n + 1, e => toFloat (addRepeated c n e + c)

/-! ## Rounding to a binary floating format -/

theorem twoPow_eq_zpow (e : Int) : twoPow e = (2 : ℚ) ^ e := by
  unfold twoPow
  split_ifs with h
  · have he : e = ((e.toNat : Nat) : Int) := (Int.toNat_of_nonneg h).symm
    conv_rhs => rw [he]
    rw [zpow_natCast]
    push_cast
    rfl
  · have hn : 0 ≤ -e := by omega
    have he : e = -(((-e).toNat : Nat) : Int) := by
      rw [Int.toNat_of_nonneg hn]; ring
    conv_rhs => rw [he]
    rw [zpow_neg, zpow_natCast]
    push_cast
    rw [one_div]

theorem twoPow_pos (e : Int) : 0 < twoPow e := by
  rw [twoPow_eq_zpow]
  positivity

theorem twoPow_add (a b : Int) : twoPow (a + b) = twoPow a * twoPow b := by
  simp only [twoPow_eq_zpow]
  exact zpow_add₀ (by norm_num) a b

theorem twoPow_le_iff (a b : Int) : twoPow a ≤ twoPow b ↔ a ≤ b := by
  simp only [twoPow_eq_zpow]
  exact zpow_le_zpow_iff_right₀ (by norm_num)

theorem twoPow_lt_iff (a b : Int) : twoPow a < twoPow b ↔ a < b := by
  simp only [twoPow_eq_zpow]
  exact zpow_lt_zpow_iff_right₀ (by norm_num)

theorem twoPow_natCast (n : Nat) : twoPow (n : Int) = ((2 ^ n : Nat) : ℚ) := by
  rw [twoPow_eq_zpow, zpow_natCast]
  push_cast
  rfl

theorem twoPow_zero : twoPow 0 = 1 := by
  rw [twoPow_eq_zpow]; simp

theorem twoPow_succ (e : Int) : twoPow (e + 1) = 2 * twoPow e := by
  rw [twoPow_add, mul_comm]
  congr 1

theorem log2Fuel_bracket (fuel n : Nat) (hn : 0 < n) (hf : n ≤ fuel) :
    2 ^ log2Fuel fuel n ≤ n ∧ n < 2 ^ (log2Fuel fuel n + 1) := by
  induction fuel generalizing n with
  | zero => omega
  | succ k ih =>
    unfold log2Fuel
    split_ifs with h2
    · simp
      omega
    · have h := ih (n / 2) (by omega) (by omega)
      have e1 : 2 ^ (log2Fuel k (n / 2) + 1) = 2 * 2 ^ log2Fuel k (n / 2) := by
        rw [pow_succ]; ring
      have e2 : 2 ^ (log2Fuel k (n / 2) + 1 + 1) = 2 * 2 ^ (log2Fuel k (n / 2) + 1) := by
        rw [pow_succ]; ring
      rw [e2, e1]
      rw [e1] at h
      omega

theorem bitLog_bracket (n : Nat) (hn : 0 < n) :
    2 ^ bitLog n ≤ n ∧ n < 2 ^ (bitLog n + 1) :=
  log2Fuel_bracket n n hn (le_refl n)

theorem abs_eq_natAbs_div (x : ℚ) : |x| = (x.num.natAbs : ℚ) / (x.den : ℚ) := by
  have h : x = (x.num : ℚ) / (x.den : ℚ) := (Rat.num_div_den x).symm
  conv_lhs => rw [h]
  rw [abs_div, Nat.abs_cast, Nat.cast_natAbs]
  push_cast
  rfl

theorem binExp_bracket (x : ℚ) (hx : x ≠ 0) :
    twoPow (binExp x) ≤ |x| ∧ |x| < twoPow (binExp x + 1) := by
  have ha : 0 < x.num.natAbs := Int.natAbs_pos.mpr (Rat.num_ne_zero.mpr hx)
  have hb : 0 < x.den := x.den_pos
  obtain ⟨a1, a2⟩ := bitLog_bracket x.num.natAbs ha
  obtain ⟨b1, b2⟩ := bitLog_bracket x.den hb
  have habs := abs_eq_natAbs_div x
  have hbq : (0 : ℚ) < (x.den : ℚ) := by exact_mod_cast hb
  have a1q : ((2 ^ bitLog x.num.natAbs : Nat) : ℚ) ≤ (x.num.natAbs : ℚ) := by exact_mod_cast a1
  have a2q : (x.num.natAbs : ℚ) < ((2 ^ (bitLog x.num.natAbs + 1) : Nat) : ℚ) := by
    exact_mod_cast a2
  have b1q : ((2 ^ bitLog x.den : Nat) : ℚ) ≤ (x.den : ℚ) := by exact_mod_cast b1
  have b2q : (x.den : ℚ) < ((2 ^ (bitLog x.den + 1) : Nat) : ℚ) := by exact_mod_cast b2
  rw [← twoPow_natCast] at a1q a2q b1q b2q
  push_cast at a2q b2q
  rw [twoPow_succ] at a2q b2q
  set la : Int := (bitLog x.num.natAbs : Int) with hla
  set lb : Int := (bitLog x.den : Int) with hlb
  have hsplit : twoPow la = twoPow (la - lb) * twoPow lb := by
    rw [← twoPow_add]; congr 1; ring
  have hpa := twoPow_pos la
  have hpb := twoPow_pos lb
  have hpd := twoPow_pos (la - lb)
  -- upper bound for e0 + 1, lower bound for e0 - 1
  have hup : |x| < twoPow (la - lb + 1) := by
    rw [habs, div_lt_iff₀ hbq, twoPow_succ]
    nlinarith
  have hlow : twoPow (la - lb - 1) ≤ |x| := by
    have h2 : twoPow (la - lb) = 2 * twoPow (la - lb - 1) := by
      rw [← twoPow_succ]; congr 1; ring
    rw [habs, le_div_iff₀ hbq]
    nlinarith [twoPow_pos (la - lb - 1)]
  unfold binExp
  split_ifs with h
  · exact ⟨h, hup⟩
  · refine ⟨hlow, ?_⟩
    have : la - lb - 1 + 1 = la - lb := by ring
    rw [this]
    exact lt_of_not_le h

theorem roundHalfEven_floor_le (q : ℚ) : ⌊q⌋ ≤ roundHalfEven q := by
  unfold roundHalfEven
  split_ifs <;> omega

theorem roundHalfEven_le_floor_add_one (q : ℚ) : roundHalfEven q ≤ ⌊q⌋ + 1 := by
  unfold roundHalfEven
  split_ifs <;> omega

theorem roundHalfEven_intCast (n : Int) : roundHalfEven (n : ℚ) = n := by
  unfold roundHalfEven
  simp

theorem roundHalfEven_abs_sub_le (q : ℚ) : |(roundHalfEven q : ℚ) - q| ≤ 1 / 2 := by
  have h1 := Int.floor_le q
  have h2 := Int.lt_floor_add_one q
  unfold roundHalfEven
  rw [abs_le]
  split_ifs with ha hb hc
  · constructor <;> linarith
  · push_cast
    constructor <;> linarith
  · have : q - (⌊q⌋ : ℚ) = 1 / 2 := le_antisymm (not_lt.mp hb) (not_lt.mp ha)
    constructor <;> linarith
  · have : q - (⌊q⌋ : ℚ) = 1 / 2 := le_antisymm (not_lt.mp hb) (not_lt.mp ha)
    push_cast
    constructor <;> linarith

theorem roundHalfEven_mono {q r : ℚ} (h : q ≤ r) : roundHalfEven q ≤ roundHalfEven r := by
  have hfl : ⌊q⌋ ≤ ⌊r⌋ := Int.floor_mono h
  rcases lt_or_eq_of_le hfl with hlt | heq
  · have h1 := roundHalfEven_le_floor_add_one q
    have h2 := roundHalfEven_floor_le r
    omega
  · unfold roundHalfEven
    rw [heq]
    have hq : q - (⌊r⌋ : ℚ) ≤ r - (⌊r⌋ : ℚ) := by linarith
    split_ifs <;> first | omega | (exfalso; linarith)

theorem roundTo_zero (p : Nat) : roundTo p 0 = 0 := by
  simp [roundTo]

theorem roundTo_of_ne_zero (p : Nat) (x : ℚ) (hx : x ≠ 0) :
    roundTo p x
      = (roundHalfEven (x / twoPow (binExp x - (p : Int) + 1)) : ℚ)
          * twoPow (binExp x - (p : Int) + 1) := by
  unfold roundTo
  rw [if_neg hx]

/-- The rounding error is at most half a unit in the last place. -/
theorem roundTo_abs_sub_le (p : Nat) (x : ℚ) (hx : x ≠ 0) :
    |roundTo p x - x| ≤ twoPow (binExp x - (p : Int)) := by
  rw [roundTo_of_ne_zero p x hx]
  set u := twoPow (binExp x - (p : Int) + 1) with hu
  have hupos : 0 < u := twoPow_pos _
  have hq := roundHalfEven_abs_sub_le (x / u)
  have hhalf : twoPow (binExp x - (p : Int)) = u / 2 := by
    rw [hu, twoPow_succ]; ring
  rw [hhalf]
  have hxu : x / u * u = x := div_mul_cancel₀ x (ne_of_gt hupos)
  have : (roundHalfEven (x / u) : ℚ) * u - x = ((roundHalfEven (x / u) : ℚ) - x / u) * u := by
    rw [sub_mul, hxu]
  rw [this, abs_mul, abs_of_pos hupos]
  calc |(roundHalfEven (x / u) : ℚ) - x / u| * u ≤ 1 / 2 * u :=
        mul_le_mul_of_nonneg_right hq (le_of_lt hupos)
    _ = u / 2 := by ring

/-- The relative rounding error is at most `2 ^ (-p)`. -/
theorem roundTo_rel_err (p : Nat) (x : ℚ) :
    |roundTo p x - x| ≤ twoPow (-(p : Int)) * |x| := by
  by_cases hx : x = 0
  · subst hx
    simp [roundTo_zero]
  · have h1 := roundTo_abs_sub_le p x hx
    have h2 := (binExp_bracket x hx).1
    have h3 : twoPow (binExp x - (p : Int)) = twoPow (-(p : Int)) * twoPow (binExp x) := by
      rw [← twoPow_add]; congr 1; ring
    rw [h3] at h1
    have hp := twoPow_pos (-(p : Int))
    calc |roundTo p x - x| ≤ twoPow (-(p : Int)) * twoPow (binExp x) := h1
      _ ≤ twoPow (-(p : Int)) * |x| := mul_le_mul_of_nonneg_left h2 (le_of_lt hp)

theorem roundTo_pos_bounds (p : Nat) (hp : 1 ≤ p) (x : ℚ) (hx : 0 < x) :
    twoPow (binExp x) ≤ roundTo p x ∧ roundTo p x ≤ twoPow (binExp x + 1) := by
  have hx0 : x ≠ 0 := ne_of_gt hx
  obtain ⟨b1, b2⟩ := binExp_bracket x hx0
  rw [abs_of_pos hx] at b1 b2
  rw [roundTo_of_ne_zero p x hx0]
  set u := twoPow (binExp x - (p : Int) + 1) with hu
  have hupos : 0 < u := twoPow_pos _
  have hlo : twoPow (binExp x) = (((2 ^ (p - 1) : Nat) : Int) : ℚ) * u := by
    have : (((2 ^ (p - 1) : Nat) : Int) : ℚ) = twoPow (((p - 1 : Nat)) : Int) := by
      rw [twoPow_natCast]; push_cast; rfl
    rw [this, hu, ← twoPow_add]
    congr 1
    have : (((p - 1 : Nat)) : Int) = (p : Int) - 1 := by omega
    rw [this]; ring
  have hhi : twoPow (binExp x + 1) = (((2 ^ p : Nat) : Int) : ℚ) * u := by
    have : (((2 ^ p : Nat) : Int) : ℚ) = twoPow ((p : Nat) : Int) := by
      rw [twoPow_natCast]; push_cast; rfl
    rw [this, hu, ← twoPow_add]
    congr 1
    ring
  have q1 : (((2 ^ (p - 1) : Nat) : Int) : ℚ) ≤ x / u := by
    rw [le_div_iff₀ hupos, ← hlo]; exact b1
  have q2 : x / u ≤ (((2 ^ p : Nat) : Int) : ℚ) := by
    rw [div_le_iff₀ hupos, ← hhi]; exact le_of_lt b2
  have r1 := roundHalfEven_mono q1
  have r2 := roundHalfEven_mono q2
  rw [roundHalfEven_intCast] at r1 r2
  have r1q : (((2 ^ (p - 1) : Nat) : Int) : ℚ) ≤ (roundHalfEven (x / u) : ℚ) := by
    exact_mod_cast r1
  have r2q : (roundHalfEven (x / u) : ℚ) ≤ (((2 ^ p : Nat) : Int) : ℚ) := by
    exact_mod_cast r2
  rw [hlo, hhi]
  exact ⟨mul_le_mul_of_nonneg_right r1q (le_of_lt hupos),
    mul_le_mul_of_nonneg_right r2q (le_of_lt hupos)⟩

theorem roundTo_pos (p : Nat) (hp : 1 ≤ p) (x : ℚ) (hx : 0 < x) : 0 < roundTo p x :=
  lt_of_lt_of_le (twoPow_pos _) (roundTo_pos_bounds p hp x hx).1

theorem roundTo_nonneg (p : Nat) (hp : 1 ≤ p) (x : ℚ) (hx : 0 ≤ x) : 0 ≤ roundTo p x := by
  rcases eq_or_lt_of_le hx with h | h
  · rw [← h, roundTo_zero]
  · exact le_of_lt (roundTo_pos p hp x h)

theorem binExp_mono_pos {x y : ℚ} (hx : 0 < x) (hxy : x ≤ y) : binExp x ≤ binExp y := by
  by_contra hlt
  push_neg at hlt
  have bx := (binExp_bracket x (ne_of_gt hx)).1
  have by2 := (binExp_bracket y (ne_of_gt (lt_of_lt_of_le hx hxy))).2
  rw [abs_of_pos hx] at bx
  rw [abs_of_pos (lt_of_lt_of_le hx hxy)] at by2
  have h : twoPow (binExp y + 1) ≤ twoPow (binExp x) := (twoPow_le_iff _ _).mpr (by omega)
  linarith

/-- Rounding is monotone on the non-negative rationals. -/
theorem roundTo_mono (p : Nat) (hp : 1 ≤ p) {x y : ℚ} (hx : 0 ≤ x) (hxy : x ≤ y) :
    roundTo p x ≤ roundTo p y := by
  rcases eq_or_lt_of_le hx with h0 | hpos
  · rw [← h0, roundTo_zero]
    exact roundTo_nonneg p hp y (le_trans hx hxy)
  · have hy : 0 < y := lt_of_lt_of_le hpos hxy
    have he := binExp_mono_pos hpos hxy
    rcases lt_or_eq_of_le he with hlt | heq
    · have h1 := (roundTo_pos_bounds p hp x hpos).2
      have h2 := (roundTo_pos_bounds p hp y hy).1
      have h3 : twoPow (binExp x + 1) ≤ twoPow (binExp y) := (twoPow_le_iff _ _).mpr (by omega)
      linarith
    · rw [roundTo_of_ne_zero p x (ne_of_gt hpos), roundTo_of_ne_zero p y (ne_of_gt hy), heq]
      have hupos : 0 < twoPow (binExp y - (p : Int) + 1) := twoPow_pos _
      have hq : x / twoPow (binExp y - (p : Int) + 1) ≤ y / twoPow (binExp y - (p : Int) + 1) :=
        div_le_div_of_nonneg_right hxy (le_of_lt hupos)
      have hr : (roundHalfEven (x / twoPow (binExp y - (p : Int) + 1)) : ℚ)
          ≤ (roundHalfEven (y / twoPow (binExp y - (p : Int) + 1)) : ℚ) := by
        exact_mod_cast roundHalfEven_mono hq
      exact mul_le_mul_of_nonneg_right hr (le_of_lt hupos)

/-- A number `m * 2 ^ k` with `|m| < 2 ^ p` is left unchanged by rounding to
`p` bits. -/
theorem roundTo_exact (p : Nat) (m k : Int) (hm : |m| < 2 ^ p) :
    roundTo p ((m : ℚ) * twoPow k) = (m : ℚ) * twoPow k := by
  by_cases hm0 : m = 0
  · subst hm0
    simp [roundTo_zero]
  · have hkpos := twoPow_pos k
    have hx0 : (m : ℚ) * twoPow k ≠ 0 :=
      mul_ne_zero (by exact_mod_cast hm0) (ne_of_gt hkpos)
    set x := (m : ℚ) * twoPow k with hxdef
    obtain ⟨b1, _⟩ := binExp_bracket x hx0
    have habs : |x| = (|m| : ℚ) * twoPow k := by
      rw [hxdef, abs_mul, abs_of_pos hkpos]
    have hmq : ((|m| : Int) : ℚ) < twoPow (p : Int) := by
      rw [twoPow_natCast]
      have : (|m| : Int) < ((2 ^ p : Nat) : Int) := by push_cast; exact hm
      exact_mod_cast this
    have hlt : twoPow (binExp x) < twoPow ((p : Int) + k) := by
      rw [twoPow_add]
      calc twoPow (binExp x) ≤ |x| := b1
        _ = (|m| : ℚ) * twoPow k := habs
        _ < twoPow (p : Int) * twoPow k := by
            have : ((|m| : Int) : ℚ) = |(m : ℚ)| := by push_cast; rfl
            rw [← this]
            exact mul_lt_mul_of_pos_right hmq hkpos
    have he : binExp x < (p : Int) + k := (twoPow_lt_iff _ _).mp hlt
    -- the scaled value is an integer
    obtain ⟨j, hj⟩ : ∃ j : Nat, (j : Int) = k - (binExp x - (p : Int) + 1) :=
      ⟨(k - (binExp x - (p : Int) + 1)).toNat, Int.toNat_of_nonneg (by omega)⟩
    have hdiv : x / twoPow (binExp x - (p : Int) + 1) = ((m * ((2 ^ j : Nat) : Int) : Int) : ℚ) := by
      have hu := twoPow_pos (binExp x - (p : Int) + 1)
      rw [div_eq_iff (ne_of_gt hu)]
      push_cast
      have : ((2 : ℚ) ^ j) = twoPow (j : Int) := by
        rw [twoPow_natCast]; push_cast; rfl
      rw [this, hj, mul_assoc, ← twoPow_add, hxdef]
      congr 2
      ring
    rw [roundTo_of_ne_zero p x hx0, hdiv, roundHalfEven_intCast, ← hdiv]
    exact div_mul_cancel₀ x (ne_of_gt (twoPow_pos _))

theorem roundTo_intCast (p : Nat) (n : Int) (hn : |n| < 2 ^ p) : roundTo p (n : ℚ) = n := by
  have h := roundTo_exact p n 0 hn
  rw [twoPow_zero, mul_one] at h
  exact h

/-- A rounded value is a multiple of a power of two by an integer of at most
`p + 1` bits. -/
theorem roundTo_repr (p : Nat) (x : ℚ) :
    ∃ m k : Int, |m| ≤ 2 ^ p ∧ roundTo p x = (m : ℚ) * twoPow k := by
  by_cases hx : x = 0
  · exact ⟨0, 0, by positivity, by simp [hx, roundTo_zero]⟩
  · obtain ⟨_, b2⟩ := binExp_bracket x hx
    set u := twoPow (binExp x - (p : Int) + 1) with hu
    have hupos : 0 < u := twoPow_pos _
    have hhi : twoPow (binExp x + 1) = (((2 ^ p : Nat) : Int) : ℚ) * u := by
      have : (((2 ^ p : Nat) : Int) : ℚ) = twoPow ((p : Nat) : Int) := by
        rw [twoPow_natCast]; push_cast; rfl
      rw [this, hu, ← twoPow_add]
      congr 1
      ring
    have habs : |x / u| ≤ (((2 ^ p : Nat) : Int) : ℚ) := by
      rw [abs_div, abs_of_pos hupos, div_le_iff₀ hupos, ← hhi]
      exact le_of_lt b2
    rw [abs_le] at habs
    have r1 := roundHalfEven_mono habs.1
    have r2 := roundHalfEven_mono habs.2
    have hneg : -(((2 ^ p : Nat) : Int) : ℚ) = (((-((2 ^ p : Nat) : Int)) : Int) : ℚ) := by
      push_cast; rfl
    rw [hneg, roundHalfEven_intCast] at r1
    rw [roundHalfEven_intCast] at r2
    refine ⟨roundHalfEven (x / u), binExp x - (p : Int) + 1, ?_, roundTo_of_ne_zero p x hx⟩
    rw [abs_le]
    push_cast at r1 r2
    exact ⟨r1, r2⟩

/-- A value rounded to `p` bits is unchanged by a later rounding to more bits. -/
theorem roundTo_roundTo (p r : Nat) (hpr : p < r) (x : ℚ) :
    roundTo r (roundTo p x) = roundTo p x := by
  obtain ⟨m, k, hm, hx⟩ := roundTo_repr p x
  rw [hx]
  apply roundTo_exact
  have : (2 : Int) ^ p < 2 ^ r := by
    exact_mod_cast (Nat.pow_lt_pow_right (by norm_num) hpr : 2 ^ p < 2 ^ r)
  omega

/-! ## The two formats of the program -/

theorem toFloat_nonneg {x : ℚ} (hx : 0 ≤ x) : 0 ≤ toFloat x :=
  roundTo_nonneg 24 (by norm_num) x hx

theorem toDouble_nonneg {x : ℚ} (hx : 0 ≤ x) : 0 ≤ toDouble x :=
  roundTo_nonneg 53 (by norm_num) x hx

theorem toFloat_mono {x y : ℚ} (hx : 0 ≤ x) (hxy : x ≤ y) : toFloat x ≤ toFloat y :=
  roundTo_mono 24 (by norm_num) hx hxy

theorem toDouble_mono {x y : ℚ} (hx : 0 ≤ x) (hxy : x ≤ y) : toDouble x ≤ toDouble y :=
  roundTo_mono 53 (by norm_num) hx hxy

theorem toFloat_intCast (n : Int) (hn : |n| < 2 ^ 24) : toFloat (n : ℚ) = n :=
  roundTo_intCast 24 n hn

theorem toDouble_intCast (n : Int) (hn : |n| < 2 ^ 53) : toDouble (n : ℚ) = n :=
  roundTo_intCast 53 n hn

theorem toDouble_one : toDouble 1 = 1 := by
  have h := toDouble_intCast 1 (by norm_num)
  simpa using h

theorem toDouble_ten : toDouble 10 = 10 := by
  have h := toDouble_intCast 10 (by norm_num)
  simpa using h

theorem toFloat_ten : toFloat 10 = 10 := by
  have h := toFloat_intCast 10 (by norm_num)
  simpa using h

theorem toFloat_one : toFloat 1 = 1 := by
  have h := toFloat_intCast 1 (by norm_num)
  simpa using h

/-- A `float` value is promoted to `double` without change. -/
theorem toDouble_toFloat (x : ℚ) : toDouble (toFloat x) = toFloat x :=
  roundTo_roundTo 24 53 (by norm_num) x

theorem toFloat_abs_sub_le (x : ℚ) : |toFloat x - x| ≤ twoPow (-24) * |x| :=
  roundTo_rel_err 24 x

theorem toDouble_abs_sub_le (x : ℚ) : |toDouble x - x| ≤ twoPow (-53) * |x| :=
  roundTo_rel_err 53 x

/-! ## Basic facts about the helpers -/

theorem max_eq_sup (a b : Int) : max a b = a ⊔ b := by
  unfold max
  split_ifs with h
  · exact (sup_eq_left.mpr (le_of_lt h)).symm
  · exact (sup_eq_right.mpr (not_lt.mp h)).symm

theorem max_ge_left (a b : Int) : a ≤ max a b := by
  rw [max_eq_sup]; exact le_sup_left

theorem toInt_of_nonneg {x : ℚ} (hx : 0 ≤ x) : toInt x = ⌊x⌋ := by
  simp [toInt, hx]

theorem toInt_nonneg {x : ℚ} (hx : 0 ≤ x) : 0 ≤ toInt x := by
  rw [toInt_of_nonneg hx]
  exact Int.floor_nonneg.mpr hx

theorem toInt_le {x : ℚ} (hx : 0 ≤ x) : ((toInt x : Int) : ℚ) ≤ x := by
  rw [toInt_of_nonneg hx]
  exact Int.floor_le x

theorem lt_toInt_add_one {x : ℚ} (hx : 0 ≤ x) : x < ((toInt x : Int) : ℚ) + 1 := by
  rw [toInt_of_nonneg hx]
  exact Int.lt_floor_add_one x

theorem toInt_intCast (n : Int) : toInt (n : ℚ) = n := by
  unfold toInt
  split_ifs <;> simp

/-! ## The greedy branch -/

theorem greedyLoop_task_duration (t : Int) (server : Int → Int) (freq : Int → ℚ)
    (jf jd : ℚ) (n : Nat) (acc : Sel) :
    (greedyLoop t server freq jf jd (n + 1) acc).task_duration
      = taskDuration jf jd (freq (n : Int)) := by
  simp only [greedyLoop, greedyBody]
  split_ifs <;> rfl

/-- After the greedy branch, `task_duration` holds the duration computed in the
last iteration of the loop, that of server `servers - 1 = 99`. -/
theorem greedy_task_duration (t : Int) (server : Int → Int) (freq : Int → ℚ)
    (jf jd : ℚ) (td_in : Int) :
    (greedy t server freq jf jd td_in).task_duration = taskDuration jf jd (freq 99) := by
  have h := greedyLoop_task_duration t server freq jf jd 99
    { s := 0,
      eft := toInt (execTime jf jd (freq 0) + ((max t (server 0) : Int) : ℚ)),
      task_duration := td_in }
  simpa [greedy, servers] using h

theorem greedyLoop_entry_irrelevant (t : Int) (server : Int → Int) (freq : Int → ℚ)
    (jf jd : ℚ) (n : Nat) (s0 e0 a b : Int) :
    greedyLoop t server freq jf jd (n + 1) { s := s0, eft := e0, task_duration := a }
      = greedyLoop t server freq jf jd (n + 1) { s := s0, eft := e0, task_duration := b } := by
  induction n with
  | zero => simp [greedyLoop, greedyBody]
  | succ m ih =>
    rw [greedyLoop, ih]
    rfl

/-- The value `task_duration` holds on entry to the greedy branch does not
influence what the branch computes. -/
theorem greedy_entry_irrelevant (t : Int) (server : Int → Int) (freq : Int → ℚ)
    (jf jd : ℚ) (a b : Int) :
    greedy t server freq jf jd a = greedy t server freq jf jd b := by
  unfold greedy servers
  exact greedyLoop_entry_irrelevant t server freq jf jd 99 _ _ a b

theorem greedyLoop_s_range (t : Int) (server : Int → Int) (freq : Int → ℚ)
    (jf jd : ℚ) (n : Nat) (acc : Sel) :
    (greedyLoop t server freq jf jd n acc).s = acc.s
      ∨ (0 ≤ (greedyLoop t server freq jf jd n acc).s
          ∧ (greedyLoop t server freq jf jd n acc).s < (n : Int)) := by
  induction n with
  | zero => left; rfl
  | succ m ih =>
    simp only [greedyLoop, greedyBody]
    split_ifs
    · right
      simp only [Nat.cast_add, Nat.cast_one]
      omega
    · rcases ih with h | ⟨h1, h2⟩
      · left; exact h
      · right
        simp only [Nat.cast_add, Nat.cast_one]
        exact ⟨h1, by omega⟩

/-- The greedy branch selects an index of the server array. -/
theorem greedy_s_range (t : Int) (server : Int → Int) (freq : Int → ℚ)
    (jf jd : ℚ) (td_in : Int) :
    0 ≤ (greedy t server freq jf jd td_in).s
      ∧ (greedy t server freq jf jd td_in).s < (servers : Int) := by
  have h := greedyLoop_s_range t server freq jf jd servers
    { s := 0,
      eft := toInt (execTime jf jd (freq 0) + ((max t (server 0) : Int) : ℚ)),
      task_duration := td_in }
  unfold greedy
  rcases h with h | h
  · rw [h]; simp [servers]
  · exact h

/-! ## Non-negative task durations -/

theorem execTime_parts {jf f : ℚ} (hjf : 0 ≤ jf) (hf : 0 < f) (hf1 : f ≤ 1) :
    0 ≤ toDouble (toDouble (1 / f) - 1)
      ∧ 0 ≤ toDouble (jf * toDouble (toDouble (1 / f) - 1))
      ∧ 1 ≤ toDouble (1 + toDouble (jf * toDouble (toDouble (1 / f) - 1))) := by
  have h1 : 1 ≤ 1 / f := by
    rw [le_div_iff₀ hf]
    linarith
  have hinv : 1 ≤ toDouble (1 / f) := by
    have := toDouble_mono (by norm_num : (0 : ℚ) ≤ 1) h1
    rwa [toDouble_one] at this
  have hsub : 0 ≤ toDouble (toDouble (1 / f) - 1) := toDouble_nonneg (by linarith)
  have hmul : 0 ≤ toDouble (jf * toDouble (toDouble (1 / f) - 1)) :=
    toDouble_nonneg (mul_nonneg hjf hsub)
  refine ⟨hsub, hmul, ?_⟩
  have := toDouble_mono (by norm_num : (0 : ℚ) ≤ 1)
    (by linarith : (1 : ℚ) ≤ 1 + toDouble (jf * toDouble (toDouble (1 / f) - 1)))
  rwa [toDouble_one] at this

theorem execTime_nonneg {jf jd f : ℚ} (hjf : 0 ≤ jf) (hjd : 0 ≤ jd) (hf : 0 < f)
    (hf1 : f ≤ 1) : 0 ≤ execTime jf jd f := by
  unfold execTime
  have h := (execTime_parts hjf hf hf1).2.2
  exact toDouble_nonneg (mul_nonneg (by linarith) hjd)

theorem initFreq_tiers :
    initFreq 0 = 5033165 / 8388608 ∧ initFreq 20 = 11744051 / 16777216
      ∧ initFreq 40 = 13421773 / 16777216 ∧ initFreq 60 = 7549747 / 8388608
      ∧ initFreq 80 = 1 := by
  decide!

theorem initFreq_of_tier (k i : Int) (h1 : 20 * k ≤ i) (h2 : i < 20 * k + 20) :
    initFreq i = initFreq (20 * k) := by
  have hi : i / 20 = k := by omega
  have hk : 20 * k / 20 = k := by omega
  unfold initFreq
  rw [hi, hk]

theorem initFreq_bounds (i : Int) (h0 : 0 ≤ i) (h1 : i < 100) :
    6 / 10 ≤ initFreq i ∧ initFreq i ≤ 1 := by
  obtain ⟨t0, t1, t2, t3, t4⟩ := initFreq_tiers
  have hk : i / 20 = 0 ∨ i / 20 = 1 ∨ i / 20 = 2 ∨ i / 20 = 3 ∨ i / 20 = 4 := by omega
  rcases hk with h | h | h | h | h
  · rw [initFreq_of_tier 0 i (by omega) (by omega)]
    norm_num [t0]
  · rw [initFreq_of_tier 1 i (by omega) (by omega)]
    norm_num [t1]
  · rw [initFreq_of_tier 2 i (by omega) (by omega)]
    norm_num [t2]
  · rw [initFreq_of_tier 3 i (by omega) (by omega)]
    norm_num [t3]
  · rw [initFreq_of_tier 4 i (by omega) (by omega)]
    norm_num [t4]

theorem jobDuration_inner_nonneg (mx : Int) (r : ℚ) (hmx : 10 ≤ mx) (hr : 0 ≤ r) :
    0 ≤ toDouble (toDouble (((mx : ℚ) - 10) * (r * randScale)) / randScale) := by
  have h : (0 : ℚ) ≤ (mx : ℚ) - 10 := by
    have : ((10 : Int) : ℚ) ≤ (mx : ℚ) := by exact_mod_cast hmx
    simpa using sub_nonneg.mpr this
  have hs : (0 : ℚ) < randScale := by norm_num [randScale]
  have h1 : 0 ≤ toDouble (((mx : ℚ) - 10) * (r * randScale)) :=
    toDouble_nonneg (mul_nonneg h (mul_nonneg hr (le_of_lt hs)))
  exact toDouble_nonneg (div_nonneg h1 (le_of_lt hs))

theorem jobDuration_ge (mx : Int) (r : ℚ) (hmx : 10 ≤ mx) (hr : 0 ≤ r) :
    10 ≤ jobDuration mx r := by
  unfold jobDuration
  have h := jobDuration_inner_nonneg mx r hmx hr
  have h1 := toDouble_mono (by norm_num : (0 : ℚ) ≤ 10)
    (by linarith : (10 : ℚ) ≤ 10
      + toDouble (toDouble (((mx : ℚ) - 10) * (r * randScale)) / randScale))
  rw [toDouble_ten] at h1
  have h2 := toFloat_mono (by norm_num : (0 : ℚ) ≤ 10) h1
  rwa [toFloat_ten] at h2

/-- The index the random branch draws is an index of the server array when the
draw lies in `[0, 1)`. -/
theorem randomChoice_s_range (freq : Int → ℚ) (jf jd r : ℚ) (h0 : 0 ≤ r) (h1 : r < 1) :
    0 ≤ (randomChoice freq jf jd r).s ∧ (randomChoice freq jf jd r).s < 100 := by
  have hx : (0 : ℚ) ≤ 100 * r := by linarith
  simp only [randomChoice]
  rw [toInt_of_nonneg hx]
  constructor
  · exact Int.floor_nonneg.mpr hx
  · rw [Int.floor_lt]
    push_cast
    linarith

/-- The task duration the scheduling decision produces is non-negative for an
accepted `max_execution`, draws in `[0, 1)` and the initial frequencies. -/
theorem schedule_task_duration_nonneg ( rs : Bool) (rnd : Nat → ℚ) (mx t : Int) (st : State)
    (hmx : 10 ≤ mx) (hrnd : ∀ k, 0 ≤ rnd k ∧ rnd k < 1) (hfreq : st.freq = initFreq) :
    0 ≤ (schedule rs rnd mx t st).task_duration := by
  have hjd : (0 : ℚ) ≤ jobDuration mx (rnd (st.calls + 1)) := by
    have := jobDuration_ge mx (rnd (st.calls + 1)) hmx (hrnd _).1
    linarith
  have hjf : 0 ≤ jobFactor (rnd (st.calls + 2)) := toFloat_nonneg (hrnd (st.calls + 2)).1
  unfold schedule
  cases rs with
  | false =>
    simp only [Bool.false_eq_true, if_false]
    rw [greedy_task_duration, hfreq]
    have hb := initFreq_bounds 99 (by norm_num) (by norm_num)
    exact toInt_nonneg (execTime_nonneg hjf hjd (by linarith [hb.1]) hb.2)
  | true =>
    simp only [if_true]
    have hs := randomChoice_s_range st.freq (jobFactor (rnd (st.calls + 2)))
      (jobDuration mx (rnd (st.calls + 1))) (rnd (st.calls + 3)) (hrnd _).1 (hrnd _).2
    simp only [randomChoice] at hs ⊢
    rw [hfreq]
    have hb := initFreq_bounds _ hs.1 hs.2
    exact toInt_nonneg (execTime_nonneg hjf hjd (by linarith [hb.1]) hb.2)

/-! ## The conversion to `int` as a parameter -/

theorem cvtInt_of_range {x : ℚ} (h0 : 0 ≤ x) (h1 : x < 2147483648) : cvtInt x = toInt x := by
  unfold cvtInt
  have a := toInt_nonneg h0
  have b := toInt_le h0
  have c : ((toInt x : Int) : ℚ) < ((2147483648 : Int) : ℚ) := by
    push_cast
    linarith
  have d : toInt x < 2147483648 := by exact_mod_cast c
  rw [if_pos ⟨by omega, by omega⟩]

theorem greedyLoopBy_congr (cv : ℚ → Int) (t : Int) (server : Int → Int) (freq : Int → ℚ)
    (jf jd : ℚ) (n : Nat) (acc : Sel)
    (h : ∀ i : Nat, i < n → cv (execTime jf jd (freq (i : Int))) = toInt (execTime jf jd (freq (i : Int)))) :
    greedyLoopBy cv t server freq jf jd n acc = greedyLoop t server freq jf jd n acc := by
  induction n with
  | zero => rfl
  | succ m ih =>
    show greedyBodyBy cv t server freq jf jd (m : Int) (greedyLoopBy cv t server freq jf jd m acc)
      = greedyBody t server freq jf jd (m : Int) (greedyLoop t server freq jf jd m acc)
    rw [ih (fun i hi => h i (by omega))]
    simp only [greedyBodyBy, greedyBody, taskDurationBy, taskDuration, h m (by omega)]

theorem scheduleBy_congr (cv : ℚ → Int) ( rs : Bool) (rnd : Nat → ℚ) (mx t : Int) (st : State)
    (hg : ∀ i : Int, 0 ≤ i → i < 100 →
      cv (execTime (jobFactor (rnd (st.calls + 2))) (jobDuration mx (rnd (st.calls + 1))) (st.freq i))
        = toInt (execTime (jobFactor (rnd (st.calls + 2))) (jobDuration mx (rnd (st.calls + 1)))
            (st.freq i)))
    (he : cv (execTime (jobFactor (rnd (st.calls + 2))) (jobDuration mx (rnd (st.calls + 1)))
            (st.freq 0) + ((max t (st.server 0) : Int) : ℚ))
        = toInt (execTime (jobFactor (rnd (st.calls + 2))) (jobDuration mx (rnd (st.calls + 1)))
            (st.freq 0) + ((max t (st.server 0) : Int) : ℚ)))
    (hr : cv (100 * rnd (st.calls + 3)) = toInt (100 * rnd (st.calls + 3)))
    (hr0 : 0 ≤ toInt (100 * rnd (st.calls + 3))) (hr1 : toInt (100 * rnd (st.calls + 3)) < 100) :
    scheduleBy cv rs rnd mx t st = schedule rs rnd mx t st := by
  unfold scheduleBy schedule
  cases rs with
  | false =>
    simp only [Bool.false_eq_true, if_false]
    unfold greedyBy greedy
    rw [he]
    exact greedyLoopBy_congr cv t st.server st.freq _ _ servers _
      (fun i hi => hg (i : Int) (by omega) (by simp only [servers] at hi; omega))
  | true =>
    simp only [if_true]
    unfold randomChoiceBy randomChoice taskDurationBy taskDuration
    simp only [hr, hg _ hr0 hr1]

theorem tickBy_congr (cv : ℚ → Int) ( rs : Bool) (rnd : Nat → ℚ) (ar mx t : Int) (st : State)
    (h : scheduleBy cv rs rnd mx t st = schedule rs rnd mx t st) :
    tickBy cv rs rnd ar mx t st = tick rs rnd ar mx t st := by
  unfold tickBy tick
  rw [h]

theorem toInt_hundred_range {r : ℚ} (h0 : 0 ≤ r) (h1 : r < 1) :
    0 ≤ toInt (100 * r) ∧ toInt (100 * r) < 100 := by
  have hx : (0 : ℚ) ≤ 100 * r := by linarith
  refine ⟨toInt_nonneg hx, ?_⟩
  have h := toInt_le hx
  have : ((toInt (100 * r) : Int) : ℚ) < ((100 : Int) : ℚ) := by
    push_cast
    linarith
  exact_mod_cast this

theorem scheduleBy_toInt ( rs : Bool) (rnd : Nat → ℚ) (mx t : Int) (st : State) :
    scheduleBy toInt rs rnd mx t st = schedule rs rnd mx t st := by
  unfold scheduleBy schedule
  cases rs with
  | false =>
    simp only [Bool.false_eq_true, if_false]
    unfold greedyBy greedy
    exact greedyLoopBy_congr toInt t st.server st.freq _ _ servers _ (fun _ _ => rfl)
  | true =>
    simp only [if_true, randomChoiceBy, randomChoice, taskDurationBy, taskDuration]

theorem tickBy_toInt ( rs : Bool) (rnd : Nat → ℚ) (ar mx t : Int) (st : State) :
    tickBy toInt rs rnd ar mx t st = tick rs rnd ar mx t st :=
  tickBy_congr toInt rs rnd ar mx t st (scheduleBy_toInt rs rnd mx t st)

theorem tickLoopBy_toInt ( rs : Bool) (rnd : Nat → ℚ) (ar mx : Int) (n : Nat) (st : State) :
    tickLoopBy toInt rs rnd ar mx n st = tickLoop rs rnd ar mx n st := by
  induction n with
  | zero => rfl
  | succ m ih =>
    show tickBy toInt rs rnd ar mx ((m : Int) + 1) (tickLoopBy toInt rs rnd ar mx m st)
      = tick rs rnd ar mx ((m : Int) + 1) (tickLoop rs rnd ar mx m st)
    rw [ih, tickBy_toInt]

theorem simulateBy_toInt ( rs : Bool) (rnd : Nat → ℚ) (u0 : Uninit) (ar mx : Int) :
    simulateBy toInt rs rnd u0 ar mx = simulate rs rnd u0 ar mx :=
  tickLoopBy_toInt rs rnd ar mx duration (initState u0)

/-! ## The greedy loop on a table of task durations -/

theorem tierTab_spec (g : ℚ → Int) (d0 d1 d2 d3 d4 : Int)
    (h0 : g (initFreq 0) = d0) (h1 : g (initFreq 20) = d1) (h2 : g (initFreq 40) = d2)
    (h3 : g (initFreq 60) = d3) (h4 : g (initFreq 80) = d4)
    (i : Int) (hi0 : 0 ≤ i) (hi : i < 100) :
    g (initFreq i) = tierTab d0 d1 d2 d3 d4 i := by
  unfold tierTab
  split_ifs with a b c d
  · rw [initFreq_of_tier 0 i (by omega) (by omega)]
    simpa using h0
  · rw [initFreq_of_tier 1 i (by omega) (by omega)]
    simpa using h1
  · rw [initFreq_of_tier 2 i (by omega) (by omega)]
    simpa using h2
  · rw [initFreq_of_tier 3 i (by omega) (by omega)]
    simpa using h3
  · rw [initFreq_of_tier 4 i (by omega) (by omega)]
    simpa using h4

theorem greedyLoopBy_tab (cv : ℚ → Int) (t : Int) (server : Int → Int) (freq : Int → ℚ)
    (jf jd : ℚ) (td : Int → Int) (n : Nat) (acc : Sel)
    (h : ∀ i : Nat, i < n → cv (execTime jf jd (freq (i : Int))) = td (i : Int)) :
    greedyLoopBy cv t server freq jf jd n acc = greedyLoopTab t server td n acc := by
  induction n with
  | zero => rfl
  | succ m ih =>
    show greedyBodyBy cv t server freq jf jd (m : Int) (greedyLoopBy cv t server freq jf jd m acc)
      = greedyBodyTab t server td (m : Int) (greedyLoopTab t server td m acc)
    rw [ih (fun i hi => h i (by omega))]
    simp only [greedyBodyBy, greedyBodyTab, taskDurationBy, h m (by omega)]

/-- The greedy branch on the initial frequencies, from the task durations of the
five tiers and the initial `eft`. -/
theorem greedyBy_tab (cv : ℚ → Int) (t : Int) (server : Int → Int) (jf jd : ℚ) (td_in : Int)
    (d0 d1 d2 d3 d4 e0 : Int)
    (h0 : cv (execTime jf jd (initFreq 0)) = d0) (h1 : cv (execTime jf jd (initFreq 20)) = d1)
    (h2 : cv (execTime jf jd (initFreq 40)) = d2) (h3 : cv (execTime jf jd (initFreq 60)) = d3)
    (h4 : cv (execTime jf jd (initFreq 80)) = d4)
    (he : cv (execTime jf jd (initFreq 0) + ((max t (server 0) : Int) : ℚ)) = e0) :
    greedyBy cv t server initFreq jf jd td_in
      = greedyLoopTab t server (tierTab d0 d1 d2 d3 d4) servers
          { s := 0, eft := e0, task_duration := td_in } := by
  unfold greedyBy
  rw [he]
  exact greedyLoopBy_tab cv t server initFreq jf jd _ servers _
    (fun i hi => tierTab_spec (fun f => cv (execTime jf jd f)) d0 d1 d2 d3 d4 h0 h1 h2 h3 h4
      (i : Int) (by omega) (by simp only [servers] at hi; omega))

theorem greedy_tab (t : Int) (server : Int → Int) (jf jd : ℚ) (td_in : Int)
    (d0 d1 d2 d3 d4 e0 : Int)
    (h0 : taskDuration jf jd (initFreq 0) = d0) (h1 : taskDuration jf jd (initFreq 20) = d1)
    (h2 : taskDuration jf jd (initFreq 40) = d2) (h3 : taskDuration jf jd (initFreq 60) = d3)
    (h4 : taskDuration jf jd (initFreq 80) = d4)
    (he : toInt (execTime jf jd (initFreq 0) + ((max t (server 0) : Int) : ℚ)) = e0) :
    greedy t server initFreq jf jd td_in
      = greedyLoopTab t server (tierTab d0 d1 d2 d3 d4) servers
          { s := 0, eft := e0, task_duration := td_in } := by
  have h := greedyBy_tab toInt t server jf jd td_in d0 d1 d2 d3 d4 e0 h0 h1 h2 h3 h4 he
  rw [← h]
  unfold greedyBy greedy
  exact (greedyLoopBy_congr toInt t server initFreq jf jd servers _ (fun _ _ => rfl)).symm

/-- The greedy scheduling decision of a tick, from the sampled job, the task
durations of the five tiers and the initial `eft`. -/
theorem scheduleBy_tab (cv : ℚ → Int) (rnd : Nat → ℚ) (mx t : Int) (st : State) (jd jf : ℚ)
    (d0 d1 d2 d3 d4 e0 : Int) (hfreq : st.freq = initFreq)
    (hjd : jobDuration mx (rnd (st.calls + 1)) = jd) (hjf : jobFactor (rnd (st.calls + 2)) = jf)
    (h0 : cv (execTime jf jd (initFreq 0)) = d0) (h1 : cv (execTime jf jd (initFreq 20)) = d1)
    (h2 : cv (execTime jf jd (initFreq 40)) = d2) (h3 : cv (execTime jf jd (initFreq 60)) = d3)
    (h4 : cv (execTime jf jd (initFreq 80)) = d4)
    (he : cv (execTime jf jd (initFreq 0) + ((max t (st.server 0) : Int) : ℚ)) = e0) :
    scheduleBy cv false rnd mx t st
      = greedyLoopTab t st.server (tierTab d0 d1 d2 d3 d4) servers
          { s := 0, eft := e0, task_duration := st.task_duration } := by
  unfold scheduleBy
  simp only [Bool.false_eq_true, if_false]
  rw [hjd, hjf, hfreq]
  exact greedyBy_tab cv t st.server jf jd st.task_duration d0 d1 d2 d3 d4 e0 h0 h1 h2 h3 h4 he

theorem schedule_tab (rnd : Nat → ℚ) (mx t : Int) (st : State) (jd jf : ℚ)
    (d0 d1 d2 d3 d4 e0 : Int) (hfreq : st.freq = initFreq)
    (hjd : jobDuration mx (rnd (st.calls + 1)) = jd) (hjf : jobFactor (rnd (st.calls + 2)) = jf)
    (h0 : taskDuration jf jd (initFreq 0) = d0) (h1 : taskDuration jf jd (initFreq 20) = d1)
    (h2 : taskDuration jf jd (initFreq 40) = d2) (h3 : taskDuration jf jd (initFreq 60) = d3)
    (h4 : taskDuration jf jd (initFreq 80) = d4)
    (he : toInt (execTime jf jd (initFreq 0) + ((max t (st.server 0) : Int) : ℚ)) = e0) :
    schedule false rnd mx t st
      = greedyLoopTab t st.server (tierTab d0 d1 d2 d3 d4) servers
          { s := 0, eft := e0, task_duration := st.task_duration } := by
  rw [← scheduleBy_toInt]
  exact scheduleBy_tab toInt rnd mx t st jd jf d0 d1 d2 d3 d4 e0 hfreq hjd hjf h0 h1 h2 h3 h4 he

theorem tickBy_booked (cv : ℚ → Int) ( rs : Bool) (rnd : Nat → ℚ) (ar mx t : Int) (st : State)
    (sel : Sel) (ha : arrival (rnd st.calls) ar = true)
    (hs : scheduleBy cv rs rnd mx t st = sel) :
    tickBy cv rs rnd ar mx t st = booked sel.s t sel.task_duration rs st := by
  unfold tickBy booked
  rw [if_pos ha, hs]

theorem tick_booked ( rs : Bool) (rnd : Nat → ℚ) (ar mx t : Int) (st : State)
    (sel : Sel) (ha : arrival (rnd st.calls) ar = true)
    (hs : schedule rs rnd mx t st = sel) :
    tick rs rnd ar mx t st = booked sel.s t sel.task_duration rs st := by
  unfold tick booked
  rw [if_pos ha, hs]

theorem tickBy_of_no_arrival (cv : ℚ → Int) ( rs : Bool) (rnd : Nat → ℚ) (ar mx t : Int)
    (st : State) (h : arrival (rnd st.calls) ar = false) :
    tickBy cv rs rnd ar mx t st = { st with calls := st.calls + 1 } := by
  unfold tickBy
  rw [if_neg (by simp [h])]

/-- A run whose ticks after the first have no arrival keeps the state of the
first tick, but for the count of the draws. -/
theorem tickLoopBy_quiet (cv : ℚ → Int) ( rs : Bool) (rnd : Nat → ℚ) (ar mx : Int)
    (st0 S : State) (h1 : tickBy cv rs rnd ar mx 1 st0 = S)
    (hq : ∀ k, S.calls ≤ k → arrival (rnd k) ar = false) (n : Nat) :
    tickLoopBy cv rs rnd ar mx (n + 1) st0 = { S with calls := S.calls + n } := by
  induction n with
  | zero =>
    show tickBy cv rs rnd ar mx (((0 : Nat) : Int) + 1) st0 = _
    simp only [Nat.cast_zero, zero_add]
    rw [h1]
    rfl
  | succ m ih =>
    show tickBy cv rs rnd ar mx (((m + 1 : Nat) : Int) + 1)
      (tickLoopBy cv rs rnd ar mx (m + 1) st0) = _
    rw [ih, tickBy_of_no_arrival cv rs rnd ar mx _ _ (hq _ (Nat.le_add_right _ _))]
    rfl

theorem toInt_add_int (x : ℚ) (n : Int) (hx : 0 ≤ x) (hn : 0 ≤ n) :
    toInt (x + (n : ℚ)) = toInt x + n := by
  have hn2 : (0 : ℚ) ≤ (n : ℚ) := by exact_mod_cast hn
  rw [toInt_of_nonneg hx, toInt_of_nonneg (by linarith), Int.floor_add_int]

/-! ## The run on `drawsHalf` reaches `halfRunState` -/

set_option maxRecDepth 1000000 in
/-- Ticks `1 .. 20` of the run on `drawsHalf`, one by one, on the table of the
task durations by tier (679, 619, 573, 538, 510 for base duration 510 and
factor `1/2`): the greedy loop on the closed-form state selects the next server
of the fastest tier. -/
theorem greedy_halfRun_aux :
    ∀ k : Fin 20, greedyLoopTab (((k : Nat) : Int) + 1) (halfRunState ⟨0, 0⟩ k).server
        (tierTab 679 619 573 538 510) servers
        { s := 0, eft := 679 + (((k : Nat) : Int) + 1), task_duration := 0 }
      = { s := 80 + ((k : Nat) : Int), eft := 511 + ((k : Nat) : Int), task_duration := 510 } := by
  decide!

set_option maxRecDepth 1000000 in
theorem greedy_halfRun (u0 : Uninit) (k : Nat) (hk : k < 20) (td : Int) :
    greedy ((k : Int) + 1) (halfRunState u0 k).server initFreq (1 / 2) 510 td
      = { s := 80 + (k : Int), eft := 511 + (k : Int), task_duration := 510 } := by
  have h := greedy_halfRun_aux ⟨k, hk⟩
  have h0 : taskDuration (1 / 2) 510 (initFreq 0) = 679 := by decide!
  have hx : (0 : ℚ) ≤ execTime (1 / 2) 510 (initFreq 0) := by decide!
  have hs0 : (halfRunState u0 k).server 0 = 0 := by simp [halfRunState]
  have hmax : max ((k : Int) + 1) ((halfRunState u0 k).server 0) = (k : Int) + 1 := by
    rw [hs0]
    unfold max
    rw [if_pos (by omega)]
  have he : toInt (execTime (1 / 2) 510 (initFreq 0)
      + ((max ((k : Int) + 1) ((halfRunState u0 k).server 0) : Int) : ℚ)) = 679 + ((k : Int) + 1) := by
    rw [hmax, toInt_add_int _ _ hx (by omega)]
    unfold taskDuration at h0
    rw [h0]
  rw [greedy_entry_irrelevant _ _ _ _ _ td 0,
    greedy_tab ((k : Int) + 1) (halfRunState u0 k).server (1 / 2) 510 0 679 619 573 538 510
      (679 + ((k : Int) + 1)) h0 (by decide!) (by decide!) (by decide!) (by decide!) he]
  exact h

theorem tick_halfRun (u0 : Uninit) (k : Nat) (hk : k < 20) :
    tick false drawsHalf 1 1010 ((k : Int) + 1) (halfRunState u0 k) = halfRunState u0 (k + 1) := by
  have harr : arrival (drawsHalf (halfRunState u0 k).calls) 1 = true := by
    simp [arrival, drawsHalf]; norm_num
  have hsel : schedule false drawsHalf 1010 ((k : Int) + 1) (halfRunState u0 k)
      = { s := 80 + (k : Int), eft := 511 + (k : Int), task_duration := 510 } := by
    have hjd : jobDuration 1010 (1 / 2) = 510 := by decide!
    have hjf : jobFactor (1 / 2) = 1 / 2 := by decide!
    simp only [schedule, drawsHalf, hjd, hjf, Bool.false_eq_true, if_false]
    exact greedy_halfRun u0 k hk _
  unfold tick
  rw [if_pos harr, hsel]
  ext j
  · simp [bookkeeping, halfRunState]
  · simp only [bookkeeping, halfRunState]
    split_ifs with h1 h2 h3
    all_goals first | rfl | omega | simp_all
  · simp [bookkeeping, halfRunState]
  · simp only [bookkeeping, halfRunState]
    push_cast
    split_ifs <;> omega
  · simp only [bookkeeping, halfRunState]
    push_cast
    split_ifs <;> omega
  · simp [bookkeeping, halfRunState]
  · simp [bookkeeping, halfRunState]; ring

theorem tickLoop_halfRun (u0 : Uninit) (k : Nat) (hk : k ≤ 20) :
    tickLoop false drawsHalf 1 1010 k (initState u0) = halfRunState u0 k := by
  induction k with
  | zero =>
    ext j <;> simp [tickLoop, initState, halfRunState]
    · omega
    · omega
  | succ m ih =>
    rw [tickLoop, ih (by omega)]
    exact tick_halfRun u0 m (by omega)

/-! ## The simulation loop keeps the bookkeeping invariant -/

theorem tick_of_arrival ( rs : Bool) (rnd : Nat → ℚ) (ar mx t : Int) (st : State)
    (h : arrival (rnd st.calls) ar = true) :
    tick rs rnd ar mx t st
      = bookkeeping (schedule rs rnd mx t st).s t (schedule rs rnd mx t st).task_duration
          { st with
            jobs := st.jobs + 1,
            first_job := if st.jobs + 1 = 1 then t else st.first_job,
            task_duration := (schedule rs rnd mx t st).task_duration,
            calls := st.calls + (if rs then 4 else 3) } := by
  unfold tick
  rw [if_pos h]

theorem tick_of_no_arrival ( rs : Bool) (rnd : Nat → ℚ) (ar mx t : Int) (st : State)
    (h : arrival (rnd st.calls) ar = false) :
    tick rs rnd ar mx t st = { st with calls := st.calls + 1 } := by
  unfold tick
  rw [if_neg (by simp [h])]

theorem bookkeeping_util (s t d : Int) (st : State) (j : Int) :
    (bookkeeping s t d st).util j = if j = s then st.util s + d else st.util j := rfl

theorem bookkeeping_server (s t d : Int) (st : State) (j : Int) :
    (bookkeeping s t d st).server j
      = if j = s then max (st.server s) t + d else st.server j := by
  simp only [bookkeeping, max]
  by_cases hj : j = s
  · simp only [hj, if_true]
    by_cases h : st.server s < t
    · rw [if_pos h, if_neg (by omega)]
    · rw [if_neg h]
      by_cases h2 : st.server s > t
      · rw [if_pos h2]
      · rw [if_neg h2]; omega
  · simp only [hj, if_false]

theorem tick_freq ( rs : Bool) (rnd : Nat → ℚ) (ar mx t : Int) (st : State) :
    (tick rs rnd ar mx t st).freq = st.freq := by
  unfold tick
  split_ifs <;> rfl

theorem tickLoop_freq ( rs : Bool) (rnd : Nat → ℚ) (ar mx : Int) (n : Nat) (st : State) :
    (tickLoop rs rnd ar mx n st).freq = st.freq := by
  induction n with
  | zero => rfl
  | succ m ih => rw [tickLoop, tick_freq, ih]

theorem tick_Inv ( rs : Bool) (rnd : Nat → ℚ) (ar mx t : Int) (st : State)
    (hmx : 10 ≤ mx) (hrnd : ∀ k, 0 ≤ rnd k ∧ rnd k < 1) (h : Inv st) :
    Inv (tick rs rnd ar mx t st) := by
  refine ⟨by rw [tick_freq]; exact h.1, fun j => ?_⟩
  cases harr : arrival (rnd st.calls) ar with
  | false =>
    rw [tick_of_no_arrival rs rnd ar mx t st harr]
    exact h.2 j
  | true =>
    rw [tick_of_arrival rs rnd ar mx t st harr, bookkeeping_util, bookkeeping_server]
    have hd := schedule_task_duration_nonneg rs rnd mx t st hmx hrnd h.1
    have hs := h.2 (schedule rs rnd mx t st).s
    have hm := max_ge_left (st.server (schedule rs rnd mx t st).s) t
    by_cases hj : j = (schedule rs rnd mx t st).s
    · simp only [hj, if_true]
      constructor <;> omega
    · simp only [hj, if_false]
      exact h.2 j

theorem initState_Inv (u0 : Uninit) : Inv (initState u0) :=
  ⟨rfl, fun _ => ⟨le_refl _, le_refl _⟩⟩

theorem tickLoop_Inv ( rs : Bool) (rnd : Nat → ℚ) (ar mx : Int) (n : Nat) (st : State)
    (hmx : 10 ≤ mx) (hrnd : ∀ k, 0 ≤ rnd k ∧ rnd k < 1) (h : Inv st) :
    Inv (tickLoop rs rnd ar mx n st) := by
  induction n with
  | zero => exact h
  | succ m ih => exact tick_Inv rs rnd ar mx _ _ hmx hrnd ih

/-! ## The final statistics -/

theorem lastFinish_nonneg (server : Int → Int) (n : Nat) : 0 ≤ lastFinish server n := by
  induction n with
  | zero => exact le_refl _
  | succ m ih =>
    simp only [lastFinish]
    split_ifs <;> omega

theorem lastFinish_ge (server : Int → Int) (n i : Nat) (hi : i < n) :
    server (i : Int) ≤ lastFinish server n := by
  induction n with
  | zero => omega
  | succ m ih =>
    simp only [lastFinish]
    rcases Nat.lt_succ_iff_lt_or_eq.mp hi with h | h
    · have := ih h
      split_ifs <;> omega
    · subst h
      split_ifs <;> omega

theorem effectiveDuration_ge_last (m : Int) : m ≤ effectiveDuration m := by
  unfold effectiveDuration
  split_ifs <;> omega

theorem effectiveDuration_ge_duration (m : Int) : (duration : Int) ≤ effectiveDuration m := by
  unfold effectiveDuration
  split_ifs <;> omega

theorem effectiveDuration_eq_sup (m : Int) :
    effectiveDuration m = (duration : Int) ⊔ m := by
  unfold effectiveDuration
  split_ifs with h
  · exact (sup_eq_right.mpr (le_of_lt h)).symm
  · exact (sup_eq_left.mpr (not_lt.mp h)).symm

theorem totalUtil_bounds (util : Int → Int) (D : Int) (n : Nat)
    (h : ∀ i : Nat, i < n → 0 ≤ util (i : Int) ∧ util (i : Int) ≤ D) :
    0 ≤ totalUtil util n ∧ totalUtil util n ≤ (n : Int) * D := by
  induction n with
  | zero => simp [totalUtil]
  | succ m ih =>
    have h1 := ih (fun i hi => h i (Nat.lt_succ_of_lt hi))
    have h2 := h m (Nat.lt_succ_self m)
    simp only [totalUtil]
    push_cast
    constructor
    · omega
    · nlinarith [h1.2, h2.2]

/-! ## Arrivals -/

theorem arrival_iff (r : ℚ) (ar : Int) (har : 0 < ar) :
    arrival r ar = true ↔ r < 1 / (ar : ℚ) := by
  unfold arrival
  rw [if_neg (ne_of_gt har)]
  exact decide_eq_true_iff

theorem arrival_rate_one (r : ℚ) (hr : r < 1) : arrival r 1 = true := by
  rw [arrival_iff r 1 (by norm_num)]
  simpa using hr

theorem tick_jobs ( rs : Bool) (rnd : Nat → ℚ) (ar mx t : Int) (st : State) :
    (tick rs rnd ar mx t st).jobs
      = st.jobs + (if arrival (rnd st.calls) ar then 1 else 0) := by
  cases h : arrival (rnd st.calls) ar with
  | true =>
    rw [tick_of_arrival rs rnd ar mx t st h]
    simp [bookkeeping]
  | false =>
    rw [tick_of_no_arrival rs rnd ar mx t st h]
    simp

theorem tickLoop_jobs ( rs : Bool) (rnd : Nat → ℚ) (ar mx : Int) (st0 : State) (n : Nat) :
    (tickLoop rs rnd ar mx n st0).jobs
      = st0.jobs + (arrivalCount rs rnd ar mx st0 n : Int) := by
  induction n with
  | zero => simp [tickLoop, arrivalCount]
  | succ m ih =>
    rw [tickLoop, tick_jobs, ih]
    simp only [arrivalCount, arrivesAt]
    split_ifs <;> push_cast <;> ring

theorem arrivalCount_le ( rs : Bool) (rnd : Nat → ℚ) (ar mx : Int) (st0 : State) (n : Nat) :
    arrivalCount rs rnd ar mx st0 n ≤ n := by
  induction n with
  | zero => exact le_refl _
  | succ m ih =>
    simp only [arrivalCount]
    split_ifs <;> omega

theorem tickLoop_certain ( rs : Bool) (rnd : Nat → ℚ) (mx : Int) (u0 : Uninit)
    (hrnd : ∀ k, 0 ≤ rnd k ∧ rnd k < 1) (n : Nat) :
    (tickLoop rs rnd 1 mx n (initState u0)).jobs = (n : Int)
      ∧ (0 < n → (tickLoop rs rnd 1 mx n (initState u0)).first_job = 1) := by
  induction n with
  | zero => exact ⟨rfl, fun h => absurd h (lt_irrefl 0)⟩
  | succ m ih =>
    have harr := arrival_rate_one (rnd (tickLoop rs rnd 1 mx m (initState u0)).calls) (hrnd _).2
    rw [tickLoop, tick_of_arrival rs rnd 1 mx _ _ harr]
    simp only [bookkeeping]
    rw [ih.1]
    refine ⟨by push_cast; ring, fun _ => ?_⟩
    rcases Nat.eq_zero_or_pos m with h0 | hpos
    · subst h0
      simp
    · rw [if_neg (by omega)]
      exact ih.2 hpos

theorem toInt_abs_sub_lt_one (x : ℚ) : |x - ((toInt x : Int) : ℚ)| < 1 := by
  unfold toInt
  split_ifs with h
  · have h1 := Int.floor_le x
    have h2 := Int.lt_floor_add_one x
    rw [abs_lt]
    constructor <;> linarith
  · have h1 := Int.le_ceil x
    have h2 := Int.ceil_lt_add_one x
    rw [abs_lt]
    constructor <;> linarith

/-! ## The claims -/

set_option maxRecDepth 1000000 in
theorem schedule_threeJobs_first :
    schedule false drawsThreeJobs 1010 1 (initState ⟨0, 0⟩)
      = { s := 0, eft := 511, task_duration := 510 } := by
  rw [schedule_tab drawsThreeJobs 1010 1 (initState ⟨0, 0⟩) 510 0 510 510 510 510 510 511 rfl
    (by decide!) (by decide!) (by decide!) (by decide!) (by decide!) (by decide!) (by decide!)
    (by decide!)]
  decide!

set_option maxRecDepth 1000000 in
theorem schedule_threeJobs_second :
    schedule false drawsThreeJobs 1010 2 (booked 0 1 510 false (initState ⟨0, 0⟩))
      = { s := 99, eft := 646, task_duration := 135 } := by
  rw [schedule_tab drawsThreeJobs 1010 2 (booked 0 1 510 false (initState ⟨0, 0⟩))
    135 0 135 135 135 135 135 646 rfl
    (by decide!) (by decide!) (by decide!) (by decide!) (by decide!) (by decide!) (by decide!)
    (by decide!)]
  decide!

set_option maxRecDepth 1000000 in
theorem schedule_threeJobs_third :
    schedule false drawsThreeJobs 1010 3
        (booked 99 2 135 false (booked 0 1 510 false (initState ⟨0, 0⟩)))
      = { s := 99, eft := 521, task_duration := 10 } := by
  rw [schedule_tab drawsThreeJobs 1010 3
    (booked 99 2 135 false (booked 0 1 510 false (initState ⟨0, 0⟩)))
    10 0 10 10 10 10 10 521 rfl
    (by decide!) (by decide!) (by decide!) (by decide!) (by decide!) (by decide!) (by decide!)
    (by decide!)]
  decide!

set_option maxRecDepth 1000000 in
theorem tickLoop_threeJobs_two :
    tickLoop false drawsThreeJobs 1 1010 2 (initState ⟨0, 0⟩)
      = booked 99 2 135 false (booked 0 1 510 false (initState ⟨0, 0⟩)) := by
  have ht1 := tick_booked false drawsThreeJobs 1 1010 1 (initState ⟨0, 0⟩) _ (by decide!)
    schedule_threeJobs_first
  have ht2 := tick_booked false drawsThreeJobs 1 1010 2 (booked 0 1 510 false (initState ⟨0, 0⟩)) _
    (by decide!) schedule_threeJobs_second
  have e1 : (((0 : Nat) : Int) + 1) = 1 := by norm_num
  have e2 : (((1 : Nat) : Int) + 1) = 2 := by norm_num
  show tick false drawsThreeJobs 1 1010 (((1 : Nat) : Int) + 1)
    (tick false drawsThreeJobs 1 1010 (((0 : Nat) : Int) + 1) (initState ⟨0, 0⟩)) = _
  rw [e1, e2, ht1, ht2]

set_option maxRecDepth 1000000 in
/-- C1 (code defect): the greedy branch does not select the lowest index that
minimises `task_duration(i) + max(t, server[i])`. In the run with
`arrival_rate = 1`, `max_execution = 1010` and the draws `drawsThreeJobs`, the
job of tick 3 (base duration 10, factor 0) goes to server 99, whose candidate
finish is 147, although server 1 would finish it at 13. -/
theorem greedy_selects_later_finish :
    (tickLoop false drawsThreeJobs 1 1010 2 (initState ⟨0, 0⟩)).calls = 6
    ∧ jobDuration 1010 (drawsThreeJobs 7) = 10
    ∧ drawsThreeJobs 8 = 0
    ∧ (schedule false drawsThreeJobs 1010 3
        (tickLoop false drawsThreeJobs 1 1010 2 (initState ⟨0, 0⟩))).s = 99
    ∧ candidateFinish 3 (tickLoop false drawsThreeJobs 1 1010 2 (initState ⟨0, 0⟩)).server
        (tickLoop false drawsThreeJobs 1 1010 2 (initState ⟨0, 0⟩)).freq 0 10 99 = 147
    ∧ candidateFinish 3 (tickLoop false drawsThreeJobs 1 1010 2 (initState ⟨0, 0⟩)).server
        (tickLoop false drawsThreeJobs 1 1010 2 (initState ⟨0, 0⟩)).freq 0 10 1 = 13 := by
  rw [tickLoop_threeJobs_two]
  refine ⟨by decide!, by decide!, by decide!, ?_, by decide!, by decide!⟩
  rw [schedule_threeJobs_third]

set_option maxRecDepth 1000000 in
theorem schedule_halfRun_last :
    schedule false drawsHalf 1010 21 (halfRunState ⟨0, 0⟩ 20)
      = { s := 60, eft := 559, task_duration := 510 } := by
  rw [schedule_tab drawsHalf 1010 21 (halfRunState ⟨0, 0⟩ 20) 510 (1 / 2) 679 619 573 538 510 700 rfl
    (by decide!) (by decide!) (by decide!) (by decide!) (by decide!) (by decide!) (by decide!)
    (by decide!)]
  decide!

set_option maxRecDepth 1000000 in
/-- C2 (code defect): the duration the bookkeeping adds to the chosen server is
the one computed for server 99, the last of the loop, not the one of the chosen
server. In the run with `arrival_rate = 1`, `max_execution = 1010` and every
draw `1/2`, the job of tick 21 (base duration 510, factor `1/2`) goes to server
60, of frequency `0.9`: its duration there is 538, and 510 is booked. -/
theorem greedy_books_duration_of_last_server :
    (schedule false drawsHalf 1010 21
        (tickLoop false drawsHalf 1 1010 20 (initState ⟨0, 0⟩))).s = 60
    ∧ (schedule false drawsHalf 1010 21
        (tickLoop false drawsHalf 1 1010 20 (initState ⟨0, 0⟩))).task_duration = 510
    ∧ taskDuration (drawsHalf 62) (jobDuration 1010 (drawsHalf 61))
        ((tickLoop false drawsHalf 1 1010 20 (initState ⟨0, 0⟩)).freq 60) = 538
    ∧ taskDuration (drawsHalf 62) (jobDuration 1010 (drawsHalf 61))
        ((tickLoop false drawsHalf 1 1010 20 (initState ⟨0, 0⟩)).freq 99) = 510
    ∧ (tickLoop false drawsHalf 1 1010 21 (initState ⟨0, 0⟩)).util 60 = 510
    ∧ (tickLoop false drawsHalf 1 1010 21 (initState ⟨0, 0⟩)).server 60 = 531 := by
  have h20 := tickLoop_halfRun ⟨0, 0⟩ 20 (le_refl 20)
  have h21 : tickLoop false drawsHalf 1 1010 21 (initState ⟨0, 0⟩)
      = tick false drawsHalf 1 1010 21 (halfRunState ⟨0, 0⟩ 20) := by
    show tick false drawsHalf 1 1010 _ (tickLoop false drawsHalf 1 1010 20 _) = _
    rw [h20]
    rfl
  rw [h21, h20, tick_booked false drawsHalf 1 1010 21 (halfRunState ⟨0, 0⟩ 20) _ (by decide!)
    schedule_halfRun_last, schedule_halfRun_last]
  decide!

/-- C8: for every positive arrival rate, the arrival test succeeds exactly when
the draw is below `1 / arrival_rate`; a tick whose draw passes the test counts
the job and books it on the selected server within that tick, a tick whose draw
fails it changes neither `jobs` nor any server; and the final `jobs` is the
number of ticks among `1 .. duration` whose draw passed, between 0 and
`duration`. -/
theorem arrival_rule_and_job_count ( rs : Bool) (rnd : Nat → ℚ) (u0 : Uninit) (ar mx : Int)
    (har : 0 < ar) :
    (∀ r : ℚ, arrival r ar = true ↔ r < 1 / (ar : ℚ))
    ∧ (∀ (t : Int) (st : State), rnd st.calls < 1 / (ar : ℚ) →
        (tick rs rnd ar mx t st).jobs = st.jobs + 1
        ∧ (tick rs rnd ar mx t st).util (schedule rs rnd mx t st).s
            = st.util (schedule rs rnd mx t st).s + (schedule rs rnd mx t st).task_duration
        ∧ (tick rs rnd ar mx t st).server (schedule rs rnd mx t st).s
            = max (st.server (schedule rs rnd mx t st).s) t
                + (schedule rs rnd mx t st).task_duration)
    ∧ (∀ (t : Int) (st : State), ¬ rnd st.calls < 1 / (ar : ℚ) →
        (tick rs rnd ar mx t st).jobs = st.jobs
        ∧ (tick rs rnd ar mx t st).util = st.util
        ∧ (tick rs rnd ar mx t st).server = st.server)
    ∧ (∀ n : Nat, arrivesAt rs rnd ar mx (initState u0) n = true
        ↔ rnd (tickLoop rs rnd ar mx n (initState u0)).calls < 1 / (ar : ℚ))
    ∧ (simulate rs rnd u0 ar mx).jobs
        = (arrivalCount rs rnd ar mx (initState u0) duration : Int)
    ∧ 0 ≤ (simulate rs rnd u0 ar mx).jobs
    ∧ (simulate rs rnd u0 ar mx).jobs ≤ (duration : Int) := by
  have hjobs : (simulate rs rnd u0 ar mx).jobs
      = (arrivalCount rs rnd ar mx (initState u0) duration : Int) := by
    unfold simulate
    rw [tickLoop_jobs]
    simp [initState]
  refine ⟨fun r => arrival_iff r ar har, ?_, ?_, fun n => arrival_iff _ ar har, hjobs, ?_, ?_⟩
  · intro t st hlt
    have h := (arrival_iff (rnd st.calls) ar har).mpr hlt
    refine ⟨?_, ?_, ?_⟩
    · rw [tick_jobs, h]
      simp
    · rw [tick_of_arrival rs rnd ar mx t st h, bookkeeping_util, if_pos rfl]
    · rw [tick_of_arrival rs rnd ar mx t st h, bookkeeping_server, if_pos rfl]
  · intro t st hnlt
    have h : arrival (rnd st.calls) ar = false := by
      rw [← Bool.not_eq_true]
      exact fun hc => hnlt ((arrival_iff (rnd st.calls) ar har).mp hc)
    rw [tick_of_no_arrival rs rnd ar mx t st h]
    exact ⟨rfl, rfl, rfl⟩
  · rw [hjobs]
    exact Int.natCast_nonneg _
  · rw [hjobs]
    exact_mod_cast arrivalCount_le rs rnd ar mx (initState u0) duration

/-- Witness for C8: the greedy run with `arrival_rate = 1`, `max_execution = 10`
and every draw `0`. -/
theorem arrival_rule_and_job_count_witness :
    (0 : Int) < 1
    ∧ (simulate false drawsZero ⟨0, 0⟩ 1 10).jobs
        = (arrivalCount false drawsZero 1 10 (initState ⟨0, 0⟩) duration : Int)
    ∧ 0 ≤ (simulate false drawsZero ⟨0, 0⟩ 1 10).jobs
    ∧ (simulate false drawsZero ⟨0, 0⟩ 1 10).jobs ≤ (duration : Int) :=
  ⟨by norm_num,
    (arrival_rule_and_job_count false drawsZero ⟨0, 0⟩ 1 10 (by norm_num)).2.2.2.2⟩

/-- C9: with `arrival_rate = 1`, an accepted `max_execution` and draws in
`[0, 1)`, the arrival test succeeds at every tick, the run is not rejected, the
final job count equals `duration`, that is 10000, and the first arrival tick
is 1. -/
theorem arrival_certainty ( rs : Bool) (rnd : Nat → ℚ) (u0 : Uninit) (mx : Int)
    (hmx : 10 ≤ mx) (hrnd : ∀ k, 0 ≤ rnd k ∧ rnd k < 1) :
    (∀ n : Nat, arrivesAt rs rnd 1 mx (initState u0) n = true)
    ∧ (simulate rs rnd u0 1 mx).jobs = (duration : Int)
    ∧ (simulate rs rnd u0 1 mx).jobs = 10000
    ∧ (simulate rs rnd u0 1 mx).first_job = 1
    ∧ main rs rnd u0 1 mx
        = Outcome.finished (simulate rs rnd u0 1 mx) (report (simulate rs rnd u0 1 mx)) 0
    ∧ (report (simulate rs rnd u0 1 mx)).jobs = 10000
    ∧ (report (simulate rs rnd u0 1 mx)).first_job = 1 := by
  have h := tickLoop_certain rs rnd mx u0 hrnd duration
  have hj : (simulate rs rnd u0 1 mx).jobs = (duration : Int) := h.1
  have hf : (simulate rs rnd u0 1 mx).first_job = 1 := h.2 (by norm_num [duration])
  have hd : ((duration : Nat) : Int) = 10000 := by norm_num [duration]
  refine ⟨fun n => arrival_rate_one _ (hrnd _).2, hj, hj.trans hd, hf, ?_, ?_, ?_⟩
  · unfold main
    rw [if_neg (by omega)]
  · show (simulate rs rnd u0 1 mx).jobs = 10000
    exact hj.trans hd
  · exact hf

/-- Witness for C9: the greedy run with `max_execution = 10` and every draw `0`. -/
theorem arrival_certainty_witness :
    (10 : Int) ≤ 10 ∧ (∀ k, 0 ≤ drawsZero k ∧ drawsZero k < 1)
    ∧ (simulate false drawsZero ⟨0, 0⟩ 1 10).jobs = 10000
    ∧ (simulate false drawsZero ⟨0, 0⟩ 1 10).first_job = 1 :=
  ⟨le_refl _, fun _ => ⟨le_refl _, zero_lt_one⟩,
    (arrival_certainty false drawsZero ⟨0, 0⟩ 10 (le_refl _)
      (fun _ => ⟨le_refl _, zero_lt_one⟩)).2.2.1,
    (arrival_certainty false drawsZero ⟨0, 0⟩ 10 (le_refl _)
      (fun _ => ⟨le_refl _, zero_lt_one⟩)).2.2.2.1⟩

/-- C10: for every `max_execution < 10` and every arrival rate the program
prints "max execution should be at least 10" and exits with status 0 before the
simulation state exists, so that the outcome carries no tick, job or server
update and is the same for every random source; for every `max_execution ≥ 10`
the run is not rejected: it returns 0 after the simulation loop. -/
theorem rejects_small_max_execution ( rs : Bool) (rnd : Nat → ℚ) (u0 : Uninit)
    (ar mx : Int) :
    (mx < 10 →
        main rs rnd u0 ar mx = Outcome.exited "max execution should be at least 10\n" 0
        ∧ ∀ ( rs1 : Bool) (rnd1 : Nat → ℚ) (u1 : Uninit) (ar1 : Int),
            main rs1 rnd1 u1 ar1 mx = main rs rnd u0 ar mx)
    ∧ (10 ≤ mx →
        main rs rnd u0 ar mx
          = Outcome.finished (simulate rs rnd u0 ar mx) (report (simulate rs rnd u0 ar mx)) 0
        ∧ ∀ (msg : String) (status : Int), main rs rnd u0 ar mx ≠ Outcome.exited msg status) := by
  constructor
  · intro h
    have hmain : ∀ ( rs1 : Bool) (rnd1 : Nat → ℚ) (u1 : Uninit) (ar1 : Int),
        main rs1 rnd1 u1 ar1 mx
          = Outcome.exited "max execution should be at least 10\n" 0 := by
      intro rs1 rnd1 u1 ar1
      unfold main
      rw [if_pos h]
    exact ⟨hmain rs rnd u0 ar, fun rs1 rnd1 u1 ar1 => by rw [hmain, hmain]⟩
  · intro h
    have hmain : main rs rnd u0 ar mx
        = Outcome.finished (simulate rs rnd u0 ar mx)
            (report (simulate rs rnd u0 ar mx)) 0 := by
      unfold main
      rw [if_neg (by omega)]
    refine ⟨hmain, fun msg status hc => ?_⟩
    rw [hmain] at hc
    exact Outcome.noConfusion hc

/-- Witness for C10: `max_execution = 9` is rejected, whatever the arrival rate. -/
theorem rejects_small_max_execution_witness :
    (9 : Int) < 10
    ∧ main false drawsZero ⟨0, 0⟩ 1 9
        = Outcome.exited "max execution should be at least 10\n" 0 :=
  ⟨by norm_num,
    ((rejects_small_max_execution false drawsZero ⟨0, 0⟩ 1 9).1 (by norm_num)).1⟩

/-! ## Runs in which every tick has an arrival -/

theorem arrival_rate_zero (r : ℚ) : arrival r 0 = true := by
  simp [arrival]

theorem tickLoop_all_arrive ( rs : Bool) (rnd : Nat → ℚ) (ar mx : Int) (u0 : Uninit)
    (harr : ∀ r : ℚ, arrival r ar = true) (n : Nat) :
    (tickLoop rs rnd ar mx n (initState u0)).jobs = (n : Int)
      ∧ (0 < n → (tickLoop rs rnd ar mx n (initState u0)).first_job = 1) := by
  induction n with
  | zero => exact ⟨rfl, fun h => absurd h (lt_irrefl 0)⟩
  | succ m ih =>
    rw [tickLoop, tick_of_arrival rs rnd ar mx _ _ (harr _)]
    simp only [bookkeeping]
    rw [ih.1]
    refine ⟨by push_cast; ring, fun _ => ?_⟩
    rcases Nat.eq_zero_or_pos m with h0 | hpos
    · subst h0
      simp
    · rw [if_neg (by omega)]
      exact ih.2 hpos

/-! ## The claims, continued -/

/-- C11, counterexample: the greedy run with `arrival_rate = 0`,
`max_execution = 10` and every draw `0` is not rejected; it runs the simulation
loop and schedules 10000 jobs. -/
theorem arrival_rate_zero_not_rejected :
    main false drawsZero ⟨0, 0⟩ 0 10
      = Outcome.finished (simulate false drawsZero ⟨0, 0⟩ 0 10)
          (report (simulate false drawsZero ⟨0, 0⟩ 0 10)) 0
    ∧ (simulate false drawsZero ⟨0, 0⟩ 0 10).jobs = 10000 := by
  constructor
  · unfold main
    rw [if_neg (by norm_num)]
  · have h := (tickLoop_all_arrive false drawsZero 0 10 ⟨0, 0⟩ arrival_rate_zero duration).1
    unfold simulate
    rw [h]
    norm_num [duration]

/-- C11, amended: a run with `arrival_rate = 0` and an accepted `max_execution`
is not rejected. The program has no check of the arrival rate: the run goes
through the simulation loop, the arrival test `my_rnd < 1.0 / 0` succeeds at
every tick, and 10000 jobs are scheduled. -/
theorem arrival_rate_zero_runs ( rs : Bool) (rnd : Nat → ℚ) (u0 : Uninit) (mx : Int)
    (hmx : 10 ≤ mx) :
    main rs rnd u0 0 mx
      = Outcome.finished (simulate rs rnd u0 0 mx) (report (simulate rs rnd u0 0 mx)) 0
    ∧ (∀ (msg : String) (status : Int), main rs rnd u0 0 mx ≠ Outcome.exited msg status)
    ∧ (∀ n : Nat, arrivesAt rs rnd 0 mx (initState u0) n = true)
    ∧ (simulate rs rnd u0 0 mx).jobs = 10000 := by
  have hmain : main rs rnd u0 0 mx
      = Outcome.finished (simulate rs rnd u0 0 mx) (report (simulate rs rnd u0 0 mx)) 0 := by
    unfold main
    rw [if_neg (by omega)]
  refine ⟨hmain, fun msg status hc => ?_, fun n => arrival_rate_zero _, ?_⟩
  · rw [hmain] at hc
    exact Outcome.noConfusion hc
  · have h := (tickLoop_all_arrive rs rnd 0 mx u0 arrival_rate_zero duration).1
    unfold simulate
    rw [h]
    norm_num [duration]

/-- Witness for C11 (amended): `arrival_rate = 0` with `max_execution = 10`. -/
theorem arrival_rate_zero_runs_witness :
    (10 : Int) ≤ 10 ∧ (simulate false drawsZero ⟨0, 0⟩ 0 10).jobs = 10000 :=
  ⟨le_refl _, (arrival_rate_zero_runs false drawsZero ⟨0, 0⟩ 10 (le_refl _)).2.2.2⟩

/-- C12: in random mode, for every draw `r` in `[0, 1)` the selected index is
`⌊100 r⌋` and lies in `0 .. servers - 1`; the warning condition is false, the
frequency is read at that index, and a tick writes `util` and `server` at no
index outside `0 .. servers - 1`. -/
theorem random_index_in_bounds (freq : Int → ℚ) (jf jd r : ℚ) (h0 : 0 ≤ r) (h1 : r < 1) :
    (randomChoice freq jf jd r).s = ⌊100 * r⌋
    ∧ 0 ≤ (randomChoice freq jf jd r).s
    ∧ (randomChoice freq jf jd r).s ≤ (servers : Int) - 1
    ∧ outOfBounds (randomChoice freq jf jd r).s = false
    ∧ (randomChoice freq jf jd r).task_duration
        = taskDuration jf jd (freq (randomChoice freq jf jd r).s)
    ∧ (∀ (rnd : Nat → ℚ) (ar mx t : Int) (st : State) (j : Int),
        rnd (st.calls + 3) = r → (j < 0 ∨ (servers : Int) ≤ j) →
          (tick true rnd ar mx t st).server j = st.server j
          ∧ (tick true rnd ar mx t st).util j = st.util j) := by
  have hs := randomChoice_s_range freq jf jd r h0 h1
  have hfl : (randomChoice freq jf jd r).s = ⌊100 * r⌋ := by
    simp only [randomChoice]
    exact toInt_of_nonneg (by linarith)
  refine ⟨hfl, hs.1, ?_, ?_, rfl, ?_⟩
  · simp only [servers]
    have := hs.2
    push_cast
    omega
  · simp only [outOfBounds, servers, decide_eq_false_iff_not]
    have := hs.2
    push_cast
    omega
  · intro rnd ar mx t st j hr hj
    cases harr : arrival (rnd st.calls) ar with
    | false =>
      rw [tick_of_no_arrival true rnd ar mx t st harr]
      exact ⟨rfl, rfl⟩
    | true =>
      have hsel := randomChoice_s_range st.freq (jobFactor (rnd (st.calls + 2)))
        (jobDuration mx (rnd (st.calls + 1))) (rnd (st.calls + 3))
        (by rw [hr]; exact h0) (by rw [hr]; exact h1)
      have hsch : schedule true rnd mx t st
          = randomChoice st.freq (jobFactor (rnd (st.calls + 2)))
              (jobDuration mx (rnd (st.calls + 1))) (rnd (st.calls + 3)) := by
        simp [schedule]
      rw [← hsch] at hsel
      have hne : j ≠ (schedule true rnd mx t st).s := by
        simp only [servers] at hj
        push_cast at hj
        omega
      rw [tick_of_arrival true rnd ar mx t st harr, bookkeeping_server, bookkeeping_util,
        if_neg hne, if_neg hne]
      exact ⟨rfl, rfl⟩

/-- Witness for C12: the draw `1/2` selects server 50. -/
theorem random_index_in_bounds_witness :
    (0 : ℚ) ≤ 1 / 2 ∧ (1 / 2 : ℚ) < 1
    ∧ 0 ≤ (randomChoice initFreq 0 10 (1 / 2)).s
    ∧ (randomChoice initFreq 0 10 (1 / 2)).s ≤ (servers : Int) - 1 :=
  ⟨by norm_num, by norm_num,
    (random_index_in_bounds initFreq 0 10 (1 / 2) (by norm_num) (by norm_num)).2.1,
    (random_index_in_bounds initFreq 0 10 (1 / 2) (by norm_num) (by norm_num)).2.2.1⟩

/-! ## Energy, last finish and runs without arrival -/

theorem lastFinish_mem (server : Int → Int) (n : Nat) :
    lastFinish server n = 0
      ∨ ∃ i : Nat, i < n ∧ lastFinish server n = server (i : Int) := by
  induction n with
  | zero => left; rfl
  | succ m ih =>
    simp only [lastFinish]
    split_ifs
    · right
      exact ⟨m, Nat.lt_succ_self m, rfl⟩
    · rcases ih with h | ⟨i, hi, h⟩
      · left; exact h
      · right
        exact ⟨i, Nat.lt_succ_of_lt hi, h⟩

theorem effectiveDuration_mem (m : Int) :
    effectiveDuration m = (duration : Int) ∨ effectiveDuration m = m := by
  unfold effectiveDuration
  split_ifs
  · right; rfl
  · left; rfl

theorem arrivalCount_eq_zero ( rs : Bool) (rnd : Nat → ℚ) (ar mx : Int) (st0 : State) (n : Nat)
    (h : ∀ k : Nat, k < n → arrivesAt rs rnd ar mx st0 k = false) :
    arrivalCount rs rnd ar mx st0 n = 0 := by
  induction n with
  | zero => rfl
  | succ m ih =>
    simp only [arrivalCount]
    rw [ih (fun k hk => h k (Nat.lt_succ_of_lt hk)), h m (Nat.lt_succ_self m)]
    simp

/-- A loop prefix without arrival changes nothing but the count of draws. -/
theorem tickLoop_of_no_arrival ( rs : Bool) (rnd : Nat → ℚ) (ar mx : Int) (st0 : State)
    (n : Nat) (h : arrivalCount rs rnd ar mx st0 n = 0) :
    tickLoop rs rnd ar mx n st0 = { st0 with calls := st0.calls + n } := by
  induction n with
  | zero => rfl
  | succ m ih =>
    simp only [arrivalCount] at h
    have hm : arrivalCount rs rnd ar mx st0 m = 0 := by omega
    have ha : arrivesAt rs rnd ar mx st0 m = false := by
      by_contra hc
      rw [Bool.not_eq_false] at hc
      rw [hc] at h
      simp at h
    have hst := ih hm
    unfold arrivesAt at ha
    rw [tickLoop, tick_of_no_arrival rs rnd ar mx _ _ ha, hst]
    simp only [Nat.add_assoc]

theorem lastFinish_zero (n : Nat) : lastFinish (fun _ => 0) n = 0 := by
  induction n with
  | zero => rfl
  | succ m ih => simp [lastFinish, ih]

/-! ## The claims on the final statistics -/

theorem tick_mono ( rs : Bool) (rnd : Nat → ℚ) (ar mx t : Int) (st : State)
    (hmx : 10 ≤ mx) (hrnd : ∀ k, 0 ≤ rnd k ∧ rnd k < 1) (h : Inv st) (j : Int) :
    st.server j ≤ (tick rs rnd ar mx t st).server j
      ∧ st.util j ≤ (tick rs rnd ar mx t st).util j := by
  cases harr : arrival (rnd st.calls) ar with
  | false =>
    rw [tick_of_no_arrival rs rnd ar mx t st harr]
    exact ⟨le_refl _, le_refl _⟩
  | true =>
    rw [tick_of_arrival rs rnd ar mx t st harr, bookkeeping_util, bookkeeping_server]
    have hd := schedule_task_duration_nonneg rs rnd mx t st hmx hrnd h.1
    have hm := max_ge_left (st.server (schedule rs rnd mx t st).s) t
    by_cases hj : j = (schedule rs rnd mx t st).s
    · simp only [hj, if_true]
      constructor <;> omega
    · simp only [hj, if_false]
      exact ⟨le_refl _, le_refl _⟩

theorem tickLoop_jobs_nonneg ( rs : Bool) (rnd : Nat → ℚ) (ar mx : Int) (u0 : Uninit)
    (n : Nat) : 0 ≤ (tickLoop rs rnd ar mx n (initState u0)).jobs := by
  rw [tickLoop_jobs]
  have h : (initState u0).jobs = 0 := rfl
  rw [h]
  omega

theorem schedule_agree ( rs : Bool) (rnd : Nat → ℚ) (mx t : Int) (a b : State)
    (hs : a.server = b.server) (hf : a.freq = b.freq) (hc : a.calls = b.calls) :
    schedule rs rnd mx t a = schedule rs rnd mx t b := by
  unfold schedule
  rw [hs, hf, hc]
  cases rs with
  | false =>
    simp only [Bool.false_eq_true, if_false]
    exact greedy_entry_irrelevant _ _ _ _ _ _ _
  | true => rfl

/-- Two runs on the same draws that differ only in the values of the
uninitialised locals agree on `jobs`, `server`, `util`, `freq` and the draw
count after every tick, and on `first_job` as soon as a job has arrived. -/
theorem tickLoop_uninit_agree ( rs : Bool) (rnd : Nat → ℚ) (ar mx : Int) (u0 u1 : Uninit)
    (n : Nat) :
    (tickLoop rs rnd ar mx n (initState u0)).jobs
        = (tickLoop rs rnd ar mx n (initState u1)).jobs
    ∧ (tickLoop rs rnd ar mx n (initState u0)).server
        = (tickLoop rs rnd ar mx n (initState u1)).server
    ∧ (tickLoop rs rnd ar mx n (initState u0)).util
        = (tickLoop rs rnd ar mx n (initState u1)).util
    ∧ (tickLoop rs rnd ar mx n (initState u0)).freq
        = (tickLoop rs rnd ar mx n (initState u1)).freq
    ∧ (tickLoop rs rnd ar mx n (initState u0)).calls
        = (tickLoop rs rnd ar mx n (initState u1)).calls
    ∧ (0 < (tickLoop rs rnd ar mx n (initState u0)).jobs →
        (tickLoop rs rnd ar mx n (initState u0)).first_job
          = (tickLoop rs rnd ar mx n (initState u1)).first_job) := by
  induction n with
  | zero => exact ⟨rfl, rfl, rfl, rfl, rfl, fun h => absurd h (lt_irrefl 0)⟩
  | succ m ih =>
    obtain ⟨hj, hs, hu, hf, hc, hfj⟩ := ih
    have hnn := tickLoop_jobs_nonneg rs rnd ar mx u0 m
    simp only [tickLoop]
    generalize tickLoop rs rnd ar mx m (initState u0) = a at *
    generalize tickLoop rs rnd ar mx m (initState u1) = b at *
    have hsel := schedule_agree rs rnd mx ((m : Int) + 1) a b hs hf hc
    cases harr : arrival (rnd a.calls) ar with
    | false =>
      have harr2 : arrival (rnd b.calls) ar = false := by rw [← hc]; exact harr
      rw [tick_of_no_arrival rs rnd ar mx _ a harr, tick_of_no_arrival rs rnd ar mx _ b harr2]
      exact ⟨hj, hs, hu, hf, by simp only [hc], hfj⟩
    | true =>
      have harr2 : arrival (rnd b.calls) ar = true := by rw [← hc]; exact harr
      rw [tick_of_arrival rs rnd ar mx _ a harr, tick_of_arrival rs rnd ar mx _ b harr2]
      refine ⟨?_, ?_, ?_, hf, ?_, fun _ => ?_⟩
      · simp only [bookkeeping, hj]
      · simp only [bookkeeping, hsel, hs]
      · simp only [bookkeeping, hsel, hu]
      · simp only [bookkeeping, hc]
      · show (if a.jobs + 1 = 1 then ((m : Int) + 1) else a.first_job)
          = (if b.jobs + 1 = 1 then ((m : Int) + 1) else b.first_job)
        rw [← hj]
        by_cases h1 : a.jobs + 1 = 1
        · rw [if_pos h1, if_pos h1]
        · rw [if_neg h1, if_neg h1]
          exact hfj (by omega)

/-! ## The claims on the server state -/

/-- C18 (code defect): when no job arrives, `first_job` is never assigned and
the program prints the value the variable happened to hold. With
`arrival_rate = -1` no tick has an arrival (here with every draw `0`), and two
runs on the same draws report the first-arrival ticks 0 and 7 when the
uninitialised variable held 0 and 7. -/
theorem first_arrival_tick_indeterminate :
    (∀ n : Nat, arrivesAt false drawsZero (-1) 10 (initState ⟨0, 0⟩) n = false)
    ∧ (report (simulate false drawsZero ⟨0, 0⟩ (-1) 10)).jobs = 0
    ∧ (report (simulate false drawsZero ⟨7, 0⟩ (-1) 10)).jobs = 0
    ∧ (report (simulate false drawsZero ⟨0, 0⟩ (-1) 10)).first_job = 0
    ∧ (report (simulate false drawsZero ⟨7, 0⟩ (-1) 10)).first_job = 7
    ∧ (∀ u0 : Uninit,
        (report (simulate false drawsZero u0 (-1) 10)).first_job = u0.first_job) := by
  have hno : ∀ (u0 : Uninit) (n : Nat),
      arrivesAt false drawsZero (-1) 10 (initState u0) n = false := by
    intro u0 n
    simp [arrivesAt, arrival, drawsZero]
  have hrun : ∀ u0 : Uninit, simulate false drawsZero u0 (-1) 10
      = { initState u0 with calls := (initState u0).calls + duration } := by
    intro u0
    exact tickLoop_of_no_arrival false drawsZero (-1) 10 (initState u0) duration
      (arrivalCount_eq_zero false drawsZero (-1) 10 (initState u0) duration
        (fun k _ => hno u0 k))
  refine ⟨hno ⟨0, 0⟩, ?_, ?_, ?_, ?_, ?_⟩
  · rw [hrun]; rfl
  · rw [hrun]; rfl
  · rw [hrun]; rfl
  · rw [hrun]; rfl
  · intro u0
    rw [hrun]; rfl

/-! ## The greedy branch on a pool of idle servers -/

theorem toInt_add_int_ge (x : ℚ) (n : Int) (hx : 0 ≤ x) :
    toInt x + n ≤ toInt (x + (n : ℚ)) := by
  rw [toInt_of_nonneg hx]
  unfold toInt
  split_ifs
  · rw [Int.floor_add_int]
  · rw [Int.ceil_add_int]
    have := Int.floor_le_ceil x
    omega

/-- The execution time of a job the program samples is non-negative on every
server of the array. -/
theorem schedule_execTime_nonneg (rnd : Nat → ℚ) (mx : Int) (st : State) (i : Int)
    (hmx : 10 ≤ mx) (hrnd : ∀ k, 0 ≤ rnd k ∧ rnd k < 1) (hfreq : st.freq = initFreq)
    (h0 : 0 ≤ i) (h1 : i < 100) :
    0 ≤ execTime (jobFactor (rnd (st.calls + 2))) (jobDuration mx (rnd (st.calls + 1)))
        (st.freq i) := by
  have hjd : (0 : ℚ) ≤ jobDuration mx (rnd (st.calls + 1)) := by
    have := jobDuration_ge mx (rnd (st.calls + 1)) hmx (hrnd _).1
    linarith
  rw [hfreq]
  have hb := initFreq_bounds i h0 h1
  exact execTime_nonneg (toFloat_nonneg (hrnd _).1) hjd (by linarith [hb.1]) hb.2

/-! ## The claim on the idle pool -/

theorem toFloat_le_of_le_int {x : ℚ} (n : Int) (hx : 0 ≤ x) (hn : n ≤ 16777216) (h : x ≤ (n : ℚ)) :
    toFloat x ≤ (n : ℚ) := by
  have hn0 : (0 : ℚ) ≤ (n : ℚ) := le_trans hx h
  have hn0' : (0 : Int) ≤ n := by exact_mod_cast hn0
  have hmono := toFloat_mono hx h
  rcases lt_or_eq_of_le hn with hlt | heq
  · rw [toFloat_intCast n (by rw [abs_of_nonneg hn0']; norm_num; omega)] at hmono
    exact hmono
  · have hex : toFloat ((16777216 : Int) : ℚ) = ((16777216 : Int) : ℚ) := by
      have h2 := roundTo_exact 24 8388608 1 (by norm_num)
      have h3 : ((8388608 : Int) : ℚ) * twoPow 1 = ((16777216 : Int) : ℚ) := by
        rw [twoPow_eq_zpow]; norm_num
      rw [h3] at h2
      exact h2
    rw [heq] at hmono ⊢
    rw [hex] at hmono
    exact hmono

theorem jobDuration_le (mx : Int) (r : ℚ) (hmx : 10 ≤ mx) (hmx2 : mx ≤ 16777216)
    (hr0 : 0 ≤ r) (hr1 : r < 1) : jobDuration mx r ≤ (mx : ℚ) := by
  have ha : (0 : ℚ) ≤ (mx : ℚ) - 10 := by
    have : ((10 : Int) : ℚ) ≤ (mx : ℚ) := by exact_mod_cast hmx
    simpa using sub_nonneg.mpr this
  have hM : (0 : ℚ) < randScale := by norm_num [randScale]
  have hM31 : twoPow 31 = randScale := by
    rw [twoPow_eq_zpow]; norm_num [randScale]
  have hcast : (((mx - 10 : Int)) : ℚ) = (mx : ℚ) - 10 := by push_cast; ring
  have h1 : toDouble (((mx : ℚ) - 10) * (r * randScale)) ≤ ((mx : ℚ) - 10) * randScale := by
    have hle : ((mx : ℚ) - 10) * (r * randScale) ≤ ((mx : ℚ) - 10) * randScale := by
      apply mul_le_mul_of_nonneg_left _ ha
      nlinarith
    have hmono := toDouble_mono (mul_nonneg ha (mul_nonneg hr0 (le_of_lt hM))) hle
    have hex := roundTo_exact 53 (mx - 10) 31 (by
      rw [abs_of_nonneg (by omega)]; norm_num; omega)
    rw [hM31, hcast] at hex
    unfold toDouble at hmono ⊢
    rw [hex] at hmono
    exact hmono
  have h1nn : 0 ≤ toDouble (((mx : ℚ) - 10) * (r * randScale)) :=
    toDouble_nonneg (mul_nonneg ha (mul_nonneg hr0 (le_of_lt hM)))
  have h2 : toDouble (toDouble (((mx : ℚ) - 10) * (r * randScale)) / randScale)
      ≤ (mx : ℚ) - 10 := by
    have hle : toDouble (((mx : ℚ) - 10) * (r * randScale)) / randScale ≤ (mx : ℚ) - 10 := by
      rw [div_le_iff₀ hM]; exact h1
    have hmono := toDouble_mono (div_nonneg h1nn (le_of_lt hM)) hle
    have hex := toDouble_intCast (mx - 10) (by
      rw [abs_of_nonneg (by omega)]; norm_num; omega)
    rw [hcast] at hex
    rw [hex] at hmono
    exact hmono
  have h2nn := jobDuration_inner_nonneg mx r hmx hr0
  have h3 : toDouble (10 + toDouble (toDouble (((mx : ℚ) - 10) * (r * randScale)) / randScale))
      ≤ (mx : ℚ) := by
    have hle : 10 + toDouble (toDouble (((mx : ℚ) - 10) * (r * randScale)) / randScale)
        ≤ (mx : ℚ) := by linarith
    have hmono := toDouble_mono (by linarith) hle
    have hex := toDouble_intCast mx (by
      rw [abs_of_nonneg (by omega)]; norm_num; omega)
    rw [hex] at hmono
    exact hmono
  unfold jobDuration
  exact toFloat_le_of_le_int mx (toDouble_nonneg (by linarith)) hmx2 h3

theorem jobFactor_range (r : ℚ) (hr0 : 0 ≤ r) (hr1 : r < 1) :
    0 ≤ jobFactor r ∧ jobFactor r ≤ 1 := by
  unfold jobFactor
  refine ⟨toFloat_nonneg hr0, ?_⟩
  have := toFloat_mono hr0 (le_of_lt hr1)
  rwa [toFloat_one] at this

theorem initFreq_mono_array (i j : Int) (h0 : 0 ≤ i) (hij : i ≤ j) (h1 : j < 100) :
    initFreq i ≤ initFreq j := by
  obtain ⟨t0, t1, t2, t3, t4⟩ := initFreq_tiers
  have hi : i / 20 = 0 ∨ i / 20 = 1 ∨ i / 20 = 2 ∨ i / 20 = 3 ∨ i / 20 = 4 := by omega
  have hj : j / 20 = 0 ∨ j / 20 = 1 ∨ j / 20 = 2 ∨ j / 20 = 3 ∨ j / 20 = 4 := by omega
  have e0 : (20 : Int) * 0 = 0 := by norm_num
  have e1 : (20 : Int) * 1 = 20 := by norm_num
  have e2 : (20 : Int) * 2 = 40 := by norm_num
  have e3 : (20 : Int) * 3 = 60 := by norm_num
  have e4 : (20 : Int) * 4 = 80 := by norm_num
  rcases hi with hi | hi | hi | hi | hi <;> rcases hj with hj | hj | hj | hj | hj <;>
    first
    | (exfalso; omega)
    | (rw [initFreq_of_tier (i / 20) i (by omega) (by omega),
          initFreq_of_tier (j / 20) j (by omega) (by omega), hi, hj]
       norm_num [e0, e1, e2, e3, e4, t0, t1, t2, t3, t4])
    | (rw [initFreq_of_tier (i / 20) i (by omega) (by omega),
          initFreq_of_tier (j / 20) j (by omega) (by omega), hi, hj])

/-! ## The claims on the sampled job and the frequencies -/

/-- C19, counterexample: the frequency stored for server 0 is the `float`
`5033165 / 2 ^ 23 = 0.600000023841...`, not `0.6`. -/
theorem stored_frequency_not_nominal :
    initFreq 0 = 5033165 / 8388608
    ∧ initFreq 0 ≠ 6 / 10 + 1 / 10 * (((0 : Int) / 20 : Int) : ℚ) := by
  decide!

/-- C19, amended: after initialisation `freq[i]` is the `float` nearest to the
double sum `0.6 + 0.1 * ⌊i / 20⌋`. For the indices `0 .. 99` the servers form
five contiguous tiers of exactly 20 servers, with the stored frequencies
`5033165 / 2^23`, `11744051 / 2^24`, `13421773 / 2^24`, `7549747 / 2^23` and `1`
in index order, each within `2 ^ -25` of the nominal `0.6, 0.7, 0.8, 0.9, 1.0`;
the frequency is non-decreasing in the index and lies in `[0.6, 1.0]`; and no
tick modifies it. -/
theorem frequency_tiers :
    (∀ u0 : Uninit, (initState u0).freq = initFreq)
    ∧ (∀ i : Int, 0 ≤ i → i < 20 → initFreq i = 5033165 / 8388608)
    ∧ (∀ i : Int, 20 ≤ i → i < 40 → initFreq i = 11744051 / 16777216)
    ∧ (∀ i : Int, 40 ≤ i → i < 60 → initFreq i = 13421773 / 16777216)
    ∧ (∀ i : Int, 60 ≤ i → i < 80 → initFreq i = 7549747 / 8388608)
    ∧ (∀ i : Int, 80 ≤ i → i < 100 → initFreq i = 1)
    ∧ (∀ k i : Int, 0 ≤ k → k < 5 → 0 ≤ i → i < 100 →
        (initFreq i = initFreq (20 * k) ↔ 20 * k ≤ i ∧ i < 20 * k + 20))
    ∧ (∀ i : Int, 0 ≤ i → i < 100 →
        |initFreq i - (6 / 10 + 1 / 10 * ((i / 20 : Int) : ℚ))| ≤ 1 / 33554432)
    ∧ (∀ i j : Int, 0 ≤ i → i ≤ j → j < 100 → initFreq i ≤ initFreq j)
    ∧ (∀ i : Int, 0 ≤ i → i < 100 → 6 / 10 ≤ initFreq i ∧ initFreq i ≤ 1)
    ∧ (∀ ( rs : Bool) (rnd : Nat → ℚ) (ar mx : Int) (n : Nat) (u0 : Uninit),
        (tickLoop rs rnd ar mx n (initState u0)).freq = initFreq)
    ∧ (∀ ( rs : Bool) (rnd : Nat → ℚ) (ar mx : Int) (u0 : Uninit),
        (simulate rs rnd u0 ar mx).freq = initFreq) := by
  obtain ⟨t0, t1, t2, t3, t4⟩ := initFreq_tiers
  have e0 : (20 : Int) * 0 = 0 := by norm_num
  have e1 : (20 : Int) * 1 = 20 := by norm_num
  have e2 : (20 : Int) * 2 = 40 := by norm_num
  have e3 : (20 : Int) * 3 = 60 := by norm_num
  have e4 : (20 : Int) * 4 = 80 := by norm_num
  have v0 : ∀ i : Int, 0 ≤ i → i < 20 → initFreq i = 5033165 / 8388608 := by
    intro i h1 h2
    rw [initFreq_of_tier 0 i (by omega) (by omega), e0, t0]
  have v1 : ∀ i : Int, 20 ≤ i → i < 40 → initFreq i = 11744051 / 16777216 := by
    intro i h1 h2
    rw [initFreq_of_tier 1 i (by omega) (by omega), e1, t1]
  have v2 : ∀ i : Int, 40 ≤ i → i < 60 → initFreq i = 13421773 / 16777216 := by
    intro i h1 h2
    rw [initFreq_of_tier 2 i (by omega) (by omega), e2, t2]
  have v3 : ∀ i : Int, 60 ≤ i → i < 80 → initFreq i = 7549747 / 8388608 := by
    intro i h1 h2
    rw [initFreq_of_tier 3 i (by omega) (by omega), e3, t3]
  have v4 : ∀ i : Int, 80 ≤ i → i < 100 → initFreq i = 1 := by
    intro i h1 h2
    rw [initFreq_of_tier 4 i (by omega) (by omega), e4, t4]
  refine ⟨fun _ => rfl, v0, v1, v2, v3, v4, ?_, ?_, initFreq_mono_array, initFreq_bounds, ?_, ?_⟩
  · intro k i hk0 hk5 hi0 hi100
    have hk : k = 0 ∨ k = 1 ∨ k = 2 ∨ k = 3 ∨ k = 4 := by omega
    have hi : i / 20 = 0 ∨ i / 20 = 1 ∨ i / 20 = 2 ∨ i / 20 = 3 ∨ i / 20 = 4 := by omega
    constructor
    · intro h
      rw [initFreq_of_tier (i / 20) i (by omega) (by omega)] at h
      rcases hk with hk | hk | hk | hk | hk <;> rcases hi with hi | hi | hi | hi | hi <;>
        first
        | omega
        | (exfalso
           rw [hk, hi] at h
           simp only [e0, e1, e2, e3, e4, t0, t1, t2, t3, t4] at h
           norm_num at h)
    · intro h
      exact initFreq_of_tier k i h.1 h.2
  · intro i hi0 hi100
    have hi : i / 20 = 0 ∨ i / 20 = 1 ∨ i / 20 = 2 ∨ i / 20 = 3 ∨ i / 20 = 4 := by omega
    rcases hi with hi | hi | hi | hi | hi
    · rw [v0 i (by omega) (by omega), hi]; norm_num [abs_le]
    · rw [v1 i (by omega) (by omega), hi]; norm_num [abs_le]
    · rw [v2 i (by omega) (by omega), hi]; norm_num [abs_le]
    · rw [v3 i (by omega) (by omega), hi]; norm_num [abs_le]
    · rw [v4 i (by omega) (by omega), hi]; norm_num [abs_le]
  · intro rs rnd ar mx n u0
    rw [tickLoop_freq]
    rfl
  · intro rs rnd ar mx u0
    unfold simulate
    rw [tickLoop_freq]
    rfl

/-! ## The rounding error of the execution-time expression -/

/-- For operands of the program's domain, the double evaluation of the
execution-time expression differs from its exact value by at most
`2 ^ -49 * job_duration / f`. -/
theorem execTime_error {jf jd f : ℚ} (hjf0 : 0 ≤ jf) (hjf1 : jf ≤ 1) (hjd : 0 ≤ jd)
    (hf : 0 < f) (hf1 : f ≤ 1) :
    |execTime jf jd f - jd * (1 + jf * (1 / f - 1))| ≤ twoPow (-49) * (jd / f) := by
  have hd : twoPow (-53) = 1 / 9007199254740992 := by
    rw [twoPow_eq_zpow]; norm_num
  have hd49 : twoPow (-49) = 1 / 562949953421312 := by
    rw [twoPow_eq_zpow]; norm_num
  set w : ℚ := 1 / f with hw
  have hw1 : 1 ≤ w := by
    rw [hw, le_div_iff₀ hf]; linarith
  have hjdw : jd / f = jd * w := by rw [hw]; ring
  obtain ⟨hsub0, hmul0, hadd1⟩ := execTime_parts hjf0 hf hf1
  have hinv1 : 1 ≤ toDouble w := by
    have := toDouble_mono (by norm_num : (0 : ℚ) ≤ 1) hw1
    rwa [toDouble_one] at this
  have hexec : execTime jf jd f
      = toDouble (toDouble (1 + toDouble (jf * toDouble (toDouble w - 1))) * jd) := rfl
  rw [hexec, hjdw, hd49]
  clear hexec hjdw hd49
  -- step 1
  have e1 := toDouble_abs_sub_le w
  rw [abs_of_nonneg (by linarith : (0 : ℚ) ≤ w), hd, abs_le] at e1
  generalize toDouble w = inv at *
  -- step 2
  have e2 := toDouble_abs_sub_le (inv - 1)
  rw [abs_of_nonneg (by linarith : (0 : ℚ) ≤ inv - 1), hd, abs_le] at e2
  generalize toDouble (inv - 1) = sub at *
  -- step 3
  have hm1 : 0 ≤ jf * sub := mul_nonneg hjf0 hsub0
  have e3 := toDouble_abs_sub_le (jf * sub)
  rw [abs_of_nonneg hm1, hd, abs_le] at e3
  generalize toDouble (jf * sub) = mul at *
  -- step 4
  have e4 := toDouble_abs_sub_le (1 + mul)
  rw [abs_of_nonneg (by linarith : (0 : ℚ) ≤ 1 + mul), hd, abs_le] at e4
  generalize toDouble (1 + mul) = add at *
  -- step 5
  have hp1 : 0 ≤ add * jd := mul_nonneg (by linarith) hjd
  have e5 := toDouble_abs_sub_le (add * jd)
  rw [abs_of_nonneg hp1, hd, abs_le] at e5
  generalize toDouble (add * jd) = res at *
  clear hd
  clear_value w
  -- bounds on the intermediate values
  have hw0 : (0 : ℚ) ≤ w := by linarith
  have b_sub_hi : sub - (w - 1) ≤ 3 / 9007199254740992 * w := by
    linarith [e1.1, e1.2, e2.1, e2.2]
  have b_sub_lo : (w - 1) - sub ≤ 3 / 9007199254740992 * w := by
    linarith [e1.1, e1.2, e2.1, e2.2]
  have hsub2 : sub ≤ 2 * w := by linarith
  have b_m_hi : jf * sub - jf * (w - 1) ≤ 3 / 9007199254740992 * w := by
    have h : jf * (sub - (w - 1)) ≤ 1 * (3 / 9007199254740992 * w) := by
      by_cases hs : 0 ≤ sub - (w - 1)
      · exact mul_le_mul hjf1 b_sub_hi hs (by norm_num)
      · have h0 : jf * (sub - (w - 1)) ≤ 0 :=
          mul_nonpos_of_nonneg_of_nonpos hjf0 (by linarith)
        linarith
    linarith
  have b_m_lo : jf * (w - 1) - jf * sub ≤ 3 / 9007199254740992 * w := by
    have h : jf * ((w - 1) - sub) ≤ 1 * (3 / 9007199254740992 * w) := by
      by_cases hs : 0 ≤ (w - 1) - sub
      · exact mul_le_mul hjf1 b_sub_lo hs (by norm_num)
      · have h0 : jf * ((w - 1) - sub) ≤ 0 :=
          mul_nonpos_of_nonneg_of_nonpos hjf0 (by linarith)
        linarith
    linarith
  have hm1le : jf * sub ≤ 2 * w := by
    have := mul_le_mul_of_nonneg_right hjf1 hsub0
    linarith
  have hMle : jf * (w - 1) ≤ w - 1 := by
    have := mul_le_mul_of_nonneg_right hjf1 (by linarith : (0 : ℚ) ≤ w - 1)
    linarith
  have b_mul_hi : mul - jf * (w - 1) ≤ 5 / 9007199254740992 * w := by
    linarith [e3.1, e3.2]
  have b_mul_lo : jf * (w - 1) - mul ≤ 5 / 9007199254740992 * w := by
    linarith [e3.1, e3.2]
  have hmul2 : mul ≤ 2 * w := by linarith
  have b_add_hi : add - (1 + jf * (w - 1)) ≤ 8 / 9007199254740992 * w := by
    linarith [e4.1, e4.2]
  have b_add_lo : (1 + jf * (w - 1)) - add ≤ 8 / 9007199254740992 * w := by
    linarith [e4.1, e4.2]
  have hadd2 : add ≤ 2 * w := by linarith
  have b_p_hi : add * jd - (1 + jf * (w - 1)) * jd ≤ 8 / 9007199254740992 * (jd * w) := by
    have := mul_le_mul_of_nonneg_right b_add_hi hjd
    linarith
  have b_p_lo : (1 + jf * (w - 1)) * jd - add * jd ≤ 8 / 9007199254740992 * (jd * w) := by
    have := mul_le_mul_of_nonneg_right b_add_lo hjd
    linarith
  have hp2 : add * jd ≤ 2 * (jd * w) := by
    have := mul_le_mul_of_nonneg_right hadd2 hjd
    linarith
  rw [abs_le]
  constructor <;> linarith [e5.1, e5.2]

/-- The task duration is the integer part of a value within `2 ^ -49 * jd / f`
of the exact execution time. -/
theorem taskDuration_near {jf jd f : ℚ} (hjf0 : 0 ≤ jf) (hjf1 : jf ≤ 1) (hjd : 0 ≤ jd)
    (hf : 0 < f) (hf1 : f ≤ 1) :
    ((taskDuration jf jd f : Int) : ℚ) ≤ jd * (1 + jf * (1 / f - 1)) + twoPow (-49) * (jd / f)
      ∧ jd * (1 + jf * (1 / f - 1)) - twoPow (-49) * (jd / f) - 1
          < ((taskDuration jf jd f : Int) : ℚ) := by
  have herr := execTime_error hjf0 hjf1 hjd hf hf1
  rw [abs_le] at herr
  have hnn := execTime_nonneg hjf0 hjd hf hf1
  have h1 := toInt_le hnn
  have h2 := lt_toInt_add_one hnn
  unfold taskDuration
  constructor <;> linarith [herr.1, herr.2]

theorem toDouble_zero : toDouble 0 = 0 := roundTo_zero 53

theorem execTime_factor_zero (y g : ℚ) : execTime 0 (toFloat y) g = toFloat y := by
  unfold execTime
  rw [zero_mul, toDouble_zero, add_zero, toDouble_one, one_mul, toDouble_toFloat]

theorem taskDuration_factor_zero (y g : ℚ) : taskDuration 0 (toFloat y) g = toInt (toFloat y) := by
  unfold taskDuration
  rw [execTime_factor_zero]

/-! ## The execution time on the machine model -/

theorem execTime_le_div {jf jd f : ℚ} (hjf0 : 0 ≤ jf) (hjf1 : jf ≤ 1) (hjd : 0 ≤ jd)
    (hf : 0 < f) (hf1 : f ≤ 1) :
    execTime jf jd f ≤ (1 + twoPow (-49)) * (jd / f) := by
  have herr := execTime_error hjf0 hjf1 hjd hf hf1
  rw [abs_le] at herr
  have hg1 : 1 ≤ 1 / f := by
    rw [le_div_iff₀ hf]
    linarith
  have hdiv : jd / f = jd * (1 / f) := by ring
  rw [hdiv] at herr ⊢
  generalize 1 / f = g at *
  generalize twoPow (-49) = e at *
  have h0 : 0 ≤ jd * (g - 1) := mul_nonneg hjd (by linarith)
  have h1 : jd * (g - 1) * jf ≤ jd * (g - 1) * 1 := mul_le_mul_of_nonneg_left hjf1 h0
  have h3 : jd * (1 + jf * (g - 1)) = jd + jd * (g - 1) * jf := by ring
  have h4 : jd * (g - 1) = jd * g - jd := by ring
  have h5 : (1 + e) * (jd * g) = jd * g + e * (jd * g) := by ring
  linarith [herr.2]

/-- When `base_duration / f` is an `int` value the execution time is below
`2^31` and its conversion to `int` is the truncation toward zero. -/
theorem taskDurationBy_cvtInt {jf jd f : ℚ} (hjf0 : 0 ≤ jf) (hjf1 : jf ≤ 1) (hjd : 0 ≤ jd)
    (hf : 0 < f) (hf1 : f ≤ 1) (hr : jd / f ≤ 2147483647) :
    taskDurationBy cvtInt jf jd f = taskDuration jf jd f := by
  have h0 := execTime_nonneg hjf0 hjd hf hf1
  have h1 := execTime_le_div hjf0 hjf1 hjd hf hf1
  have he : twoPow (-49) = 1 / 562949953421312 := by
    rw [twoPow_eq_zpow]
    norm_num
  rw [he] at h1
  have hq : 0 ≤ jd / f := div_nonneg hjd (le_of_lt hf)
  unfold taskDurationBy taskDuration
  apply cvtInt_of_range h0
  generalize jd / f = q at *
  linarith

theorem greedyLoopBy_task_duration (cv : ℚ → Int) (t : Int) (server : Int → Int)
    (freq : Int → ℚ) (jf jd : ℚ) (n : Nat) (acc : Sel) :
    (greedyLoopBy cv t server freq jf jd (n + 1) acc).task_duration
      = taskDurationBy cv jf jd (freq (n : Int)) := by
  show (greedyBodyBy cv t server freq jf jd (n : Int) _).task_duration = _
  simp only [greedyBodyBy]
  split_ifs <;> rfl

theorem scheduleBy_factor_zero ( rs : Bool) (rnd : Nat → ℚ) (mx t : Int) (st : State)
    (hmx : 10 ≤ mx) (hmx2 : mx ≤ 16777216) (hrnd : ∀ k, 0 ≤ rnd k ∧ rnd k < 1)
    (h0 : jobFactor (rnd (st.calls + 2)) = 0) :
    (scheduleBy cvtInt rs rnd mx t st).task_duration
      = toInt (jobDuration mx (rnd (st.calls + 1))) := by
  have hjd := jobDuration_ge mx (rnd (st.calls + 1)) hmx (hrnd _).1
  have hjd2 := jobDuration_le mx (rnd (st.calls + 1)) hmx hmx2 (hrnd _).1 (hrnd _).2
  have hmxq : (mx : ℚ) ≤ 16777216 := by exact_mod_cast hmx2
  have hjdf : jobDuration mx (rnd (st.calls + 1))
      = toFloat (toDouble (10
          + toDouble (toDouble (((mx : ℚ) - 10) * (rnd (st.calls + 1) * randScale))
              / randScale))) := rfl
  have key : ∀ g : ℚ, taskDurationBy cvtInt 0 (jobDuration mx (rnd (st.calls + 1))) g
      = toInt (jobDuration mx (rnd (st.calls + 1))) := by
    intro g
    have hx : execTime 0 (jobDuration mx (rnd (st.calls + 1))) g
        = jobDuration mx (rnd (st.calls + 1)) := by
      rw [hjdf, execTime_factor_zero]
    unfold taskDurationBy
    rw [hx]
    exact cvtInt_of_range (by linarith) (by linarith)
  cases rs with
  | false =>
    simp only [scheduleBy, Bool.false_eq_true, if_false]
    unfold greedyBy
    rw [show servers = 99 + 1 from rfl, greedyLoopBy_task_duration, h0]
    exact key _
  | true =>
    simp only [scheduleBy, if_true, randomChoiceBy]
    rw [h0]
    exact key _

/-! ## The claims on the execution time -/

set_option maxRecDepth 1000000 in
theorem scheduleBy_halfUnit_first :
    scheduleBy cvtInt false drawsHalfUnit 11 1 (initState ⟨0, 0⟩)
      = { s := 0, eft := 11, task_duration := 10 } := by
  rw [scheduleBy_tab cvtInt drawsHalfUnit 11 1 (initState ⟨0, 0⟩) (21 / 2) 0 10 10 10 10 10 11 rfl
    (by decide!) (by decide!) (by decide!) (by decide!) (by decide!) (by decide!) (by decide!)
    (by decide!)]
  decide!

/-- C6, counterexample: for base duration `10.5`, factor 0 and frequency 1 the
program computes the task duration 10, whereas
`base_duration * (1 + factor * (1/f - 1))` is `10.5`. -/
theorem task_duration_not_exact :
    taskDurationBy cvtInt 0 (21 / 2) 1 = 10
    ∧ ((taskDurationBy cvtInt 0 (21 / 2) 1 : Int) : ℚ) ≠ 21 / 2 * (1 + 0 * (1 / 1 - 1)) := by
  decide!

/-- C6, amended: for every base duration, factor and frequency `f > 0`, held in
their `float` variables, the task duration the program computes for a server
of frequency `f` (in the greedy loop and in the random branch alike) is the
conversion to `int` of the double evaluation of
`(1.0 + factor * (1.0 / f - 1.0)) * base_duration`, each operation rounded to
the nearest double; when that value is non-negative and below `2^31` the
conversion is the truncation toward zero. In exact arithmetic the expression is
`base_duration * (1 + factor * (1/f - 1)) = base_duration * ((1 - factor) + factor / f)`;
for `0 ≤ factor ≤ 1`, `f ≤ 1`, `base_duration ≥ 0` and
`base_duration / f ≤ 2147483647` the double value differs from it by at most
`2^-49 * base_duration / f`, so the task duration is greater than that value
less `1 + 2^-49 * base_duration / f` and at most that value plus
`2^-49 * base_duration / f`. -/
theorem task_duration_model (jf jd f : ℚ) (hf : 0 < f) :
    taskDurationBy cvtInt jf jd f
      = cvtInt (toDouble (toDouble (1 + toDouble (jf * toDouble (toDouble (1 / f) - 1))) * jd))
    ∧ (0 ≤ execTime jf jd f → execTime jf jd f < 2147483648 →
        taskDurationBy cvtInt jf jd f = toInt (execTime jf jd f))
    ∧ jd * (1 + jf * (1 / f - 1)) = jd * ((1 - jf) + jf / f)
    ∧ (0 ≤ jf → jf ≤ 1 → 0 ≤ jd → f ≤ 1 → jd / f ≤ 2147483647 →
        |execTime jf jd f - jd * (1 + jf * (1 / f - 1))| ≤ twoPow (-49) * (jd / f)
        ∧ taskDurationBy cvtInt jf jd f = toInt (execTime jf jd f)
        ∧ ((taskDurationBy cvtInt jf jd f : Int) : ℚ)
            ≤ jd * (1 + jf * (1 / f - 1)) + twoPow (-49) * (jd / f)
        ∧ jd * (1 + jf * (1 / f - 1)) - twoPow (-49) * (jd / f) - 1
            < ((taskDurationBy cvtInt jf jd f : Int) : ℚ))
    ∧ (∀ (t : Int) (server : Int → Int) (freq : Int → ℚ) (i : Int) (acc : Sel), freq i = f →
        (greedyBodyBy cvtInt t server freq jf jd i acc).task_duration
          = taskDurationBy cvtInt jf jd f)
    ∧ (∀ (freq : Int → ℚ) (r : ℚ), freq (randomChoiceBy cvtInt freq jf jd r).s = f →
        (randomChoiceBy cvtInt freq jf jd r).task_duration = taskDurationBy cvtInt jf jd f) := by
  refine ⟨rfl, fun h0 h1 => cvtInt_of_range h0 h1, by ring, ?_, ?_, ?_⟩
  · intro h0 h1 hjd hf1 hr
    have hcv := taskDurationBy_cvtInt h0 h1 hjd hf hf1 hr
    have hn := taskDuration_near h0 h1 hjd hf hf1
    rw [hcv]
    exact ⟨execTime_error h0 h1 hjd hf hf1, rfl, hn.1, hn.2⟩
  · intro t server freq i acc hfi
    simp only [greedyBodyBy]
    split_ifs <;> rw [hfi]
  · intro freq r hfs
    simp only [randomChoiceBy] at hfs ⊢
    rw [hfs]

/-- Witness for C6 (amended): base duration `7549747 / 2^19`, factor 1 and the
frequency stored for server 60, `7549747 / 2^23`. The exact value of the
expression is 16; the double evaluation is just below it and the task duration
is 15. -/
theorem task_duration_model_witness :
    (0 : ℚ) < 7549747 / 8388608
    ∧ (7549747 / 524288 : ℚ) * (1 + 1 * (1 / (7549747 / 8388608) - 1)) = 16
    ∧ taskDurationBy cvtInt 1 (7549747 / 524288) (7549747 / 8388608) = 15
    ∧ (7549747 / 524288 : ℚ) * (1 + 1 * (1 / (7549747 / 8388608) - 1))
          - twoPow (-49) * ((7549747 / 524288) / (7549747 / 8388608)) - 1
        < ((taskDurationBy cvtInt 1 (7549747 / 524288) (7549747 / 8388608) : Int) : ℚ) :=
  ⟨by norm_num, by norm_num, by decide!,
    ((task_duration_model 1 (7549747 / 524288) (7549747 / 8388608) (by norm_num)).2.2.2.1
      (by norm_num) (by norm_num) (by norm_num) (by norm_num) (by norm_num)).2.2.2⟩

set_option maxRecDepth 1000000 in
/-- C7, counterexample: in the greedy run with `arrival_rate = 1`,
`max_execution = 11` and the draws `drawsHalfUnit`, the job of tick 1 has factor
0 and base duration `10.5`, and the task duration assigned is 10. -/
theorem factor_zero_duration_truncated :
    jobFactor (drawsHalfUnit ((initState ⟨0, 0⟩).calls + 2)) = 0
    ∧ jobDuration 11 (drawsHalfUnit ((initState ⟨0, 0⟩).calls + 1)) = 21 / 2
    ∧ (scheduleBy cvtInt false drawsHalfUnit 11 1 (initState ⟨0, 0⟩)).task_duration = 10
    ∧ (((scheduleBy cvtInt false drawsHalfUnit 11 1 (initState ⟨0, 0⟩)).task_duration : Int) : ℚ)
        ≠ jobDuration 11 (drawsHalfUnit ((initState ⟨0, 0⟩).calls + 1)) := by
  rw [scheduleBy_halfUnit_first]
  decide!

/-- C7, amended: when the factor is 0 the task duration assigned, in either
scheduling mode, is the truncation toward zero of the base duration held in
its `float` variable, whatever the frequencies are (for a base duration below
`2^31`, as in every run with `10 ≤ max_execution ≤ 2^24`). When the factor is 1
the task duration computed for a server of frequency `f`, `0 < f ≤ 1`, with
`base_duration / f ≤ 2147483647`, is the truncation toward zero of the double
value of `(1.0 + 1.0 * (1.0 / f - 1.0)) * base_duration`, which is within
`2^-49 * base_duration / f` of `base_duration / f` (so it can be one less than
the integer part of `base_duration / f`); in random mode that is the duration
assigned to the chosen server. -/
theorem execution_time_boundary (jd f : ℚ) (hjd : 0 ≤ jd) (hf : 0 < f) (hf1 : f ≤ 1)
    (hr : jd / f ≤ 2147483647) :
    (∀ g : ℚ, toFloat jd < 2147483648 →
        taskDurationBy cvtInt 0 (toFloat jd) g = toInt (toFloat jd))
    ∧ (∀ ( rs : Bool) (rnd : Nat → ℚ) (mx t : Int) (st : State),
        10 ≤ mx → mx ≤ 16777216 → (∀ k, 0 ≤ rnd k ∧ rnd k < 1) →
        jobFactor (rnd (st.calls + 2)) = 0 →
          (scheduleBy cvtInt rs rnd mx t st).task_duration
            = toInt (jobDuration mx (rnd (st.calls + 1))))
    ∧ |execTime 1 jd f - jd / f| ≤ twoPow (-49) * (jd / f)
    ∧ taskDurationBy cvtInt 1 jd f = toInt (execTime 1 jd f)
    ∧ ((taskDurationBy cvtInt 1 jd f : Int) : ℚ) ≤ jd / f + twoPow (-49) * (jd / f)
    ∧ jd / f - twoPow (-49) * (jd / f) - 1 < ((taskDurationBy cvtInt 1 jd f : Int) : ℚ)
    ∧ (∀ (freq : Int → ℚ) (r : ℚ), freq (randomChoiceBy cvtInt freq 1 jd r).s = f →
        (randomChoiceBy cvtInt freq 1 jd r).task_duration = taskDurationBy cvtInt 1 jd f) := by
  have hx : jd * (1 + 1 * (1 / f - 1)) = jd / f := by ring
  have herr := execTime_error (by norm_num : (0 : ℚ) ≤ 1) (le_refl 1) hjd hf hf1
  have hnear := taskDuration_near (by norm_num : (0 : ℚ) ≤ 1) (le_refl 1) hjd hf hf1
  have hcv := taskDurationBy_cvtInt (by norm_num : (0 : ℚ) ≤ 1) (le_refl 1) hjd hf hf1 hr
  rw [hx] at herr hnear
  rw [← hcv] at hnear
  refine ⟨?_, ?_, herr, ?_, hnear.1, hnear.2, ?_⟩
  · intro g hlt
    unfold taskDurationBy
    rw [execTime_factor_zero]
    exact cvtInt_of_range (toFloat_nonneg hjd) hlt
  · intro rs rnd mx t st hmx hmx2 hrnd h0
    exact scheduleBy_factor_zero rs rnd mx t st hmx hmx2 hrnd h0
  · rw [hcv]
    rfl
  · intro freq r hfs
    simp only [randomChoiceBy] at hfs ⊢
    rw [hfs]

/-- Witness for C7 (amended): base duration 12 on a server of frequency
`5033165 / 2^23`, the one stored for the slowest tier: the exact quotient is
just below 20 and the duration computed with factor 1 is 19. -/
theorem execution_time_boundary_witness :
    (0 : ℚ) ≤ 12 ∧ (0 : ℚ) < 5033165 / 8388608 ∧ (5033165 / 8388608 : ℚ) ≤ 1
    ∧ (12 : ℚ) / (5033165 / 8388608) ≤ 2147483647
    ∧ taskDurationBy cvtInt 1 12 (5033165 / 8388608) = 19
    ∧ (12 : ℚ) / (5033165 / 8388608) - twoPow (-49) * (12 / (5033165 / 8388608)) - 1
        < ((taskDurationBy cvtInt 1 12 (5033165 / 8388608) : Int) : ℚ) :=
  ⟨by norm_num, by norm_num, by norm_num, by norm_num, by decide!,
    (execution_time_boundary 12 (5033165 / 8388608) (by norm_num) (by norm_num)
      (by norm_num) (by norm_num)).2.2.2.2.2.1⟩

/-! ## The initial `eft` of the greedy branch -/

/-- The greedy loop does not depend on the initial `eft`, as long as it is not
below the candidate finish of server 0: the first iteration sets `eft` to that
candidate finish or finds it there. -/
theorem greedyLoop_eft_irrelevant (t : Int) (server : Int → Int) (freq : Int → ℚ) (jf jd : ℚ)
    (n : Nat) (e1 e2 td_in : Int)
    (h1 : taskDuration jf jd (freq 0) + max t (server 0) ≤ e1)
    (h2 : taskDuration jf jd (freq 0) + max t (server 0) ≤ e2) :
    greedyLoop t server freq jf jd (n + 1) { s := 0, eft := e1, task_duration := td_in }
      = greedyLoop t server freq jf jd (n + 1) { s := 0, eft := e2, task_duration := td_in } := by
  have key : ∀ e : Int, taskDuration jf jd (freq 0) + max t (server 0) ≤ e →
      greedyLoop t server freq jf jd 1 { s := 0, eft := e, task_duration := td_in }
        = { s := 0, eft := taskDuration jf jd (freq 0) + max t (server 0),
            task_duration := taskDuration jf jd (freq 0) } := by
    intro e he
    show greedyBody t server freq jf jd ((0 : Nat) : Int)
      { s := 0, eft := e, task_duration := td_in } = _
    simp only [greedyBody, Nat.cast_zero]
    split_ifs with h
    · rfl
    · have : e = taskDuration jf jd (freq 0) + max t (server 0) := by omega
      rw [this]
  induction n with
  | zero => rw [key e1 h1, key e2 h2]
  | succ m ih =>
    show greedyBody t server freq jf jd ((m + 1 : Nat) : Int) (greedyLoop t server freq jf jd (m + 1) _)
      = greedyBody t server freq jf jd ((m + 1 : Nat) : Int) (greedyLoop t server freq jf jd (m + 1) _)
    rw [ih]

theorem toInt_toDouble_add_ge (x : ℚ) (m : Int) (hx : 0 ≤ x) (hm : 0 ≤ m)
    (hb : toInt x + m < 2 ^ 53) : toInt x + m ≤ toInt (toDouble (x + (m : ℚ))) := by
  have hmq : (0 : ℚ) ≤ (m : ℚ) := by exact_mod_cast hm
  have ht := toInt_nonneg hx
  have h0 : (0 : ℚ) ≤ ((toInt x + m : Int) : ℚ) := by
    have : (0 : Int) ≤ toInt x + m := by omega
    exact_mod_cast this
  have h1 : ((toInt x + m : Int) : ℚ) ≤ x + (m : ℚ) := by
    push_cast
    linarith [toInt_le hx]
  have h2 := toDouble_mono h0 h1
  rw [toDouble_intCast _ (by rw [abs_of_nonneg (by omega)]; exact hb)] at h2
  rw [toInt_of_nonneg (toDouble_nonneg (by linarith))]
  exact Int.le_floor.mpr h2

/-- The sum that initialises `eft` is a `double`: the program rounds it before
the conversion to `int`. The rounding does not change what the greedy branch
computes, for the values of a run (non-negative, below `2^53`). -/
theorem greedy_rounded_eft (t : Int) (server : Int → Int) (freq : Int → ℚ) (jf jd : ℚ)
    (td_in : Int) (hx : 0 ≤ execTime jf jd (freq 0)) (hm : 0 ≤ max t (server 0))
    (hb : taskDuration jf jd (freq 0) + max t (server 0) < 2 ^ 53) :
    greedyLoop t server freq jf jd servers
        { s := 0,
          eft := toInt (toDouble (execTime jf jd (freq 0) + ((max t (server 0) : Int) : ℚ))),
          task_duration := td_in }
      = greedy t server freq jf jd td_in := by
  unfold greedy
  exact greedyLoop_eft_irrelevant t server freq jf jd 99 _ _ td_in
    (toInt_toDouble_add_ge _ _ hx hm hb) (toInt_add_int_ge _ _ hx)

/-! ## The energy loop -/

/-- A rounded value is left unchanged by a second rounding to the same format. -/
theorem roundTo_idem (p : Nat) (hp : 1 ≤ p) (x : ℚ) : roundTo p (roundTo p x) = roundTo p x := by
  obtain ⟨m, k, hm, hx⟩ := roundTo_repr p x
  rw [hx]
  rcases lt_or_eq_of_le hm with hlt | heq
  · exact roundTo_exact p m k hlt
  · have h1n : 1 < 2 ^ p := Nat.one_lt_two_pow (by omega)
    have h1 : |(1 : Int)| < 2 ^ p := by
      rw [abs_one]
      exact_mod_cast h1n
    have hn1 : |(-1 : Int)| < 2 ^ p := by
      rw [abs_neg]
      exact h1
    have hpow : (2 : ℚ) ^ p = twoPow (p : Int) := by
      rw [twoPow_eq_zpow, zpow_natCast]
    have hpos : (0 : Int) ≤ 2 ^ p := by positivity
    rcases (abs_eq hpos).mp heq with h | h
    · have e : (m : ℚ) * twoPow k = ((1 : Int) : ℚ) * twoPow ((p : Int) + k) := by
        rw [h, twoPow_add]
        push_cast
        rw [hpow]
        ring
      rw [e]
      exact roundTo_exact p 1 _ h1
    · have e : (m : ℚ) * twoPow k = ((-1 : Int) : ℚ) * twoPow ((p : Int) + k) := by
        rw [h, twoPow_add]
        push_cast
        rw [hpow]
        ring
      rw [e]
      exact roundTo_exact p (-1) _ hn1

theorem toFloat_toFloat (x : ℚ) : toFloat (toFloat x) = toFloat x :=
  roundTo_idem 24 (by norm_num) x

theorem toFloat_zero : toFloat 0 = 0 := roundTo_zero 24

/-- The amount an idle server adds: `(float)(0.4 * duration)`, whatever its
frequency is. -/
theorem energyTerm_idle (util : Int → Int) (freq : Int → ℚ) (dur i : Int) (h : util i = 0) :
    energyTerm util freq dur i = toFloat (toDouble (toDouble (4 / 10) * (dur : ℚ))) := by
  unfold energyTerm
  rw [h]
  simp only [Int.cast_zero, sub_zero, toFloat_zero, zero_mul, zero_add, toFloat_toFloat]

theorem toFloat_between {a x b : ℚ} (ha : 0 ≤ a) (hax : a ≤ x) (hxb : x ≤ b) :
    16777215 / 16777216 * a ≤ toFloat x ∧ toFloat x ≤ 16777217 / 16777216 * b := by
  have hx : 0 ≤ x := le_trans ha hax
  have h := toFloat_abs_sub_le x
  have he : twoPow (-24) = 1 / 16777216 := by
    rw [twoPow_eq_zpow]
    norm_num
  rw [abs_of_nonneg hx, abs_le, he] at h
  constructor <;> linarith [h.1, h.2]

theorem toDouble_between {a x b : ℚ} (ha : 0 ≤ a) (hax : a ≤ x) (hxb : x ≤ b) :
    9007199254740991 / 9007199254740992 * a ≤ toDouble x
      ∧ toDouble x ≤ 9007199254740993 / 9007199254740992 * b := by
  have hx : 0 ≤ x := le_trans ha hax
  have h := toDouble_abs_sub_le x
  have he : twoPow (-53) = 1 / 9007199254740992 := by
    rw [twoPow_eq_zpow]
    norm_num
  rw [abs_of_nonneg hx, abs_le, he] at h
  constructor <;> linarith [h.1, h.2]

/-- The idle amount is within `2^-25 * duration` of `0.4 * duration`. -/
theorem idleTerm_near (D : Int) (hD : 0 ≤ D) :
    |toFloat (toDouble (toDouble (4 / 10) * (D : ℚ))) - 4 / 10 * (D : ℚ)|
      ≤ twoPow (-25) * (D : ℚ) := by
  have hDq : (0 : ℚ) ≤ (D : ℚ) := by exact_mod_cast hD
  have hc := toDouble_between (by norm_num : (0 : ℚ) ≤ 4 / 10) (le_refl _) (le_refl _)
  generalize toDouble (4 / 10) = c at hc
  have hc0 : 0 ≤ c := by linarith [hc.1]
  have hp1 : 9007199254740991 / 9007199254740992 * (4 / 10) * (D : ℚ) ≤ c * (D : ℚ) :=
    mul_le_mul_of_nonneg_right hc.1 hDq
  have hp2 : c * (D : ℚ) ≤ 9007199254740993 / 9007199254740992 * (4 / 10) * (D : ℚ) :=
    mul_le_mul_of_nonneg_right hc.2 hDq
  have hp0 : (0 : ℚ) ≤ 9007199254740991 / 9007199254740992 * (4 / 10) * (D : ℚ) := by positivity
  have hd := toDouble_between hp0 hp1 hp2
  generalize toDouble (c * (D : ℚ)) = d at hd
  have hd0 : (0 : ℚ) ≤ 9007199254740991 / 9007199254740992
      * (9007199254740991 / 9007199254740992 * (4 / 10) * (D : ℚ)) := by positivity
  have hf := toFloat_between hd0 hd.1 hd.2
  generalize toFloat d = e at hf
  have he : twoPow (-25) = 1 / 33554432 := by
    rw [twoPow_eq_zpow]
    norm_num
  rw [he, abs_le]
  constructor <;> linarith [hf.1, hf.2]

/-- The amount a server adds is within a factor `(1 ± 2^-24)^3` of the exact
`util * freq + 0.4 * (duration - util)`. -/
theorem energyTerm_between (util : Int → Int) (freq : Int → ℚ) (dur i : Int)
    (hu0 : 0 ≤ util i) (hu1 : util i ≤ dur) (hf : 0 ≤ freq i) :
    (16777215 / 16777216) ^ 3
        * ((util i : ℚ) * freq i + 4 / 10 * ((dur : ℚ) - (util i : ℚ)))
      ≤ energyTerm util freq dur i
    ∧ energyTerm util freq dur i
      ≤ (16777217 / 16777216) ^ 3
        * ((util i : ℚ) * freq i + 4 / 10 * ((dur : ℚ) - (util i : ℚ))) := by
  unfold energyTerm
  push_cast
  have hu : (0 : ℚ) ≤ (util i : ℚ) := by exact_mod_cast hu0
  have hw : (0 : ℚ) ≤ (dur : ℚ) - (util i : ℚ) := by
    have : ((util i : Int) : ℚ) ≤ (dur : ℚ) := by exact_mod_cast hu1
    linarith
  generalize (util i : ℚ) = u at hu hw ⊢
  generalize (dur : ℚ) - u = w at hw ⊢
  generalize freq i = f at hf ⊢
  -- the active part
  have ha := toFloat_between hu (le_refl u) (le_refl u)
  generalize toFloat u = a at ha
  have hp1 : 16777215 / 16777216 * (u * f) ≤ a * f := by
    rw [← mul_assoc]
    exact mul_le_mul_of_nonneg_right ha.1 hf
  have hp2 : a * f ≤ 16777217 / 16777216 * (u * f) := by
    rw [← mul_assoc]
    exact mul_le_mul_of_nonneg_right ha.2 hf
  have huf : 0 ≤ u * f := mul_nonneg hu hf
  have hp0 : (0 : ℚ) ≤ 16777215 / 16777216 * (u * f) := by positivity
  have hb := toFloat_between hp0 hp1 hp2
  generalize toFloat (a * f) = b at hb
  -- the idle part
  have hc := toDouble_between (by norm_num : (0 : ℚ) ≤ 4 / 10) (le_refl _) (le_refl _)
  generalize toDouble (4 / 10) = c at hc
  have hq1 : 9007199254740991 / 9007199254740992 * (4 / 10) * w ≤ c * w :=
    mul_le_mul_of_nonneg_right hc.1 hw
  have hq2 : c * w ≤ 9007199254740993 / 9007199254740992 * (4 / 10) * w :=
    mul_le_mul_of_nonneg_right hc.2 hw
  have hq0 : (0 : ℚ) ≤ 9007199254740991 / 9007199254740992 * (4 / 10) * w := by positivity
  have hd := toDouble_between hq0 hq1 hq2
  generalize toDouble (c * w) = d at hd
  have hd0 : (0 : ℚ) ≤ 9007199254740991 / 9007199254740992
      * (9007199254740991 / 9007199254740992 * (4 / 10) * w) := by positivity
  have he := toFloat_between hd0 hd.1 hd.2
  generalize toFloat d = e at he
  -- the sum
  generalize u * f = x at *
  have hs0 : (0 : ℚ) ≤ 16777215 / 16777216 * (16777215 / 16777216 * x)
      + 16777215 / 16777216 * (16777215 / 16777216 * (4 / 10 * w)) := by positivity
  have hs1 : 16777215 / 16777216 * (16777215 / 16777216 * x)
      + 16777215 / 16777216 * (16777215 / 16777216 * (4 / 10 * w)) ≤ b + e := by
    linarith [hb.1, he.1]
  have hs2 : b + e ≤ 16777217 / 16777216 * (16777217 / 16777216 * x)
      + 16777217 / 16777216 * (16777217 / 16777216 * (4 / 10 * w)) := by
    linarith [hb.2, he.2]
  have ht := toFloat_between hs0 hs1 hs2
  constructor
  · refine le_trans (le_of_eq ?_) ht.1
    ring
  · refine le_trans ht.2 (le_of_eq ?_)
    ring

theorem exactEnergy_nonneg (util : Int → Int) (freq : Int → ℚ) (dur : Int) (n : Nat)
    (h : ∀ i : Nat, i < n → 0 ≤ util (i : Int) ∧ util (i : Int) ≤ dur ∧ 0 ≤ freq (i : Int)) :
    0 ≤ exactEnergy util freq dur n := by
  induction n with
  | zero => exact le_refl _
  | succ m ih =>
    have hm := h m (by omega)
    have h1 : (0 : ℚ) ≤ (util (m : Int) : ℚ) := by exact_mod_cast hm.1
    have h2 : ((util (m : Int) : Int) : ℚ) ≤ (dur : ℚ) := by exact_mod_cast hm.2.1
    have h3 := mul_nonneg h1 hm.2.2
    have := ih (fun i hi => h i (by omega))
    show 0 ≤ exactEnergy util freq dur m
      + ((util (m : Int) : ℚ) * freq (m : Int) + 4 / 10 * ((dur : ℚ) - (util (m : Int) : ℚ)))
    linarith

/-- Invariant of the energy loop: after `n` iterations the accumulator is within
a factor `(1 ± 2^-24)^(n + 3)` of the exact sum. -/
theorem energyLoop_between (util : Int → Int) (freq : Int → ℚ) (dur : Int) (n : Nat)
    (h : ∀ i : Nat, i < n → 0 ≤ util (i : Int) ∧ util (i : Int) ≤ dur ∧ 0 ≤ freq (i : Int)) :
    (16777215 / 16777216) ^ (n + 3) * exactEnergy util freq dur n ≤ energyLoop util freq dur n
      ∧ energyLoop util freq dur n
        ≤ (16777217 / 16777216) ^ (n + 3) * exactEnergy util freq dur n := by
  induction n with
  | zero =>
    show _ * (0 : ℚ) ≤ (0 : ℚ) ∧ (0 : ℚ) ≤ _ * (0 : ℚ)
    simp
  | succ m ih =>
    have hm := h m (by omega)
    have ih2 := ih (fun i hi => h i (by omega))
    have hS := exactEnergy_nonneg util freq dur m (fun i hi => h i (by omega))
    have hT := energyTerm_between util freq dur (m : Int) hm.1 hm.2.1 hm.2.2
    have hT0 : (0 : ℚ) ≤ (util (m : Int) : ℚ) * freq (m : Int)
        + 4 / 10 * ((dur : ℚ) - (util (m : Int) : ℚ)) := by
      have h1 : (0 : ℚ) ≤ (util (m : Int) : ℚ) := by exact_mod_cast hm.1
      have h2 : ((util (m : Int) : Int) : ℚ) ≤ (dur : ℚ) := by exact_mod_cast hm.2.1
      have h3 := mul_nonneg h1 hm.2.2
      linarith
    show _ * (exactEnergy util freq dur m
        + ((util (m : Int) : ℚ) * freq (m : Int) + 4 / 10 * ((dur : ℚ) - (util (m : Int) : ℚ))))
        ≤ toFloat (energyLoop util freq dur m + energyTerm util freq dur (m : Int))
      ∧ toFloat (energyLoop util freq dur m + energyTerm util freq dur (m : Int))
        ≤ _ * (exactEnergy util freq dur m
        + ((util (m : Int) : ℚ) * freq (m : Int) + 4 / 10 * ((dur : ℚ) - (util (m : Int) : ℚ))))
    generalize (util (m : Int) : ℚ) * freq (m : Int)
      + 4 / 10 * ((dur : ℚ) - (util (m : Int) : ℚ)) = T at hT hT0 ⊢
    generalize exactEnergy util freq dur m = S at ih2 hS ⊢
    generalize energyLoop util freq dur m = E at ih2 ⊢
    generalize energyTerm util freq dur (m : Int) = t at hT ⊢
    have hL0 : (0 : ℚ) ≤ (16777215 / 16777216) ^ (m + 3) := by positivity
    have hL : ((16777215 : ℚ) / 16777216) ^ (m + 3) ≤ (16777215 / 16777216) ^ 3 :=
      pow_le_pow_of_le_one (by norm_num) (by norm_num) (by omega)
    have hH : ((16777217 : ℚ) / 16777216) ^ 3 ≤ (16777217 / 16777216) ^ (m + 3) :=
      pow_le_pow_right₀ (by norm_num) (by omega)
    have hLs : ((16777215 : ℚ) / 16777216) ^ (m + 1 + 3)
        = 16777215 / 16777216 * (16777215 / 16777216) ^ (m + 3) := by
      rw [show m + 1 + 3 = (m + 3) + 1 by ring, pow_succ]
      ring
    have hHs : ((16777217 : ℚ) / 16777216) ^ (m + 1 + 3)
        = 16777217 / 16777216 * (16777217 / 16777216) ^ (m + 3) := by
      rw [show m + 1 + 3 = (m + 3) + 1 by ring, pow_succ]
      ring
    rw [hLs, hHs]
    generalize ((16777215 : ℚ) / 16777216) ^ (m + 3) = A at *
    generalize ((16777217 : ℚ) / 16777216) ^ (m + 3) = B at *
    generalize ((16777215 : ℚ) / 16777216) ^ 3 = A3 at *
    generalize ((16777217 : ℚ) / 16777216) ^ 3 = B3 at *
    have k1 : A * T ≤ A3 * T := mul_le_mul_of_nonneg_right hL hT0
    have k2 : B3 * T ≤ B * T := mul_le_mul_of_nonneg_right hH hT0
    have lo0 : 0 ≤ A * (S + T) := mul_nonneg hL0 (by linarith)
    have lo1 : A * (S + T) ≤ E + t := by
      have : A * (S + T) = A * S + A * T := by ring
      linarith [ih2.1, hT.1]
    have hi1 : E + t ≤ B * (S + T) := by
      have : B * (S + T) = B * S + B * T := by ring
      linarith [ih2.2, hT.2]
    have hb := toFloat_between lo0 lo1 hi1
    constructor
    · refine le_trans (le_of_eq ?_) hb.1
      ring
    · refine le_trans hb.2 (le_of_eq ?_)
      ring

/-- The energy the loop computes is within `2^-17` of the exact sum, relatively. -/
theorem energyLoop_near (util : Int → Int) (freq : Int → ℚ) (dur : Int)
    (h : ∀ i : Nat, i < servers →
      0 ≤ util (i : Int) ∧ util (i : Int) ≤ dur ∧ 0 ≤ freq (i : Int)) :
    |energyLoop util freq dur servers - exactEnergy util freq dur servers|
      ≤ twoPow (-17) * exactEnergy util freq dur servers := by
  have hb := energyLoop_between util freq dur servers h
  have hS := exactEnergy_nonneg util freq dur servers h
  have he : twoPow (-17) = 1 / 131072 := by
    rw [twoPow_eq_zpow]
    norm_num
  have hlo : (1 : ℚ) - 1 / 131072 ≤ (16777215 / 16777216) ^ (servers + 3) := by
    norm_num [servers]
  have hhi : ((16777217 : ℚ) / 16777216) ^ (servers + 3) ≤ 1 + 1 / 131072 := by
    norm_num [servers]
  generalize ((16777215 : ℚ) / 16777216) ^ (servers + 3) = A at *
  generalize ((16777217 : ℚ) / 16777216) ^ (servers + 3) = B at *
  generalize exactEnergy util freq dur servers = S at *
  generalize energyLoop util freq dur servers = E at *
  have k1 : (1 - 1 / 131072) * S ≤ A * S := mul_le_mul_of_nonneg_right hlo hS
  have k2 : B * S ≤ (1 + 1 / 131072) * S := mul_le_mul_of_nonneg_right hhi hS
  rw [he, abs_le]
  constructor <;> linarith [hb.1, hb.2]

/-- The energy loop on a run without any job: every server adds 4000. -/
theorem energyLoop_idle_run (freq : Int → ℚ) (n : Nat) (hn : n ≤ 100) :
    energyLoop (fun _ => 0) freq 10000 n = ((4000 * (n : Int) : Int) : ℚ) := by
  induction n with
  | zero =>
    show (0 : ℚ) = _
    simp
  | succ m ih =>
    have hterm : toFloat (toDouble (toDouble (4 / 10) * ((10000 : Int) : ℚ))) = 4000 := by decide!
    show toFloat (energyLoop (fun _ => 0) freq 10000 m
      + energyTerm (fun _ => 0) freq 10000 (m : Int)) = _
    rw [ih (by omega), energyTerm_idle _ _ _ _ rfl, hterm]
    have e : (((4000 * (m : Int) : Int) : ℚ) + 4000) = ((4000 * ((m + 1 : Nat) : Int) : Int) : ℚ) := by
      push_cast
      ring
    rw [e]
    apply toFloat_intCast
    rw [abs_of_nonneg (by positivity)]
    push_cast
    omega

/-! ## Runs with a single job -/

theorem booked_first (u0 : Uninit) (d : Int) :
    booked 0 1 d false (initState u0) = oneJobState d 3 := by
  ext j
  · simp [booked, bookkeeping, initState, oneJobState]
  · simp [booked, bookkeeping, initState, oneJobState]
  · simp [booked, bookkeeping, initState, oneJobState]
  · simp only [booked, bookkeeping, initState, oneJobState]
    split_ifs <;> omega
  · simp only [booked, bookkeeping, initState, oneJobState]
    split_ifs <;> omega
  · simp [booked, bookkeeping, initState, oneJobState]
  · simp [booked, bookkeeping, initState, oneJobState]

/-- A run whose only arrival is at tick 1, with the job booked on server 0,
ends in `oneJobState`. -/
theorem simulateBy_oneJob (cv : ℚ → Int) (rnd : Nat → ℚ) (ar mx : Int) (u0 : Uninit) (d e : Int)
    (h0 : arrival (rnd 0) ar = true)
    (hs : scheduleBy cv false rnd mx 1 (initState u0) = { s := 0, eft := e, task_duration := d })
    (hq : ∀ k, 3 ≤ k → arrival (rnd k) ar = false) :
    simulateBy cv false rnd u0 ar mx = oneJobState d 10002 := by
  have h1 : tickBy cv false rnd ar mx 1 (initState u0) = oneJobState d 3 := by
    rw [tickBy_booked cv false rnd ar mx 1 (initState u0) _ h0 hs]
    exact booked_first u0 d
  exact tickLoopBy_quiet cv false rnd ar mx (initState u0) (oneJobState d 3) h1 hq 9999

theorem drawsOneJob_quiet (k : Nat) (hk : 3 ≤ k) : arrival (drawsOneJob k) 2 = false := by
  have h1 : ¬ (k = 0 ∨ k = 2) := by omega
  simp only [arrival, drawsOneJob, if_neg h1]
  norm_num

theorem drawsLargest_quiet (k : Nat) (hk : 3 ≤ k) : arrival (drawsLargest k) 2 = false := by
  have h1 : k ≠ 1 := by omega
  have h2 : ¬ k ≤ 2 := by omega
  simp only [arrival, drawsLargest, if_neg h1, if_neg h2]
  norm_num

set_option maxRecDepth 1000000 in
/-- The run with `arrival_rate = 2`, `max_execution = 19990` and the draws
`drawsOneJob`: one job, of base duration 10000 and factor 0, booked on server 0
at tick 1. -/
theorem simulate_oneJob :
    simulate false drawsOneJob ⟨0, 0⟩ 2 19990 = oneJobState 10000 10002 := by
  rw [← simulateBy_toInt]
  refine simulateBy_oneJob toInt drawsOneJob 2 19990 ⟨0, 0⟩ 10000 10001 (by decide!) ?_
    drawsOneJob_quiet
  rw [scheduleBy_tab toInt drawsOneJob 19990 1 (initState ⟨0, 0⟩) 10000 0
    10000 10000 10000 10000 10000 10001 rfl
    (by decide!) (by decide!) (by decide!) (by decide!) (by decide!) (by decide!) (by decide!)
    (by decide!)]
  decide!

set_option maxRecDepth 1000000 in
/-- Tick 1 of the machine model with `max_execution = 2147483647` and the draws
`drawsLargest`: the base duration is rounded to `2^31` by the `float` variable,
the conversion of the execution time gives `INT_MIN` on every server, and
server 0 is selected. -/
theorem scheduleBy_largest_first :
    scheduleBy cvtInt false drawsLargest 2147483647 1 (initState ⟨0, 0⟩)
      = { s := 0, eft := -2147483648, task_duration := -2147483648 } := by
  rw [scheduleBy_tab cvtInt drawsLargest 2147483647 1 (initState ⟨0, 0⟩) 2147483648 0
    (-2147483648) (-2147483648) (-2147483648) (-2147483648) (-2147483648) (-2147483648) rfl
    (by decide!) (by decide!) (by decide!) (by decide!) (by decide!) (by decide!) (by decide!)
    (by decide!)]
  decide!

/-- The run of the machine model with `arrival_rate = 2`,
`max_execution = 2147483647` and the draws `drawsLargest`: one job, booked on
server 0 at tick 1 with the task duration `INT_MIN`. -/
theorem simulateBy_largest :
    simulateBy cvtInt false drawsLargest ⟨0, 0⟩ 2 2147483647
      = oneJobState (-2147483648) 10002 :=
  simulateBy_oneJob cvtInt drawsLargest 2 2147483647 ⟨0, 0⟩ (-2147483648) (-2147483648)
    (by decide!) scheduleBy_largest_first drawsLargest_quiet

/-! ## The energy of a run with idle servers -/

theorem energyLoop_idle_tail (util : Int → Int) (freq : Int → ℚ) (dur : Int) (c : ℚ) (n k : Nat)
    (hidle : ∀ i : Nat, n ≤ i → i < n + k → util (i : Int) = 0)
    (hc : toFloat (toDouble (toDouble (4 / 10) * (dur : ℚ))) = c) :
    energyLoop util freq dur (n + k) = addRepeated c k (energyLoop util freq dur n) := by
  induction k with
  | zero => rfl
  | succ m ih =>
    show toFloat (energyLoop util freq dur (n + m) + energyTerm util freq dur ((n + m : Nat) : Int))
      = toFloat (addRepeated c m (energyLoop util freq dur n) + c)
    rw [ih (fun i h1 h2 => hidle i h1 (by omega)),
      energyTerm_idle util freq dur _ (hidle (n + m) (by omega) (by omega)), hc]

theorem exactEnergy_idle_tail (util : Int → Int) (freq : Int → ℚ) (dur : Int) (n k : Nat)
    (hidle : ∀ i : Nat, n ≤ i → i < n + k → util (i : Int) = 0) :
    exactEnergy util freq dur (n + k)
      = exactEnergy util freq dur n + (k : ℚ) * (4 / 10 * (dur : ℚ)) := by
  induction k with
  | zero => simp
  | succ m ih =>
    show exactEnergy util freq dur (n + m)
        + ((util ((n + m : Nat) : Int) : ℚ) * freq ((n + m : Nat) : Int)
          + 4 / 10 * ((dur : ℚ) - (util ((n + m : Nat) : Int) : ℚ))) = _
    rw [ih (fun i h1 h2 => hidle i h1 (by omega)), hidle (n + m) (by omega) (by omega)]
    push_cast
    ring

theorem exactEnergy_eq_sum (util : Int → Int) (freq : Int → ℚ) (dur : Int) (n : Nat) :
    exactEnergy util freq dur n
      = ∑ i ∈ Finset.range n,
          ((util (i : Int) : ℚ) * freq (i : Int) + 4 / 10 * ((dur : ℚ) - (util (i : Int) : ℚ))) := by
  induction n with
  | zero => simp [exactEnergy]
  | succ m ih => rw [Finset.sum_range_succ, ← ih, exactEnergy]

set_option maxRecDepth 1000000 in
theorem oneJob_duration :
    effectiveDuration (lastFinish (oneJobState 10000 10002).server servers) = 10001 := by
  decide!

set_option maxRecDepth 1000000 in
theorem oneJob_energy :
    energyLoop (oneJobState 10000 10002).util (oneJobState 10000 10002).freq 10001 servers
      = 3216323 / 8 := by
  have h := energyLoop_idle_tail (oneJobState 10000 10002).util (oneJobState 10000 10002).freq
    10001 (8192819 / 2048) 1 99
    (fun i h1 _ => by
      have hi : (i : Int) ≠ 0 := by omega
      simp [oneJobState, hi])
    (by decide!)
  have h1 : energyLoop (oneJobState 10000 10002).util (oneJobState 10000 10002).freq 10001 1
      = 12288819 / 2048 := by decide!
  show energyLoop _ _ 10001 (1 + 99) = _
  rw [h, h1]
  decide!

set_option maxRecDepth 1000000 in
theorem oneJob_exactEnergy :
    exactEnergy (oneJobState 10000 10002).util (oneJobState 10000 10002).freq 10001 servers
      = 210784747645 / 524288 := by
  have h := exactEnergy_idle_tail (oneJobState 10000 10002).util (oneJobState 10000 10002).freq
    10001 1 99
    (fun i h1 _ => by
      have hi : (i : Int) ≠ 0 := by omega
      simp [oneJobState, hi])
  have h1 : exactEnergy (oneJobState 10000 10002).util (oneJobState 10000 10002).freq 10001 1
      = 3145728125 / 524288 + 4 / 10 := by decide!
  show exactEnergy _ _ 10001 (1 + 99) = _
  rw [h, h1]
  norm_num

/-! ## The claims on the energy -/

/-- C14, counterexample: in the run with `arrival_rate = 2`,
`max_execution = 19990` and the draws `drawsOneJob` (one job, booked on server 0
with duration 10000, effective duration 10001) the program reports the energy
`402040.375`, whereas the sum of `util[i] * freq[i] + 0.4 * (D - util[i])` over
the servers is `210784747645 / 524288`, about `402040.0002`. -/
theorem energy_not_exact_sum :
    (report (simulate false drawsOneJob ⟨0, 0⟩ 2 19990)).energy = 3216323 / 8
    ∧ exactEnergy (simulate false drawsOneJob ⟨0, 0⟩ 2 19990).util
        (simulate false drawsOneJob ⟨0, 0⟩ 2 19990).freq
        (effectiveDuration (lastFinish (simulate false drawsOneJob ⟨0, 0⟩ 2 19990).server servers))
        servers = 210784747645 / 524288
    ∧ (report (simulate false drawsOneJob ⟨0, 0⟩ 2 19990)).energy
      ≠ ∑ i ∈ Finset.range servers,
          (((simulate false drawsOneJob ⟨0, 0⟩ 2 19990).util (i : Int) : ℚ)
              * (simulate false drawsOneJob ⟨0, 0⟩ 2 19990).freq (i : Int)
            + 4 / 10 * (((effectiveDuration (lastFinish
                (simulate false drawsOneJob ⟨0, 0⟩ 2 19990).server servers) : Int) : ℚ)
              - ((simulate false drawsOneJob ⟨0, 0⟩ 2 19990).util (i : Int) : ℚ))) := by
  rw [← exactEnergy_eq_sum, simulate_oneJob]
  have he : (report (oneJobState 10000 10002)).energy = 3216323 / 8 := by
    show energyLoop _ _ (effectiveDuration (lastFinish (oneJobState 10000 10002).server servers))
      servers = _
    rw [oneJob_duration]
    exact oneJob_energy
  rw [he, oneJob_duration, oneJob_exactEnergy]
  norm_num

/-- C14, amended: for every final state in which every server has
`0 ≤ util[i] ≤ D` and `freq[i] ≥ 0`, where `D`, the effective duration, is the
maximum of the configured duration and of every `server[i]` (it bounds them all
and is one of them), the reported energy is the value of the `float`
accumulation `e = 0; e = fl(e + fl(fl(fl(util[i]) * freq[i]) + fl(0.4 * (D - util[i]))))`
over the servers in index order, every `fl` rounding to `float` and the product
with the double literal `0.4` first to `double`; it differs from the sum over
the servers of `util[i] * freq[i] + 0.4 * (D - util[i])` by at most `2^-17`
times that sum. -/
theorem energy_accumulation (st : State)
    (hu : ∀ i : Nat, i < servers → 0 ≤ st.util (i : Int)
      ∧ st.util (i : Int) ≤ effectiveDuration (lastFinish st.server servers))
    (hf : ∀ i : Nat, i < servers → 0 ≤ st.freq (i : Int)) :
    (report st).energy
      = energyLoop st.util st.freq (effectiveDuration (lastFinish st.server servers)) servers
    ∧ energyLoop st.util st.freq (effectiveDuration (lastFinish st.server servers)) 0 = 0
    ∧ (∀ n : Nat,
        energyLoop st.util st.freq (effectiveDuration (lastFinish st.server servers)) (n + 1)
          = toFloat (energyLoop st.util st.freq
                (effectiveDuration (lastFinish st.server servers)) n
              + toFloat (toFloat (toFloat (st.util (n : Int) : ℚ) * st.freq (n : Int))
                + toFloat (toDouble (toDouble (4 / 10)
                    * ((effectiveDuration (lastFinish st.server servers) - st.util (n : Int)
                        : Int) : ℚ))))))
    ∧ |(report st).energy
          - ∑ i ∈ Finset.range servers,
              ((st.util (i : Int) : ℚ) * st.freq (i : Int)
                + 4 / 10 * (((effectiveDuration (lastFinish st.server servers) : Int) : ℚ)
                    - (st.util (i : Int) : ℚ)))|
        ≤ twoPow (-17)
          * ∑ i ∈ Finset.range servers,
              ((st.util (i : Int) : ℚ) * st.freq (i : Int)
                + 4 / 10 * (((effectiveDuration (lastFinish st.server servers) : Int) : ℚ)
                    - (st.util (i : Int) : ℚ)))
    ∧ (duration : Int) ≤ effectiveDuration (lastFinish st.server servers)
    ∧ (∀ i : Nat, i < servers →
        st.server (i : Int) ≤ effectiveDuration (lastFinish st.server servers))
    ∧ (effectiveDuration (lastFinish st.server servers) = (duration : Int)
        ∨ ∃ i : Nat, i < servers
            ∧ effectiveDuration (lastFinish st.server servers) = st.server (i : Int)) := by
  refine ⟨rfl, rfl, fun n => rfl, ?_, effectiveDuration_ge_duration _, ?_, ?_⟩
  · rw [← exactEnergy_eq_sum]
    exact energyLoop_near st.util st.freq _
      (fun i hi => ⟨(hu i hi).1, (hu i hi).2, hf i hi⟩)
  · intro i hi
    exact le_trans (lastFinish_ge st.server servers i hi) (effectiveDuration_ge_last _)
  · rcases effectiveDuration_mem (lastFinish st.server servers) with h | h
    · left; exact h
    · rcases lastFinish_mem st.server servers with h0 | ⟨i, hi, hm⟩
      · have hge := effectiveDuration_ge_duration (lastFinish st.server servers)
        rw [h, h0] at hge
        simp [duration] at hge
      · right
        exact ⟨i, hi, by rw [h, hm]⟩

/-- Witness for C14 (amended): the final state of the one-job run on
`drawsOneJob`, where the reported energy is `402040.375`. -/
theorem energy_accumulation_witness :
    (∀ i : Nat, i < servers → 0 ≤ (oneJobState 10000 10002).util (i : Int)
      ∧ (oneJobState 10000 10002).util (i : Int)
          ≤ effectiveDuration (lastFinish (oneJobState 10000 10002).server servers))
    ∧ (∀ i : Nat, i < servers → 0 ≤ (oneJobState 10000 10002).freq (i : Int))
    ∧ simulate false drawsOneJob ⟨0, 0⟩ 2 19990 = oneJobState 10000 10002
    ∧ |(report (oneJobState 10000 10002)).energy
          - ∑ i ∈ Finset.range servers,
              (((oneJobState 10000 10002).util (i : Int) : ℚ)
                  * (oneJobState 10000 10002).freq (i : Int)
                + 4 / 10 * (((effectiveDuration
                      (lastFinish (oneJobState 10000 10002).server servers) : Int) : ℚ)
                    - ((oneJobState 10000 10002).util (i : Int) : ℚ)))|
        ≤ twoPow (-17)
          * ∑ i ∈ Finset.range servers,
              (((oneJobState 10000 10002).util (i : Int) : ℚ)
                  * (oneJobState 10000 10002).freq (i : Int)
                + 4 / 10 * (((effectiveDuration
                      (lastFinish (oneJobState 10000 10002).server servers) : Int) : ℚ)
                    - ((oneJobState 10000 10002).util (i : Int) : ℚ))) :=
  have hu : ∀ i : Nat, i < servers → 0 ≤ (oneJobState 10000 10002).util (i : Int)
      ∧ (oneJobState 10000 10002).util (i : Int)
          ≤ effectiveDuration (lastFinish (oneJobState 10000 10002).server servers) := by
    intro i _
    rw [oneJob_duration]
    simp only [oneJobState]
    split_ifs <;> norm_num
  have hf : ∀ i : Nat, i < servers → 0 ≤ (oneJobState 10000 10002).freq (i : Int) := by
    intro i hi
    have := initFreq_bounds (i : Int) (by omega) (by simp only [servers] at hi; omega)
    show 0 ≤ initFreq (i : Int)
    linarith [this.1]
  ⟨hu, hf, simulate_oneJob, (energy_accumulation (oneJobState 10000 10002) hu hf).2.2.2.1⟩

/-- C15, counterexample: in the run with `arrival_rate = 2`,
`max_execution = 19990` and the draws `drawsOneJob`, server 1 is never assigned
a job and the effective duration is 10001; the amount the energy loop adds for
server 1 is `4000.39990234375`, not `0.4 * 10001 = 4000.4`. -/
theorem idle_term_not_exact :
    (simulate false drawsOneJob ⟨0, 0⟩ 2 19990).util 1 = 0
    ∧ effectiveDuration (lastFinish (simulate false drawsOneJob ⟨0, 0⟩ 2 19990).server servers)
        = 10001
    ∧ energyTerm (simulate false drawsOneJob ⟨0, 0⟩ 2 19990).util
        (simulate false drawsOneJob ⟨0, 0⟩ 2 19990).freq
        (effectiveDuration (lastFinish (simulate false drawsOneJob ⟨0, 0⟩ 2 19990).server servers))
        1 = 8192819 / 2048
    ∧ energyTerm (simulate false drawsOneJob ⟨0, 0⟩ 2 19990).util
        (simulate false drawsOneJob ⟨0, 0⟩ 2 19990).freq
        (effectiveDuration (lastFinish (simulate false drawsOneJob ⟨0, 0⟩ 2 19990).server servers))
        1 ≠ 4 / 10 * ((effectiveDuration (lastFinish
            (simulate false drawsOneJob ⟨0, 0⟩ 2 19990).server servers) : Int) : ℚ) := by
  rw [simulate_oneJob, oneJob_duration]
  have ht : energyTerm (oneJobState 10000 10002).util (oneJobState 10000 10002).freq 10001 1
      = 8192819 / 2048 := by
    rw [energyTerm_idle _ _ _ _ (by simp [oneJobState])]
    decide!
  rw [ht]
  refine ⟨by simp [oneJobState], rfl, rfl, by norm_num⟩

/-- C15, amended: a server with `util[i] = 0` adds to the energy the amount
`(float)(0.4 * D)`, the product rounded to `double` and then to `float`, `D`
being the effective duration, whatever its frequency is; that amount is within
`2^-25 * D` of `0.4 * D`, and it is added into the `float` accumulator, which
rounds the sum; and a run in which no tick has an arrival reports the energy
`servers * 0.4 * duration = 400000`. -/
theorem idle_energy ( rs : Bool) (rnd : Nat → ℚ) (u0 : Uninit) (ar mx : Int)
    (hno : ∀ n : Nat, n < duration → arrivesAt rs rnd ar mx (initState u0) n = false) :
    (∀ (st : State) (freq1 : Int → ℚ) (i : Int), st.util i = 0 →
        energyTerm st.util freq1 (effectiveDuration (lastFinish st.server servers)) i
          = toFloat (toDouble (toDouble (4 / 10)
              * ((effectiveDuration (lastFinish st.server servers) : Int) : ℚ))))
    ∧ (∀ D : Int, 0 ≤ D →
        |toFloat (toDouble (toDouble (4 / 10) * (D : ℚ))) - 4 / 10 * (D : ℚ)|
          ≤ twoPow (-25) * (D : ℚ))
    ∧ (∀ (st : State) (n : Nat), st.util (n : Int) = 0 →
        energyLoop st.util st.freq (effectiveDuration (lastFinish st.server servers)) (n + 1)
          = toFloat (energyLoop st.util st.freq
                (effectiveDuration (lastFinish st.server servers)) n
              + toFloat (toDouble (toDouble (4 / 10)
                  * ((effectiveDuration (lastFinish st.server servers) : Int) : ℚ)))))
    ∧ (simulate rs rnd u0 ar mx).jobs = 0
    ∧ (report (simulate rs rnd u0 ar mx)).energy = (servers : ℚ) * (4 / 10) * (duration : ℚ)
    ∧ (report (simulate rs rnd u0 ar mx)).energy = 400000 := by
  have hcount := arrivalCount_eq_zero rs rnd ar mx (initState u0) duration hno
  have hst := tickLoop_of_no_arrival rs rnd ar mx (initState u0) duration hcount
  have henergy : (report (simulate rs rnd u0 ar mx)).energy = 400000 := by
    unfold simulate
    rw [hst]
    show energyLoop (fun _ => 0) initFreq
      (effectiveDuration (lastFinish (fun _ => 0) servers)) servers = 400000
    rw [lastFinish_zero]
    have hd : effectiveDuration 0 = 10000 := by
      simp [effectiveDuration, duration]
    rw [hd]
    have h := energyLoop_idle_run initFreq 100 (le_refl _)
    rw [show servers = 100 from rfl, h]
    norm_num
  refine ⟨?_, idleTerm_near, ?_, ?_, ?_, henergy⟩
  · intro st freq1 i hi
    exact energyTerm_idle st.util freq1 _ i hi
  · intro st n hn
    show toFloat (_ + energyTerm st.util st.freq _ (n : Int)) = _
    rw [energyTerm_idle st.util st.freq _ _ hn]
  · unfold simulate
    rw [hst]
    rfl
  · rw [henergy]
    norm_num [servers, duration]

/-- Witness for C15 (amended): with `arrival_rate = -1` the arrival test fails
at every tick (here with every draw `0`). -/
theorem idle_energy_witness :
    (∀ n : Nat, n < duration → arrivesAt false drawsZero (-1) 10 (initState ⟨0, 0⟩) n = false)
    ∧ (report (simulate false drawsZero ⟨0, 0⟩ (-1) 10)).energy = 400000 :=
  ⟨fun _ _ => by simp [arrivesAt, arrival, drawsZero],
    (idle_energy false drawsZero ⟨0, 0⟩ (-1) 10
      (fun _ _ => by simp [arrivesAt, arrival, drawsZero])).2.2.2.2.2⟩

/-! ## Runs in which every `int` stays in range -/

theorem execTime_le_two_mul {jf jd f : ℚ} (hjf0 : 0 ≤ jf) (hjf1 : jf ≤ 1) (hjd : 0 ≤ jd)
    (hf : 6 / 10 ≤ f) (hf1 : f ≤ 1) : execTime jf jd f ≤ 2 * jd := by
  have hfpos : 0 < f := by linarith
  have herr := execTime_error hjf0 hjf1 hjd hfpos hf1
  rw [abs_le] at herr
  have hg1 : 1 ≤ 1 / f := by
    rw [le_div_iff₀ hfpos]
    linarith
  have hg2 : 1 / f ≤ 5 / 3 := by
    rw [div_le_iff₀ hfpos]
    linarith
  have hdiv : jd / f = jd * (1 / f) := by ring
  rw [hdiv] at herr
  generalize 1 / f = g at *
  have he : twoPow (-49) = 1 / 562949953421312 := by
    rw [twoPow_eq_zpow]
    norm_num
  rw [he] at herr
  have h0 : 0 ≤ jd * (g - 1) := mul_nonneg hjd (by linarith)
  have h1 : jd * (g - 1) * jf ≤ jd * (g - 1) * 1 := mul_le_mul_of_nonneg_left hjf1 h0
  have h2 : jd * g ≤ jd * (5 / 3) := mul_le_mul_of_nonneg_left hg2 hjd
  have h3 : jd * (1 + jf * (g - 1)) = jd + jd * (g - 1) * jf := by ring
  have h4 : jd * (g - 1) = jd * g - jd := by ring
  linarith [herr.2]

theorem schedule_task_duration_le ( rs : Bool) (rnd : Nat → ℚ) (mx t : Int) (st : State)
    (hmx : 10 ≤ mx) (hmx2 : mx ≤ 16777216) (hrnd : ∀ k, 0 ≤ rnd k ∧ rnd k < 1)
    (hfreq : st.freq = initFreq) :
    (schedule rs rnd mx t st).task_duration ≤ 2 * mx := by
  have hjd : (0 : ℚ) ≤ jobDuration mx (rnd (st.calls + 1)) := by
    have := jobDuration_ge mx (rnd (st.calls + 1)) hmx (hrnd _).1
    linarith
  have hjd2 := jobDuration_le mx (rnd (st.calls + 1)) hmx hmx2 (hrnd _).1 (hrnd _).2
  have hjf := jobFactor_range (rnd (st.calls + 2)) (hrnd _).1 (hrnd _).2
  have key : ∀ i : Int, 0 ≤ i → i < 100 →
      taskDuration (jobFactor (rnd (st.calls + 2))) (jobDuration mx (rnd (st.calls + 1)))
        (initFreq i) ≤ 2 * mx := by
    intro i h0 h1
    have hb := initFreq_bounds i h0 h1
    have hx := execTime_nonneg hjf.1 hjd (by linarith [hb.1]) hb.2
    have hle := execTime_le_two_mul hjf.1 hjf.2 hjd hb.1 hb.2
    have ht := toInt_le hx
    have : ((taskDuration (jobFactor (rnd (st.calls + 2)))
        (jobDuration mx (rnd (st.calls + 1))) (initFreq i) : Int) : ℚ) ≤ ((2 * mx : Int) : ℚ) := by
      unfold taskDuration
      push_cast
      linarith
    exact_mod_cast this
  unfold schedule
  cases rs with
  | false =>
    simp only [Bool.false_eq_true, if_false]
    rw [greedy_task_duration, hfreq]
    exact key 99 (by norm_num) (by norm_num)
  | true =>
    simp only [if_true]
    have hs := randomChoice_s_range st.freq (jobFactor (rnd (st.calls + 2)))
      (jobDuration mx (rnd (st.calls + 1))) (rnd (st.calls + 3)) (hrnd _).1 (hrnd _).2
    simp only [randomChoice] at hs ⊢
    rw [hfreq]
    exact key _ hs.1 hs.2

theorem tick_server_le ( rs : Bool) (rnd : Nat → ℚ) (ar mx : Int) (n : Nat) (st : State)
    (hmx : 10 ≤ mx) (hmx2 : mx ≤ 16777216) (hrnd : ∀ k, 0 ≤ rnd k ∧ rnd k < 1) (h : Inv st)
    (hb : ∀ j, st.server j ≤ (n : Int) * (2 * mx + 1)) (j : Int) :
    (tick rs rnd ar mx ((n : Int) + 1) st).server j ≤ ((n : Int) + 1) * (2 * mx + 1) := by
  have hn : (0 : Int) ≤ (n : Int) := Int.natCast_nonneg n
  have hP : (n : Int) ≤ (n : Int) * (2 * mx + 1) := by nlinarith
  have hQ : ((n : Int) + 1) * (2 * mx + 1) = (n : Int) * (2 * mx + 1) + (2 * mx + 1) := by ring
  rw [hQ]
  generalize (n : Int) * (2 * mx + 1) = P at hb hP ⊢
  cases harr : arrival (rnd st.calls) ar with
  | false =>
    rw [tick_of_no_arrival rs rnd ar mx _ st harr]
    have := hb j
    show st.server j ≤ _
    omega
  | true =>
    rw [tick_of_arrival rs rnd ar mx _ st harr, bookkeeping_server]
    have hd := schedule_task_duration_le rs rnd mx ((n : Int) + 1) st hmx hmx2 hrnd h.1
    have hs := hb (schedule rs rnd mx ((n : Int) + 1) st).s
    by_cases hj : j = (schedule rs rnd mx ((n : Int) + 1) st).s
    · simp only [hj, if_true]
      unfold max
      split_ifs <;> omega
    · simp only [hj, if_false]
      have := hb j
      omega

theorem tickLoop_server_le ( rs : Bool) (rnd : Nat → ℚ) (ar mx : Int) (u0 : Uninit)
    (hmx : 10 ≤ mx) (hmx2 : mx ≤ 16777216) (hrnd : ∀ k, 0 ≤ rnd k ∧ rnd k < 1) (n : Nat) (j : Int) :
    (tickLoop rs rnd ar mx n (initState u0)).server j ≤ (n : Int) * (2 * mx + 1) := by
  induction n generalizing j with
  | zero =>
    show (0 : Int) ≤ ((0 : Nat) : Int) * (2 * mx + 1)
    simp
  | succ m ih =>
    have hinv := tickLoop_Inv rs rnd ar mx m (initState u0) hmx hrnd (initState_Inv u0)
    have := tick_server_le rs rnd ar mx m _ hmx hmx2 hrnd hinv ih j
    show (tick rs rnd ar mx ((m : Int) + 1) (tickLoop rs rnd ar mx m (initState u0))).server j ≤ _
    push_cast
    exact this

/-- For `max_execution` up to 100000 the conversions of a run never leave the
range of `int`: the run of the machine model is the run of `main`. -/
theorem tickLoopBy_cvtInt ( rs : Bool) (rnd : Nat → ℚ) (ar mx : Int) (u0 : Uninit)
    (hmx : 10 ≤ mx) (hmx2 : mx ≤ 100000) (hrnd : ∀ k, 0 ≤ rnd k ∧ rnd k < 1)
    (n : Nat) (hn : n ≤ 10000) :
    tickLoopBy cvtInt rs rnd ar mx n (initState u0) = tickLoop rs rnd ar mx n (initState u0) := by
  induction n with
  | zero => rfl
  | succ m ih =>
    show tickBy cvtInt rs rnd ar mx ((m : Int) + 1) (tickLoopBy cvtInt rs rnd ar mx m (initState u0))
      = tick rs rnd ar mx ((m : Int) + 1) (tickLoop rs rnd ar mx m (initState u0))
    rw [ih (by omega)]
    apply tickBy_congr
    have hinv := tickLoop_Inv rs rnd ar mx m (initState u0) hmx hrnd (initState_Inv u0)
    have hsrv := tickLoop_server_le rs rnd ar mx u0 hmx (by omega) hrnd m 0
    generalize tickLoop rs rnd ar mx m (initState u0) = st at hinv hsrv ⊢
    have hjd : (0 : ℚ) ≤ jobDuration mx (rnd (st.calls + 1)) := by
      have := jobDuration_ge mx (rnd (st.calls + 1)) hmx (hrnd _).1
      linarith
    have hjd2 := jobDuration_le mx (rnd (st.calls + 1)) hmx (by omega) (hrnd _).1 (hrnd _).2
    have hjf := jobFactor_range (rnd (st.calls + 2)) (hrnd _).1 (hrnd _).2
    have hmxq : (mx : ℚ) ≤ 100000 := by exact_mod_cast hmx2
    have hx : ∀ i : Int, 0 ≤ i → i < 100 →
        0 ≤ execTime (jobFactor (rnd (st.calls + 2))) (jobDuration mx (rnd (st.calls + 1)))
            (st.freq i)
        ∧ execTime (jobFactor (rnd (st.calls + 2))) (jobDuration mx (rnd (st.calls + 1)))
            (st.freq i) ≤ 200000 := by
      intro i h0 h1
      rw [hinv.1]
      have hb := initFreq_bounds i h0 h1
      refine ⟨execTime_nonneg hjf.1 hjd (by linarith [hb.1]) hb.2, ?_⟩
      have := execTime_le_two_mul hjf.1 hjf.2 hjd hb.1 hb.2
      linarith
    have hr := toInt_hundred_range (hrnd (st.calls + 3)).1 (hrnd (st.calls + 3)).2
    refine scheduleBy_congr cvtInt rs rnd mx ((m : Int) + 1) st ?_ ?_ ?_ hr.1 hr.2
    · intro i h0 h1
      exact cvtInt_of_range (hx i h0 h1).1 (by linarith [(hx i h0 h1).2])
    · have h0 := hx 0 (le_refl _) (by norm_num)
      have hm1 := max_ge_left ((m : Int) + 1) (st.server 0)
      have hm2 : max ((m : Int) + 1) (st.server 0) ≤ 1999809999 := by
        have hmm : (m : Int) * (2 * mx + 1) ≤ 9999 * 200001 :=
          mul_le_mul (by omega) (by omega) (by omega) (by norm_num)
        unfold max
        split_ifs <;> omega
      have hm1q : (0 : ℚ) ≤ ((max ((m : Int) + 1) (st.server 0) : Int) : ℚ) := by
        have : (0 : Int) ≤ max ((m : Int) + 1) (st.server 0) := by omega
        exact_mod_cast this
      have hm2q : ((max ((m : Int) + 1) (st.server 0) : Int) : ℚ) ≤ 1999809999 := by
        exact_mod_cast hm2
      exact cvtInt_of_range (by linarith [h0.1]) (by linarith [h0.2])
    · have h0 := (hrnd (st.calls + 3)).1
      have h1 := (hrnd (st.calls + 3)).2
      exact cvtInt_of_range (by linarith) (by linarith)

theorem printedUtilization_range (u dur : Int) (h0 : 0 ≤ u) (h1 : u ≤ dur * (servers : Int))
    (hd : 0 < dur) :
    0 ≤ printedUtilization u dur ∧ printedUtilization u dur ≤ 1 := by
  have hden : (0 : ℚ) < ((dur * (servers : Int) : Int) : ℚ) := by
    have : (0 : Int) < dur * (servers : Int) := by
      simp only [servers]
      omega
    exact_mod_cast this
  have hu : (0 : ℚ) ≤ (u : ℚ) + 0 := by
    have : (0 : ℚ) ≤ (u : ℚ) := by exact_mod_cast h0
    linarith
  have hq0 : 0 ≤ ((u : ℚ) + 0) / ((dur * (servers : Int) : Int) : ℚ) :=
    div_nonneg hu (le_of_lt hden)
  have hq1 : ((u : ℚ) + 0) / ((dur * (servers : Int) : Int) : ℚ) ≤ 1 := by
    rw [div_le_one hden]
    have : ((u : Int) : ℚ) ≤ ((dur * (servers : Int) : Int) : ℚ) := by exact_mod_cast h1
    linarith
  unfold printedUtilization
  refine ⟨toFloat_nonneg (toDouble_nonneg hq0), ?_⟩
  have h2 := toDouble_mono hq0 hq1
  rw [toDouble_one] at h2
  have h3 := toFloat_mono (toDouble_nonneg hq0) h2
  rw [toFloat_one] at h3
  exact h3

/-! ## The claims on the server state and the utilization -/

set_option maxRecDepth 1000000 in
/-- C3, counterexample: the accepted input `arrival_rate = 2`,
`max_execution = 2147483647` with the draws `drawsLargest`, on a machine whose
conversion to `int` is `cvtInt`. The job of tick 1 gets the task duration
`INT_MIN`, so `util[0] = -2147483648`, and the utilization, reported and
printed, is negative (`-2147.48`). -/
theorem utilization_out_of_range :
    (10 : Int) ≤ 2147483647 ∧ (0 : Int) < 2
    ∧ (∀ k, 0 ≤ drawsLargest k ∧ drawsLargest k < 1)
    ∧ (simulateBy cvtInt false drawsLargest ⟨0, 0⟩ 2 2147483647).util 0 = -2147483648
    ∧ (report (simulateBy cvtInt false drawsLargest ⟨0, 0⟩ 2 2147483647)).utilization
        = -2147483648 / 1000000
    ∧ (report (simulateBy cvtInt false drawsLargest ⟨0, 0⟩ 2 2147483647)).utilization < 0
    ∧ printedUtilization
        (totalUtil (simulateBy cvtInt false drawsLargest ⟨0, 0⟩ 2 2147483647).util servers)
        (effectiveDuration (lastFinish
          (simulateBy cvtInt false drawsLargest ⟨0, 0⟩ 2 2147483647).server servers)) < 0 := by
  rw [simulateBy_largest]
  refine ⟨by norm_num, by norm_num, ?_, by decide!, by decide!, by decide!, by decide!⟩
  intro k
  unfold drawsLargest
  split_ifs <;> norm_num

/-- C3, amended: for every arrival rate, every `max_execution` from 10 to 1000
and every sequence of draws in `[0, 1)`, in either mode, after the simulation
loop the busy time `util[i]` of every server is between 0 and the effective
duration, the maximum of `duration` and of every `server[i]`, and the overall
utilization, as computed and as printed in `float`, lies in `[0, 1]`. In these
runs no conversion to `int` leaves the range of `int` (the run of the machine
model is the run of `main`), every `server[i]` is at most 20010000 and the
product `duration * servers` at most 2001000000. -/
theorem saturation_bound ( rs : Bool) (rnd : Nat → ℚ) (u0 : Uninit) (ar mx : Int)
    (hmx : 10 ≤ mx) (hmx2 : mx ≤ 1000) (hrnd : ∀ k, 0 ≤ rnd k ∧ rnd k < 1) :
    simulateBy cvtInt rs rnd u0 ar mx = simulate rs rnd u0 ar mx
    ∧ (∀ i : Nat, i < servers →
        0 ≤ (simulateBy cvtInt rs rnd u0 ar mx).util (i : Int)
        ∧ (simulateBy cvtInt rs rnd u0 ar mx).util (i : Int)
          ≤ effectiveDuration (lastFinish (simulateBy cvtInt rs rnd u0 ar mx).server servers))
    ∧ effectiveDuration (lastFinish (simulateBy cvtInt rs rnd u0 ar mx).server servers)
        = (duration : Int) ⊔ lastFinish (simulateBy cvtInt rs rnd u0 ar mx).server servers
    ∧ (∀ i : Nat, i < servers →
        (simulateBy cvtInt rs rnd u0 ar mx).server (i : Int)
          ≤ lastFinish (simulateBy cvtInt rs rnd u0 ar mx).server servers)
    ∧ (∀ i : Nat, i < servers →
        0 ≤ (simulateBy cvtInt rs rnd u0 ar mx).server (i : Int)
        ∧ (simulateBy cvtInt rs rnd u0 ar mx).server (i : Int) ≤ 20010000)
    ∧ effectiveDuration (lastFinish (simulateBy cvtInt rs rnd u0 ar mx).server servers)
        * (servers : Int) ≤ 2001000000
    ∧ 0 ≤ totalUtil (simulateBy cvtInt rs rnd u0 ar mx).util servers
    ∧ totalUtil (simulateBy cvtInt rs rnd u0 ar mx).util servers
        ≤ effectiveDuration (lastFinish (simulateBy cvtInt rs rnd u0 ar mx).server servers)
          * (servers : Int)
    ∧ 0 ≤ (report (simulateBy cvtInt rs rnd u0 ar mx)).utilization
    ∧ (report (simulateBy cvtInt rs rnd u0 ar mx)).utilization ≤ 1
    ∧ 0 ≤ printedUtilization (totalUtil (simulateBy cvtInt rs rnd u0 ar mx).util servers)
        (effectiveDuration (lastFinish (simulateBy cvtInt rs rnd u0 ar mx).server servers))
    ∧ printedUtilization (totalUtil (simulateBy cvtInt rs rnd u0 ar mx).util servers)
        (effectiveDuration (lastFinish (simulateBy cvtInt rs rnd u0 ar mx).server servers))
        ≤ 1 := by
  have hsim : simulateBy cvtInt rs rnd u0 ar mx = simulate rs rnd u0 ar mx :=
    tickLoopBy_cvtInt rs rnd ar mx u0 hmx (by omega) hrnd duration (le_refl _)
  rw [hsim]
  have hinv : Inv (simulate rs rnd u0 ar mx) :=
    tickLoop_Inv rs rnd ar mx duration (initState u0) hmx hrnd (initState_Inv u0)
  have hsrv : ∀ j, (simulate rs rnd u0 ar mx).server j ≤ 20010000 := by
    intro j
    have h := tickLoop_server_le rs rnd ar mx u0 hmx (by omega) hrnd duration j
    have h2 : ((duration : Nat) : Int) * (2 * mx + 1) ≤ 10000 * 2001 :=
      mul_le_mul (by simp [duration]) (by omega) (by omega) (by norm_num)
    show (tickLoop rs rnd ar mx duration (initState u0)).server j ≤ 20010000
    omega
  generalize simulate rs rnd u0 ar mx = st at hinv hsrv ⊢
  have hbusy : ∀ i : Nat, i < servers →
      st.util (i : Int) ≤ effectiveDuration (lastFinish st.server servers) := by
    intro i hi
    have h1 := (hinv.2 (i : Int)).2
    have h2 := lastFinish_ge st.server servers i hi
    have h3 := effectiveDuration_ge_last (lastFinish st.server servers)
    omega
  have hDle : effectiveDuration (lastFinish st.server servers) ≤ 20010000 := by
    rcases effectiveDuration_mem (lastFinish st.server servers) with h | h
    · rw [h]
      simp [duration]
    · rw [h]
      rcases lastFinish_mem st.server servers with h0 | ⟨i, _, hm⟩
      · rw [h0]
        norm_num
      · rw [hm]
        exact hsrv _
  have hDpos : (0 : Int) < effectiveDuration (lastFinish st.server servers) := by
    have := effectiveDuration_ge_duration (lastFinish st.server servers)
    simp only [duration] at this
    omega
  set D := effectiveDuration (lastFinish st.server servers) with hD
  have htot := totalUtil_bounds st.util D servers
    (fun i hi => ⟨(hinv.2 (i : Int)).1, hbusy i hi⟩)
  have htot2 : totalUtil st.util servers ≤ D * (servers : Int) := by
    have := htot.2
    linarith
  have hden : (0 : ℚ) < ((D * (servers : Int) : Int) : ℚ) := by
    have : (0 : Int) < D * (servers : Int) := by
      simp only [servers]
      omega
    exact_mod_cast this
  have hprint := printedUtilization_range (totalUtil st.util servers) D htot.1 htot2 hDpos
  refine ⟨rfl, fun i hi => ⟨(hinv.2 (i : Int)).1, hbusy i hi⟩, effectiveDuration_eq_sup _,
    fun i hi => lastFinish_ge st.server servers i hi, ?_, ?_, htot.1, htot2, ?_, ?_,
    hprint.1, hprint.2⟩
  · intro i _
    have h1 := hinv.2 (i : Int)
    exact ⟨le_trans h1.1 h1.2, hsrv _⟩
  · simp only [servers]
    push_cast
    omega
  · simp only [report, add_zero]
    apply div_nonneg
    · exact_mod_cast htot.1
    · exact le_of_lt hden
  · simp only [report, add_zero]
    rw [div_le_one hden]
    exact_mod_cast htot2

/-- Witness for C3 (amended): the run with `arrival_rate = 1`,
`max_execution = 10` and every draw `0`, in greedy mode. -/
theorem saturation_bound_witness :
    (10 : Int) ≤ 10 ∧ (10 : Int) ≤ 1000 ∧ (∀ k, 0 ≤ drawsZero k ∧ drawsZero k < 1)
    ∧ 0 ≤ (report (simulateBy cvtInt false drawsZero ⟨0, 0⟩ 1 10)).utilization
    ∧ (report (simulateBy cvtInt false drawsZero ⟨0, 0⟩ 1 10)).utilization ≤ 1 :=
  ⟨le_refl _, by norm_num, fun _ => ⟨le_refl _, zero_lt_one⟩,
    (saturation_bound false drawsZero ⟨0, 0⟩ 1 10 (le_refl _) (by norm_num)
      (fun _ => ⟨le_refl _, zero_lt_one⟩)).2.2.2.2.2.2.2.2.1,
    (saturation_bound false drawsZero ⟨0, 0⟩ 1 10 (le_refl _) (by norm_num)
      (fun _ => ⟨le_refl _, zero_lt_one⟩)).2.2.2.2.2.2.2.2.2.1⟩

set_option maxRecDepth 1000000 in
/-- C17, counterexample: the accepted input `arrival_rate = 2`,
`max_execution = 2147483647` with the draws `drawsLargest`, on a machine whose
conversion to `int` is `cvtInt`. Tick 1 takes `server[0]` from 0 to
`-2147483647` and `util[0]` from 0 to `-2147483648`. -/
theorem server_state_decreases :
    (10 : Int) ≤ 2147483647 ∧ (0 : Int) < 2
    ∧ (∀ k, 0 ≤ drawsLargest k ∧ drawsLargest k < 1)
    ∧ (initState ⟨0, 0⟩).server 0 = 0 ∧ (initState ⟨0, 0⟩).util 0 = 0
    ∧ (tickBy cvtInt false drawsLargest 2 2147483647 1 (initState ⟨0, 0⟩)).server 0 = -2147483647
    ∧ (tickBy cvtInt false drawsLargest 2 2147483647 1 (initState ⟨0, 0⟩)).util 0 = -2147483648
    ∧ (tickBy cvtInt false drawsLargest 2 2147483647 1 (initState ⟨0, 0⟩)).server 0
        < (initState ⟨0, 0⟩).server 0
    ∧ (tickBy cvtInt false drawsLargest 2 2147483647 1 (initState ⟨0, 0⟩)).util 0
        < (initState ⟨0, 0⟩).util 0 := by
  rw [tickBy_booked cvtInt false drawsLargest 2 2147483647 1 (initState ⟨0, 0⟩) _ (by decide!)
    scheduleBy_largest_first]
  refine ⟨by norm_num, by norm_num, ?_, by decide!, by decide!, by decide!, by decide!,
    by decide!, by decide!⟩
  intro k
  unfold drawsLargest
  split_ifs <;> norm_num

/-- C17, amended: every server starts with `server[j] = 0` and `util[j] = 0`,
and for every arrival rate, every `max_execution` from 10 to 100000 and every
sequence of draws in `[0, 1)`, in either mode, each tick of the simulation
leaves `server[j]` and `util[j]` at least as large as before it; both are
non-decreasing over the run, non-negative and at most 2000010000. In these runs
no conversion to `int` leaves the range of `int`: the run of the machine model
is the run of `main`. -/
theorem monotone_server_state ( rs : Bool) (rnd : Nat → ℚ) (u0 : Uninit) (ar mx : Int)
    (hmx : 10 ≤ mx) (hmx2 : mx ≤ 100000) (hrnd : ∀ k, 0 ≤ rnd k ∧ rnd k < 1) :
    (∀ j : Int, (initState u0).server j = 0 ∧ (initState u0).util j = 0)
    ∧ (∀ n : Nat, n ≤ duration →
        tickLoopBy cvtInt rs rnd ar mx n (initState u0) = tickLoop rs rnd ar mx n (initState u0))
    ∧ (∀ (n : Nat) (j : Int), n < duration →
        (tickLoopBy cvtInt rs rnd ar mx n (initState u0)).server j
            ≤ (tickBy cvtInt rs rnd ar mx ((n : Int) + 1)
                (tickLoopBy cvtInt rs rnd ar mx n (initState u0))).server j
        ∧ (tickLoopBy cvtInt rs rnd ar mx n (initState u0)).util j
            ≤ (tickBy cvtInt rs rnd ar mx ((n : Int) + 1)
                (tickLoopBy cvtInt rs rnd ar mx n (initState u0))).util j)
    ∧ (∀ (n k : Nat) (j : Int), n + k ≤ duration →
        (tickLoopBy cvtInt rs rnd ar mx n (initState u0)).server j
            ≤ (tickLoopBy cvtInt rs rnd ar mx (n + k) (initState u0)).server j
        ∧ (tickLoopBy cvtInt rs rnd ar mx n (initState u0)).util j
            ≤ (tickLoopBy cvtInt rs rnd ar mx (n + k) (initState u0)).util j)
    ∧ (∀ (n : Nat) (j : Int), n ≤ duration →
        0 ≤ (tickLoopBy cvtInt rs rnd ar mx n (initState u0)).util j
        ∧ (tickLoopBy cvtInt rs rnd ar mx n (initState u0)).util j
            ≤ (tickLoopBy cvtInt rs rnd ar mx n (initState u0)).server j
        ∧ (tickLoopBy cvtInt rs rnd ar mx n (initState u0)).server j ≤ 2000010000) := by
  have heq : ∀ n : Nat, n ≤ duration →
      tickLoopBy cvtInt rs rnd ar mx n (initState u0) = tickLoop rs rnd ar mx n (initState u0) :=
    fun n hn => tickLoopBy_cvtInt rs rnd ar mx u0 hmx hmx2 hrnd n hn
  have hinv : ∀ n : Nat, Inv (tickLoop rs rnd ar mx n (initState u0)) :=
    fun n => tickLoop_Inv rs rnd ar mx n (initState u0) hmx hrnd (initState_Inv u0)
  have hstep : ∀ (n : Nat) (j : Int),
      (tickLoop rs rnd ar mx n (initState u0)).server j
          ≤ (tickLoop rs rnd ar mx (n + 1) (initState u0)).server j
      ∧ (tickLoop rs rnd ar mx n (initState u0)).util j
          ≤ (tickLoop rs rnd ar mx (n + 1) (initState u0)).util j :=
    fun n j => tick_mono rs rnd ar mx _ _ hmx hrnd (hinv n) j
  refine ⟨fun _ => ⟨rfl, rfl⟩, heq, ?_, ?_, ?_⟩
  · intro n j hn
    have h1 := heq n (by omega)
    have h2 := heq (n + 1) (by omega)
    have h3 : tickBy cvtInt rs rnd ar mx ((n : Int) + 1)
        (tickLoopBy cvtInt rs rnd ar mx n (initState u0))
        = tickLoopBy cvtInt rs rnd ar mx (n + 1) (initState u0) := rfl
    rw [h3, h2, h1]
    exact hstep n j
  · intro n k j hnk
    rw [heq n (by omega), heq (n + k) hnk]
    clear hnk
    induction k with
    | zero => exact ⟨le_refl _, le_refl _⟩
    | succ m ih =>
      have h := hstep (n + m) j
      exact ⟨le_trans ih.1 h.1, le_trans ih.2 h.2⟩
  · intro n j hn
    rw [heq n hn]
    have h := (hinv n).2 j
    refine ⟨h.1, h.2, ?_⟩
    have hs := tickLoop_server_le rs rnd ar mx u0 hmx (by omega) hrnd n j
    have h2 : (n : Int) * (2 * mx + 1) ≤ 10000 * 200001 :=
      mul_le_mul (by simp only [duration] at hn; omega) (by omega) (by omega) (by norm_num)
    omega

/-- Witness for C17 (amended): the greedy run with `arrival_rate = 1`,
`max_execution = 10` and every draw `0`, at its first tick and server 0. -/
theorem monotone_server_state_witness :
    (10 : Int) ≤ 10 ∧ (10 : Int) ≤ 100000 ∧ (∀ k, 0 ≤ drawsZero k ∧ drawsZero k < 1)
    ∧ (tickLoopBy cvtInt false drawsZero 1 10 0 (initState ⟨0, 0⟩)).server 0
        ≤ (tickBy cvtInt false drawsZero 1 10 (((0 : Nat) : Int) + 1)
            (tickLoopBy cvtInt false drawsZero 1 10 0 (initState ⟨0, 0⟩))).server 0 :=
  ⟨le_refl _, by norm_num, fun _ => ⟨le_refl _, zero_lt_one⟩,
    ((monotone_server_state false drawsZero ⟨0, 0⟩ 1 10 (le_refl _) (by norm_num)
      (fun _ => ⟨le_refl _, zero_lt_one⟩)).2.2.1 0 0 (by norm_num [duration])).1⟩

/-- The hypotheses of the energy bound hold at the end of every run with
`10 ≤ max_execution ≤ 1000` and draws in `[0, 1)`: there the reported energy is
within `2^-17` of the exact sum, relatively. -/
theorem simulate_energy_near ( rs : Bool) (rnd : Nat → ℚ) (u0 : Uninit) (ar mx : Int)
    (hmx : 10 ≤ mx) (hmx2 : mx ≤ 1000) (hrnd : ∀ k, 0 ≤ rnd k ∧ rnd k < 1) :
    simulateBy cvtInt rs rnd u0 ar mx = simulate rs rnd u0 ar mx
    ∧ |(report (simulate rs rnd u0 ar mx)).energy
          - exactEnergy (simulate rs rnd u0 ar mx).util (simulate rs rnd u0 ar mx).freq
              (effectiveDuration (lastFinish (simulate rs rnd u0 ar mx).server servers)) servers|
        ≤ twoPow (-17)
          * exactEnergy (simulate rs rnd u0 ar mx).util (simulate rs rnd u0 ar mx).freq
              (effectiveDuration (lastFinish (simulate rs rnd u0 ar mx).server servers))
              servers := by
  have hsim : simulateBy cvtInt rs rnd u0 ar mx = simulate rs rnd u0 ar mx :=
    tickLoopBy_cvtInt rs rnd ar mx u0 hmx (by omega) hrnd duration (le_refl _)
  have hinv : Inv (simulate rs rnd u0 ar mx) :=
    tickLoop_Inv rs rnd ar mx duration (initState u0) hmx hrnd (initState_Inv u0)
  refine ⟨hsim, ?_⟩
  apply energyLoop_near
  intro i hi
  have h1 := hinv.2 (i : Int)
  have h2 := lastFinish_ge (simulate rs rnd u0 ar mx).server servers i hi
  have h3 := effectiveDuration_ge_last (lastFinish (simulate rs rnd u0 ar mx).server servers)
  refine ⟨h1.1, by omega, ?_⟩
  rw [hinv.1]
  have hb := initFreq_bounds (i : Int) (by omega) (by simp only [servers] at hi; omega)
  linarith [hb.1]

end Scheduling
